import Mathlib

/-!
# go-notes: a verification development

Embedding of the concurrency examples of the repository

* `02-interfaces-examples/main.go`: `BufferedWriterCloser`
* `03-goroutines-examples/main.go`: wait group and reader/writer lock demos
* `04-channels-examples/main.go`: channel demos
* `05-channels-logger/main.go`: the channel logger

Goroutines are embedded as step functions over an explicit state; a schedule is
the list of choices the Go scheduler makes.  The primitives of the Go runtime
(channels, `sync.WaitGroup`, `sync.RWMutex`, `bytes.Buffer`, `time.Format`) are
not part of the repository: they are modelled after the language
specification and the standard library documentation.  An `int` is 64 bits
wide and its arithmetic wraps around.  Whether a call of `fmt.Println` in
`BufferedWriterCloser` fails is an input of the model.
-/

namespace GoNotes

/-! ## Part 1: `bytes.Buffer` and `BufferedWriterCloser` (02-interfaces-examples) -/

/-- A byte, kept as a natural number. -/
abbrev Byte := Nat

/-- The standard output, as the list of the calls of `fmt.Println` that went
through so far: each entry is the argument of one call (the newline is
implied). -/
abbrev Console := List (List Byte)

/-- The call `fmt.Println(string(v))`.  Whether a write to the standard output
fails is not decided by the program: `errs` lists, for the calls to come,
whether the call returns a non-nil error (the calls after the last one listed
go through).  The result is the console and the outcomes left, and whether
the error is non-nil.  What a failing call wrote, if anything, is not kept. -/
def Println (out : Console) (errs : List Bool) (v : List Byte) : Console × List Bool × Bool :=
  match errs with
  | true :: rest => (out, rest, true)
  | false :: rest => (out ++ [v], rest, false)
  | [] => (out ++ [v], [], false)

/-- The unread part of a `bytes.Buffer`. -/
structure Buffer where
  unread : List Byte
deriving DecidableEq, Repr

/-- The call `bytes.NewBuffer([]byte{})`. -/
def NewBuffer : Buffer := ⟨[]⟩

/-- The method `Buffer.Len`: the number of unread bytes. -/
def Buffer.Len (b : Buffer) : Nat := b.unread.length

/-- The method `Buffer.Write`: appends `data`, returns its length; the error is
always nil. -/
def Buffer.Write (b : Buffer) (data : List Byte) : Nat × Buffer :=
  (data.length, ⟨b.unread ++ data⟩)

/-- The method `Buffer.Read`: copies up to `len(p)` unread bytes to the front
of `p`.  The result is the count, whether the error is `io.EOF`, the buffer
and the slice `p` afterwards. -/
def Buffer.Read (b : Buffer) (p : List Byte) : Nat × Bool × Buffer × List Byte :=
  match b.unread with
  | [] => (0, decide (p.length ≠ 0), b, p)
  | _ :: _ =>
    let n := min p.length b.unread.length
    (n, false, ⟨b.unread.drop n⟩, b.unread.take n ++ p.drop n)

/-- The method `Buffer.Next`: the next `n` unread bytes (fewer when the buffer
is shorter), which are consumed. -/
def Buffer.Next (b : Buffer) (n : Nat) : List Byte × Buffer :=
  (b.unread.take n, ⟨b.unread.drop n⟩)

/-- The type `BufferedWriterCloser`: a pointer to a buffer. -/
structure BufferedWriterCloser where
  buffer : Buffer
deriving DecidableEq, Repr

/-- The constructor `NewBufferedWriterCloser`. -/
def NewBufferedWriterCloser : BufferedWriterCloser := ⟨NewBuffer⟩

/-- What a call of `Write` or `Close` gives back: the returned count, whether
the returned error is non-nil, the writer and the console afterwards, and the
outcomes left for the calls of `fmt.Println` to come. -/
structure CallResult where
  n : Nat
  err : Bool
  bwc : BufferedWriterCloser
  out : Console
  errs : List Bool
deriving DecidableEq, Repr

/-- The loop `for bwc.buffer.Len() > 8 { ... }` of `Write`, with `v` the
temporary slice and `n` the count to return.  `fuel` bounds the number of
iterations; `none` means the fuel ran out. -/
def writeLoop : Nat → Nat → Buffer → List Byte → Console → List Bool → Option CallResult
  | 0, _, _, _, _, _ => none
  | fuel + 1, n, b, v, out, errs =>
    if b.Len > 8 then
      match b.Read v with
      | (_, true, b1, _) => some ⟨0, true, ⟨b1⟩, out, errs⟩
      | (_, false, b1, v1) =>
        match Println out errs v1 with
        | (out1, errs1, true) => some ⟨0, true, ⟨b1⟩, out1, errs1⟩
        | (out1, errs1, false) => writeLoop fuel n b1 v1 out1 errs1
    else some ⟨n, false, ⟨b⟩, out, errs⟩

/-- The method `BufferedWriterCloser.Write`. -/
def BufferedWriterCloser.Write (bwc : BufferedWriterCloser) (data : List Byte)
    (out : Console) (errs : List Bool) : Option CallResult :=
  let (n, b) := bwc.buffer.Write data
  let v : List Byte := List.replicate 8 0
  writeLoop (b.Len + 1) n b v out errs

/-- The loop `for bwc.buffer.Len() > 0 { ... }` of `Close`. -/
def closeLoop : Nat → Buffer → Console → List Bool → Option CallResult
  | 0, _, _, _ => none
  | fuel + 1, b, out, errs =>
    if b.Len > 0 then
      match b.Next 8 with
      | (data, b1) =>
        match Println out errs data with
        | (out1, errs1, true) => some ⟨0, true, ⟨b1⟩, out1, errs1⟩
        | (out1, errs1, false) => closeLoop fuel b1 out1 errs1
    else some ⟨0, false, ⟨b⟩, out, errs⟩

/-- The method `BufferedWriterCloser.Close`. -/
def BufferedWriterCloser.Close (bwc : BufferedWriterCloser) (out : Console)
    (errs : List Bool) : Option CallResult :=
  closeLoop (bwc.buffer.Len + 1) bwc.buffer out errs

/-- The bytes of an ASCII string. -/
def bytesOf (s : String) : List Byte := s.toList.map Char.toNat

/-! ## Part 2: the log record and its rendering (05-channels-logger) -/

/-- A `time.Time`, as the civil date and clock time it shows in the local
zone.  The year is an `int` and can be negative; the other fields are within
the calendar. -/
structure Time where
  year : Int
  month : Nat
  day : Nat
  hour : Nat
  minute : Nat
  second : Nat
deriving DecidableEq, Repr

/-- The zero `time.Time`: January 1, year 1, 00:00:00. -/
def Time.zero : Time := ⟨1, 1, 1, 0, 0, 0⟩

/-- The decimal digits of `u`, the most significant first, as `time.Format`
assembles them: the last digit is `'0' + u % 10`, and the digits before it
are those of `u / 10` as long as `u >= 10`.  `fuel` bounds the number of
digits; `u + 1` is enough. -/
def decimal : Nat → Nat → List Char
  | 0, _ => []
  | fuel + 1, u =>
    if u < 10 then [Char.ofNat (48 + u)]
    else decimal fuel (u / 10) ++ [Char.ofNat (48 + u % 10)]

/-- How `time.Format` writes the number `x` in a field of `width` digits: a
minus sign when `x` is negative, then the decimal digits of its absolute
value, zero padded on the left up to `width` digits; a number with more digits
is written in full. -/
def appendInt (x : Int) (width : Nat) : List Char :=
  (if x < 0 then ['-'] else []) ++
    List.replicate (width - (decimal (x.natAbs + 1) x.natAbs).length) '0' ++
    decimal (x.natAbs + 1) x.natAbs

/-- The method `Time.Format` on the layout elements the logger uses: `2006`
(year, four digits), `01` (month), `02` (day), `15` (hour), `04` (minute),
`05` (second), two digits each; every other character stands for itself. -/
def formatLayout (t : Time) : List Char → List Char
  | '2' :: '0' :: '0' :: '6' :: r => appendInt t.year 4 ++ formatLayout t r
  | '0' :: '1' :: r => appendInt t.month 2 ++ formatLayout t r
  | '0' :: '2' :: r => appendInt t.day 2 ++ formatLayout t r
  | '1' :: '5' :: r => appendInt t.hour 2 ++ formatLayout t r
  | '0' :: '4' :: r => appendInt t.minute 2 ++ formatLayout t r
  | '0' :: '5' :: r => appendInt t.second 2 ++ formatLayout t r
  | c :: r => c :: formatLayout t r
  | [] => []

/-- The method `Time.Format`. -/
def Time.Format (t : Time) (layout : String) : String :=
  ⟨formatLayout t layout.data⟩

/-- The type `logEntry`. -/
structure logEntry where
  time : Time
  severity : String
  message : String
deriving DecidableEq, Repr

/-- The constant `logInfo`. -/
def logInfo : String := "INFO"

/-- The constant `logWarning`. -/
def logWarning : String := "WARNING"

/-- The constant `logError`. -/
def logError : String := "ERROR"

/-- The call `fmt.Printf("%v - [%v] %v\n", a, b, c)` on three strings: the
text it writes. -/
def Printf_v_v_v (a b c : String) : String :=
  a ++ " - [" ++ b ++ "] " ++ c ++ "\n"

/-- The text `logger` writes for one entry (line 24). -/
def loggerLine (entry : logEntry) : String :=
  Printf_v_v_v (entry.time.Format "2006-01-02T15:04:05") entry.severity entry.message

/-- The text `betterLogger` writes for one entry (line 46). -/
def betterLoggerLine (entry : logEntry) : String :=
  Printf_v_v_v (entry.time.Format "2006-01-02T15:04:05") entry.severity entry.message


/-! ## Part 3: channels

A channel of the Go runtime: a bounded buffer, the queue of goroutines parked
in a send, and the closed flag.  A receiver that finds nothing is not parked
in the state: its step is not enabled until there is something to receive. -/

/-- A channel `chan α`. -/
structure Chan (α : Type) where
  cap : Nat
  buf : List α
  sendq : List (Nat × α)
  closed : Bool
deriving DecidableEq, Repr

/-- The call `make(chan α, cap)`. -/
def makeChan (α : Type) (cap : Nat) : Chan α := ⟨cap, [], [], false⟩

/-- The outcomes of a send `ch <- v`. -/
inductive SendResult (α : Type) where
  /-- The value is in the buffer, the sender goes on. -/
  | sent (c : Chan α)
  /-- The buffer is full (or there is none): the sender is parked with its value. -/
  | parked (c : Chan α)
  /-- The run-time panic `send on closed channel`. -/
  | panicClosed
deriving DecidableEq, Repr

/-- The send `ch <- v` by goroutine `g`. -/
def Chan.send {α : Type} (c : Chan α) (g : Nat) (v : α) : SendResult α :=
  if c.closed then .panicClosed
  else if c.buf.length < c.cap then .sent { c with buf := c.buf ++ [v] }
  else .parked { c with sendq := c.sendq ++ [(g, v)] }

/-- The outcomes of a receive `v, ok := <-ch`. -/
inductive RecvResult (α : Type) where
  /-- A value is received (`ok` is true); `woken` is the parked sender that
  is released by it, if any. -/
  | value (v : α) (c : Chan α) (woken : Option Nat)
  /-- The channel is closed and empty: the zero value, `ok` is false. -/
  | closedEmpty
  /-- Nothing to receive yet: the receiver waits. -/
  | blocks
deriving DecidableEq, Repr

/-- The receive `<-ch`. -/
def Chan.recv {α : Type} (c : Chan α) : RecvResult α :=
  match c.buf, c.sendq with
  | v :: rest, (g, w) :: q => .value v { c with buf := rest ++ [w], sendq := q } (some g)
  | v :: rest, [] => .value v { c with buf := rest } none
  | [], (g, w) :: q => .value w { c with sendq := q } (some g)
  | [], [] => if c.closed then .closedEmpty else .blocks

/-- The outcomes of `close(ch)`. -/
inductive CloseResult (α : Type) where
  | closed (c : Chan α)
  /-- The run-time panic `close of closed channel`. -/
  | panicClosed
  /-- The senders parked on the channel panic with `send on closed channel`. -/
  | panicSenders
deriving DecidableEq, Repr

/-- The call `close(ch)`. -/
def Chan.close {α : Type} (c : Chan α) : CloseResult α :=
  if c.closed then .panicClosed
  else match c.sendq with
    | [] => .closed { c with closed := true }
    | _ :: _ => .panicSenders

/-- The values a channel holds, in the order they will be received: the
buffer, then the values of the parked senders. -/
def Chan.pending {α : Type} (c : Chan α) : List α := c.buf ++ c.sendq.map Prod.snd

/-- The state of a channel the runtime keeps: no sender is parked on a closed
channel, and senders are parked only while the buffer is full. -/
def Chan.Wf {α : Type} (c : Chan α) : Prop :=
  (c.closed = true → c.sendq = []) ∧ (c.sendq ≠ [] → c.cap ≤ c.buf.length)

/-! ## Part 4: the two consumers of 05-channels-logger -/

/-- Where a goroutine that runs a loop is: still in the loop, or returned. -/
inductive GoState where
  | running
  | returned
deriving DecidableEq, Repr

/-- The zero value of `logEntry`. -/
def logEntry.zero : logEntry := ⟨Time.zero, "", ""⟩

/-- What one step of a consumer gives: the queue, the output, the state of the
consumer and the sender it released. -/
structure LoggerStep where
  ch : Chan logEntry
  out : List String
  state : GoState
  woken : Option Nat
deriving DecidableEq, Repr

/-- One iteration of `for entry := range logCh { fmt.Printf(...) }` in
`logger`: receive and print, or leave the loop when the channel is closed and
empty; `none` when the receive blocks.  The receive and the print are taken
together here; in the run of the whole program (Part 5) they are two steps. -/
def loggerIter (logCh : Chan logEntry) (out : List String) : Option LoggerStep :=
  match logCh.recv with
  | .value entry c w => some ⟨c, out ++ [loggerLine entry], .running, w⟩
  | .closedEmpty => some ⟨logCh, out, .returned, none⟩
  | .blocks => none

/-- How a statement completes: normally, or by a `break` that is looking for
the statement it ends. -/
inductive Completion where
  | normal
  | break
deriving DecidableEq, Repr

/-- The two cases of the `select` in `betterLogger`. -/
inductive SelectCase where
  /-- The case `entry := <-betterLogCh`. -/
  | entry
  /-- The case `<-doneCh`. -/
  | done
deriving DecidableEq, Repr

/-- What the consumer did in a step, in the order it happened. -/
inductive LogEvent where
  /-- A record was rendered to this text. -/
  | rendered (line : String)
  /-- The done-signal was received. -/
  | doneReceived
deriving DecidableEq, Repr

/-- What one step of `betterLogger` gives. -/
structure BetterLoggerStep where
  betterLogCh : Chan logEntry
  doneCh : Chan Unit
  out : List String
  events : List LogEvent
  state : GoState
  woken : Option Nat
deriving DecidableEq, Repr

/-- A `break` ends the innermost `for`, `switch` or `select` statement: the
`select` takes the `break` of its case, and itself completes normally. -/
def selectCompletes (_caseBody : Completion) : Completion := .normal

/-- The loop `for { body }` after one run of its body: it goes on unless the
body completed by a `break`. -/
def forContinues : Completion → GoState
  | .normal => .running
  | .break => .returned

/-- One iteration of `for { select { ... } }` in `betterLogger`, with `pick`
the case the runtime chose; `none` when that case is not ready.  A receive
from a closed and empty channel is ready and gives the zero value. -/
def betterLoggerIter (pick : SelectCase) (betterLogCh : Chan logEntry) (doneCh : Chan Unit)
    (out : List String) (events : List LogEvent) : Option BetterLoggerStep :=
  match pick with
  | .entry =>
    match betterLogCh.recv with
    | .value entry c w =>
      some ⟨c, doneCh, out ++ [betterLoggerLine entry],
        events ++ [.rendered (betterLoggerLine entry)],
        forContinues (selectCompletes .normal), w⟩
    | .closedEmpty =>
      some ⟨betterLogCh, doneCh, out ++ [betterLoggerLine logEntry.zero],
        events ++ [.rendered (betterLoggerLine logEntry.zero)],
        forContinues (selectCompletes .normal), none⟩
    | .blocks => none
  | .done =>
    match doneCh.recv with
    | .value _ d w =>
      some ⟨betterLogCh, d, out, events ++ [.doneReceived],
        forContinues (selectCompletes .break), w⟩
    | .closedEmpty =>
      some ⟨betterLogCh, doneCh, out, events ++ [.doneReceived],
        forContinues (selectCompletes .break), none⟩
    | .blocks => none

/-! ### `logger` against arbitrary producers -/

/-- The queue `logCh`, the output and the state of `logger`. -/
structure DrainState where
  logCh : Chan logEntry
  out : List String
  logger : GoState
deriving DecidableEq, Repr

/-- The state at the start: `var logCh = make(chan logEntry, 50)`, nothing
written, `logger` started. -/
def DrainState.init : DrainState := ⟨makeChan logEntry 50, [], .running⟩

/-- What can happen next: a producer `g` sends a record, somebody closes the
queue, or `logger` runs one iteration. -/
inductive DrainAct where
  | enqueue (g : Nat) (e : logEntry)
  | close
  | logger
deriving DecidableEq, Repr

/-- One step; `none` when the action cannot happen in this state (the step
blocks) or panics. -/
def DrainState.step (s : DrainState) : DrainAct → Option DrainState
  | .enqueue g e =>
    match s.logCh.send g e with
    | .sent c => some { s with logCh := c }
    | .parked c => some { s with logCh := c }
    | .panicClosed => none
  | .close =>
    match s.logCh.close with
    | .closed c => some { s with logCh := c }
    | .panicClosed => none
    | .panicSenders => none
  | .logger =>
    match s.logger with
    | .returned => none
    | .running =>
      match loggerIter s.logCh s.out with
      | some r => some ⟨r.ch, r.out, r.state⟩
      | none => none

/-- A run: the actions one after the other. -/
def DrainState.run (s : DrainState) : List DrainAct → Option DrainState
  | [] => some s
  | a :: as =>
    match s.step a with
    | some s1 => s1.run as
    | none => none

/-- The records enqueued in a run, in the order of the sends. -/
def enqueued : List DrainAct → List logEntry
  | [] => []
  | .enqueue _ e :: as => e :: enqueued as
  | _ :: as => enqueued as

/-! ### `betterLogger` against arbitrary producers -/

/-- The queue `betterLogCh`, the channel `doneCh`, the output, what
`betterLogger` did so far and its state. -/
structure SelectState where
  betterLogCh : Chan logEntry
  doneCh : Chan Unit
  out : List String
  events : List LogEvent
  betterLogger : GoState
deriving DecidableEq, Repr

/-- The state at the start: `var betterLogCh = make(chan logEntry, 50)`,
`var doneCh = make(chan struct{})`, `betterLogger` started. -/
def SelectState.init : SelectState :=
  ⟨makeChan logEntry 50, makeChan Unit 0, [], [], .running⟩

/-- What can happen next: a producer sends a record, a goroutine offers the
done-signal `doneCh <- struct{}{}`, or `betterLogger` runs one iteration on
the case the runtime picks. -/
inductive SelectAct where
  | enqueue (g : Nat) (e : logEntry)
  | signalDone (g : Nat)
  | betterLogger (pick : SelectCase)
deriving DecidableEq, Repr

/-- One step; `none` when the action cannot happen in this state or panics. -/
def SelectState.step (s : SelectState) : SelectAct → Option SelectState
  | .enqueue g e =>
    match s.betterLogCh.send g e with
    | .sent c => some { s with betterLogCh := c }
    | .parked c => some { s with betterLogCh := c }
    | .panicClosed => none
  | .signalDone g =>
    match s.doneCh.send g () with
    | .sent c => some { s with doneCh := c }
    | .parked c => some { s with doneCh := c }
    | .panicClosed => none
  | .betterLogger pick =>
    match s.betterLogger with
    | .returned => none
    | .running =>
      match betterLoggerIter pick s.betterLogCh s.doneCh s.out s.events with
      | some r => some ⟨r.betterLogCh, r.doneCh, r.out, r.events, r.state⟩
      | none => none

/-- A run: the actions one after the other. -/
def SelectState.run (s : SelectState) : List SelectAct → Option SelectState
  | [] => some s
  | a :: as =>
    match s.step a with
    | some s1 => s1.run as
    | none => none

/-! ## Part 5: the program of 05-channels-logger

The goroutine `main` is the list of the statements it has still to run; the
goroutines `logger` and `betterLogger` are the loops of Part 4. -/

namespace ChannelsLogger

/-- The two package-level queues. -/
inductive ChanName where
  | logCh
  | betterLogCh
deriving DecidableEq, Repr

/-- The statements of `loggerDemo` and `betterLoggerDemo`. -/
inductive Stmt where
  /-- The statement `go logger()`. -/
  | goLogger
  /-- The statement `go betterLogger()`. -/
  | goBetterLogger
  /-- The statement `ch <- logEntry{...}`. -/
  | send (ch : ChanName) (e : logEntry)
  /-- The call `time.Sleep`, in milliseconds. -/
  | sleep (ms : Nat)
  /-- The call `close(ch)`. -/
  | close (ch : ChanName)
  /-- The call `fmt.Println(s)`. -/
  | println (s : String)
  /-- The statement `doneCh <- struct{}{}`. -/
  | sendDone
deriving DecidableEq, Repr

/-- The function `loggerDemo`; `t1` and `t2` are what its two calls of
`time.Now()` return.  The deferred function runs when the body is through, so
its two statements come last. -/
def loggerDemo (t1 t2 : Time) : List Stmt :=
  [ .goLogger,
    .send .logCh ⟨t1, logInfo, "App is starting"⟩,
    .sleep 2000,
    .send .logCh ⟨t2, logInfo, "App is shutting down"⟩,
    .sleep 100,
    .close .logCh ]

/-- The function `betterLoggerDemo`; `t3` and `t4` are what its two calls of
`time.Now()` return. -/
def betterLoggerDemo (t3 t4 : Time) : List Stmt :=
  [ .println "Better way to handle signals:",
    .goBetterLogger,
    .send .logCh ⟨t3, logInfo, "App is starting"⟩,
    .sleep 2000,
    .send .logCh ⟨t4, logInfo, "App is shutting down"⟩,
    .sleep 100,
    .sendDone ]

/-- The function `main`. -/
def main (t1 t2 t3 t4 : Time) : List Stmt :=
  loggerDemo t1 t2 ++ betterLoggerDemo t3 t4

/-- Whether a statement sends on `betterLogCh` or closes it. -/
def usesBetterLogCh : Stmt → Bool
  | .send .betterLogCh _ => true
  | .close .betterLogCh => true
  | _ => false

/-- The run-time panics of channel operations. -/
inductive Fault where
  /-- The panic `send on closed channel`. -/
  | sendOnClosedChannel
  /-- The panic `close of closed channel`. -/
  | closeOfClosedChannel
deriving DecidableEq, Repr

/-- The state of the program. -/
structure World where
  /-- The queue `logCh`. -/
  logCh : Chan logEntry
  /-- The queue `betterLogCh`. -/
  betterLogCh : Chan logEntry
  /-- The channel `doneCh`. -/
  doneCh : Chan Unit
  /-- The standard output: the texts written, in order. -/
  out : List String
  /-- What `betterLogger` did so far. -/
  events : List LogEvent
  /-- The statements `main` has still to run. -/
  main : List Stmt
  /-- Whether `main` is parked in the send at the head of `main`. -/
  parked : Bool
  /-- The goroutine `logger`, once started. -/
  logger : Option GoState
  /-- The variable `entry` of `logger` between its receive and its call of
  `fmt.Printf`: the record received and not yet written. -/
  held : Option logEntry
  /-- The goroutine `betterLogger`, once started. -/
  betterLogger : Option GoState
  /-- The panic that stopped the program, if any. -/
  fault : Option Fault
deriving DecidableEq, Repr

/-- The state in which a program starts: `var logCh = make(chan logEntry, 50)`,
`var betterLogCh = make(chan logEntry, 50)`, `var doneCh = make(chan struct{})`. -/
def World.init (prog : List Stmt) : World :=
  { logCh := makeChan logEntry 50, betterLogCh := makeChan logEntry 50,
    doneCh := makeChan Unit 0, out := [], events := [], main := prog, parked := false,
    logger := none, held := none, betterLogger := none, fault := none }

/-- The queue of a name. -/
def World.chan (s : World) : ChanName → Chan logEntry
  | .logCh => s.logCh
  | .betterLogCh => s.betterLogCh

/-- Assignment to the queue of a name. -/
def World.setChan (s : World) (ch : ChanName) (c : Chan logEntry) : World :=
  match ch with
  | .logCh => { s with logCh := c }
  | .betterLogCh => { s with betterLogCh := c }

/-- A receive that releases a parked sender releases `main`, the only sender:
its send is through. -/
def World.release (s : World) : Option Nat → World
  | none => s
  | some _ => { s with parked := false, main := s.main.tail }

/-- One step of `main`: its next statement.  `none` when `main` is parked. -/
def World.stepMain (s : World) : Option World :=
  if s.parked then none
  else match s.main with
    | [] => none
    | .goLogger :: rest => some { s with main := rest, logger := some .running }
    | .goBetterLogger :: rest => some { s with main := rest, betterLogger := some .running }
    | .send ch e :: rest =>
      match (s.chan ch).send 0 e with
      | .sent c => some { s.setChan ch c with main := rest }
      | .parked c => some { s.setChan ch c with parked := true }
      | .panicClosed => some { s with fault := some .sendOnClosedChannel }
    | .sleep _ :: rest => some { s with main := rest }
    | .close ch :: rest =>
      match (s.chan ch).close with
      | .closed c => some { s.setChan ch c with main := rest }
      | .panicClosed => some { s with fault := some .closeOfClosedChannel }
      | .panicSenders => some { s with fault := some .sendOnClosedChannel }
    | .println str :: rest => some { s with main := rest, out := s.out ++ [str ++ "\n"] }
    | .sendDone :: rest =>
      match s.doneCh.send 0 () with
      | .sent c => some { s with doneCh := c, main := rest }
      | .parked c => some { s with doneCh := c, parked := true }
      | .panicClosed => some { s with fault := some .sendOnClosedChannel }

/-- One step of `logger` in the loop `for entry := range logCh { fmt.Printf(...) }`:
the receive of the next record, which leaves the loop when the channel is
closed and empty and is not enabled while there is nothing to receive, or
the call of `fmt.Printf` on the record received.  The two are separate steps:
other goroutines run between them. -/
def World.stepLogger (s : World) : Option World :=
  match s.logger with
  | some .running =>
    match s.held with
    | some entry => some { s with out := s.out ++ [loggerLine entry], held := none }
    | none =>
      match s.logCh.recv with
      | .value entry c w => some ({ s with logCh := c, held := some entry }.release w)
      | .closedEmpty => some { s with logger := some .returned }
      | .blocks => none
  | _ => none

/-- One step of `betterLogger`: an iteration of its loop on the case picked. -/
def World.stepBetterLogger (s : World) (pick : SelectCase) : Option World :=
  match s.betterLogger with
  | some .running =>
    match betterLoggerIter pick s.betterLogCh s.doneCh s.out s.events with
    | some r =>
      some ({ s with betterLogCh := r.betterLogCh, doneCh := r.doneCh, out := r.out,
                     events := r.events, betterLogger := some r.state }.release r.woken)
    | none => none
  | _ => none

/-- The goroutine the scheduler picks next (for `betterLogger`, with the case
of its `select` the runtime picks). -/
inductive Tid where
  | main
  | logger
  | betterLogger (pick : SelectCase)
deriving DecidableEq, Repr

/-- One step of the program; `none` when the goroutine picked cannot run.
Nothing runs after a panic, nor after `main` has returned (the program has
exited). -/
def World.step (s : World) (t : Tid) : Option World :=
  match s.fault, s.main with
  | some _, _ => none
  | none, [] => none
  | none, _ :: _ =>
    match t with
    | .main => s.stepMain
    | .logger => s.stepLogger
    | .betterLogger pick => s.stepBetterLogger pick

/-- A run under a schedule: a pick that cannot run leaves the state as it is. -/
def World.exec (s : World) : List Tid → World
  | [] => s
  | t :: ts => ((s.step t).getD s).exec ts

/-- Whether, in a run, every `time.Sleep` of `main` lasts at least as long as
`k` steps of `logger`: from the step that brings `main` to the call to the
step in which `main` returns from it, the scheduler picks `logger` at least
`k` times.  `c` is the number of picks of `logger` since the last pick of
`main`.  This is a condition on the schedule and on where `main` is, not on
what `logger` has done. -/
def sleepsLast (k : Nat) : Nat → World → List Tid → Bool
  | _, _, [] => true
  | c, s, .logger :: ts => sleepsLast k (c + 1) ((s.step .logger).getD s) ts
  | c, s, .main :: ts =>
    (match s.main with
      | .sleep _ :: _ => decide (k ≤ c)
      | _ => true) && sleepsLast k 0 ((s.step .main).getD s) ts
  | c, s, .betterLogger p :: ts => sleepsLast k c ((s.step (.betterLogger p)).getD s) ts

/-- The queue `betterLogCh` is as it was made, `main` has no statement on it
left, and `betterLogger` has rendered nothing. -/
def World.BetterLogChUnused (s : World) : Prop :=
  s.betterLogCh = makeChan logEntry 50 ∧ (∀ st ∈ s.main, usesBetterLogCh st = false) ∧
    ∀ ev ∈ s.events, ev = LogEvent.doneReceived

/-- The number of records `loggerDemo` has sent when `k` of its six statements
are through. -/
def sentCount (k : Nat) : Nat := if k ≤ 1 then 0 else if k ≤ 3 then 1 else 2

/-- The two records of `loggerDemo`. -/
def demoRecords (t1 t2 : Time) : List logEntry :=
  [⟨t1, logInfo, "App is starting"⟩, ⟨t2, logInfo, "App is shutting down"⟩]

/-- The state of the program `main` while `loggerDemo` runs: `k` statements
of `loggerDemo` are through, `logger` has received `d` records and written
`p` of them, and `r` tells whether `logger` has returned. -/
def demoState (t1 t2 t3 t4 : Time) (k d p : Nat) (r : Bool) : World :=
  { logCh := ⟨50, ((demoRecords t1 t2).take (sentCount k)).drop d, [], decide (k = 6)⟩,
    betterLogCh := makeChan logEntry 50,
    doneCh := makeChan Unit 0,
    out := ((demoRecords t1 t2).take p).map loggerLine,
    events := [],
    main := (loggerDemo t1 t2).drop k ++ betterLoggerDemo t3 t4,
    parked := false,
    logger := if k = 0 then none else some (if r then .returned else .running),
    held := if p < d then (demoRecords t1 t2)[p]? else none,
    betterLogger := none,
    fault := none }

/-- The steps `logger` has still to take for the records sent so far: two for
a record in the queue (the receive and the write), one for a record received
and not yet written. -/
def loggerWork (k d p : Nat) : Nat := 2 * (sentCount k - d) + (d - p)

/-- The states of the program `main` up to the return of `loggerDemo`.  With
`timed`, those of the runs in which every sleep so far has lasted two steps of
`logger`, `c` being the number of picks of `logger` since the last pick of
`main`: during a sleep `logger` has at most `2 - c` steps to take, and after
it none. -/
def World.InLoggerDemo (t1 t2 t3 t4 : Time) (timed : Bool) (c : Nat) (s : World) : Prop :=
  ∃ k d p r, k ≤ 6 ∧ d ≤ sentCount k ∧ p ≤ d ∧ d ≤ p + 1 ∧ (r = true → k = 6 ∧ d = 2 ∧ p = 2) ∧
    (timed = true → ((k = 2 ∨ k = 4) → loggerWork k d p ≤ 2 - c) ∧
      (k ≠ 2 → k ≠ 4 → loggerWork k d p = 0)) ∧
    s = demoState t1 t2 t3 t4 k d p r

end ChannelsLogger

/-! ## Part 6: goroutines, `sync.WaitGroup` and `sync.RWMutex`
(03-goroutines-examples, 04-channels-examples)

A goroutine is the list of the statements it has still to run.  The scheduler
picks a goroutine and that goroutine runs one statement; a statement that
blocks is not enabled.  `main` is the only goroutine that starts others. -/

namespace Runtime

/-- The value of an `int` computation.  An `int` is 64 bits wide on the
platforms the programs run on, and its arithmetic wraps around on overflow
(two's complement): the result is the integer between `-2^63` and `2^63 - 1`
that differs from `x` by a multiple of `2^64`. -/
def wrapInt (x : Int) : Int :=
  (x + 9223372036854775808) % 18446744073709551616 - 9223372036854775808

/-- The package-level integers of 03-goroutines-examples. -/
inductive Var where
  | counter
  | counterMutex
  | counterBetterMutex
deriving DecidableEq, Repr

/-- The statements of the goroutines started by `main`. -/
inductive Op where
  /-- The call `wg.Done()`. -/
  | wgDone
  /-- The call `mtx.RLock()`. -/
  | rLock
  /-- The call `mtx.RUnlock()`. -/
  | rUnlock
  /-- The call `mtx.Lock()`. -/
  | lock
  /-- The call `mtx.Unlock()`. -/
  | unlock
  /-- The call `fmt.Printf("Hello #%v\n", v)`. -/
  | printHello (v : Var)
  /-- First half of `v++`: the read of `v`. -/
  | load (v : Var)
  /-- Second half of `v++`: the write of the value read plus one. -/
  | store (v : Var)
  /-- The call `fmt.Println(msg)` on the variable `msg` the closure captured. -/
  | printMsg
  /-- The call `fmt.Println(s)` on a value the goroutine owns. -/
  | println (s : String)
  /-- The statement `ch <- v` with a constant `v`. -/
  | send (ch : Nat) (v : Int)
  /-- The statement `j := v` or `j = v` on the local variable. -/
  | setLocal (v : Int)
  /-- The statement `ch <- j` with the local variable. -/
  | sendLocal (ch : Nat)
  /-- The statement `i := <-ch`. -/
  | recv (ch : Nat)
  /-- The call `fmt.Println(i)` (empty label) or `fmt.Println("Up:", i)` on
  the local variable. -/
  | printLocal (label : String)
  /-- The call `close(ch)`. -/
  | close (ch : Nat)
  /-- The loop `for i := range ch { fmt.Println(i) }`. -/
  | rangePrint (ch : Nat)
  /-- The loop `for { if i, ok := <-ch; ok { fmt.Println(i) } else { break } }`. -/
  | manualLoopPrint (ch : Nat)
deriving DecidableEq, Repr

/-- The statements of `main`. -/
inductive Stmt where
  /-- The call `fmt.Println(s)`. -/
  | println (s : String)
  /-- The call `wg.Add(n)`. -/
  | wgAdd (n : Nat)
  /-- The call `wg.Wait()`. -/
  | wgWait
  /-- The statement `go f()`, `body` being the statements of `f`. -/
  | go (body : List Op)
  /-- The call `mtx.RLock()`. -/
  | rLock
  /-- The call `mtx.Lock()`. -/
  | lock
  /-- The statement `ch := make(chan int, cap)`. -/
  | makeChan (cap : Nat)
  /-- The statement `msg = s`. -/
  | setMsg (s : String)
  /-- The call `time.Sleep`, in milliseconds. -/
  | sleep (ms : Nat)
  /-- The call `runtime.GOMAXPROCS(n)`. -/
  | gomaxprocs (n : Nat)
  /-- The call `fmt.Printf("Time waited: %v\n", time.Since(startTime))`. -/
  | printTimeWaited
  /-- The call `fmt.Println("Threads available:", runtime.GOMAXPROCS(-1))`. -/
  | printThreads
deriving DecidableEq, Repr

/-- A line of the standard output. -/
inductive Line where
  | text (s : String)
  /-- The line `Time waited: ...`, whose duration the machine decides. -/
  | timeWaited
  /-- The line `Threads available: ...`, whose number the machine decides. -/
  | threadsAvailable
deriving DecidableEq, Repr

/-- A goroutine started by `main`: the function it runs, the statements it has
still to run, its local variable, and whether it is parked in the send at the
head of its statements. -/
structure Thread where
  fn : List Op
  code : List Op
  loc : Int
  parked : Bool
deriving DecidableEq, Repr

/-- A `sync.RWMutex`: whether a writer holds it, and how many readers do.
`RLock` waits while a writer holds the lock, `Lock` waits while anybody holds
it.  The runtime also holds new readers back while a writer is waiting; that
only removes runs, so what holds of every run here holds of every run there. -/
structure RWMutex where
  writer : Bool
  readers : Nat
deriving DecidableEq, Repr

/-- The fatal errors and panics of the primitives. -/
inductive Fault where
  /-- The panic `sync: negative WaitGroup counter`. -/
  | negativeWaitGroup
  /-- The panic `send on closed channel`. -/
  | sendOnClosedChannel
  /-- The panic `close of closed channel`. -/
  | closeOfClosedChannel
  /-- The fatal error `sync: Unlock of unlocked RWMutex`. -/
  | unlockOfUnlocked
  /-- The fatal error `sync: RUnlock of unlocked RWMutex`. -/
  | rUnlockOfUnlocked
deriving DecidableEq, Repr

/-- The state of a program. -/
structure World where
  /-- The counter of `wg`. -/
  wg : Nat
  /-- The lock `mtx`. -/
  mtx : RWMutex
  counter : Int
  counterMutex : Int
  counterBetterMutex : Int
  /-- The variable `msg` of `sleepExample` and `waitGroupExample`. -/
  msg : String
  /-- The channels made so far, in the order they were made. -/
  chans : List (Chan Int)
  /-- The standard output. -/
  out : List Line
  /-- The statements `main` has still to run. -/
  main : List Stmt
  /-- The goroutines started so far, in the order they were started. -/
  threads : List Thread
  /-- The panic or fatal error that stopped the program, if any. -/
  fault : Option Fault
deriving DecidableEq, Repr

/-- The state in which a program starts: `var wg = sync.WaitGroup{}`,
`var mtx = sync.RWMutex{}`, the three counters at 0. -/
def World.init (prog : List Stmt) : World :=
  { wg := 0, mtx := ⟨false, 0⟩, counter := 0, counterMutex := 0, counterBetterMutex := 0,
    msg := "", chans := [], out := [], main := prog, threads := [], fault := none }

/-- The value of a package-level integer. -/
def World.get (s : World) : Var → Int
  | .counter => s.counter
  | .counterMutex => s.counterMutex
  | .counterBetterMutex => s.counterBetterMutex

/-- Assignment to a package-level integer. -/
def World.set (s : World) (v : Var) (n : Int) : World :=
  match v with
  | .counter => { s with counter := n }
  | .counterMutex => { s with counterMutex := n }
  | .counterBetterMutex => { s with counterBetterMutex := n }

/-- The text of `fmt.Printf("Hello #%v\n", n)`. -/
def helloLine (n : Int) : Line := .text ("Hello #" ++ toString n ++ "\n")

/-- The text of `fmt.Println(i)` (empty label) or `fmt.Println("Up:", i)`. -/
def localLine (label : String) (i : Int) : Line :=
  .text (if label = "" then toString i ++ "\n" else label ++ " " ++ toString i ++ "\n")

/-- The statements of a goroutine after the send at their head. -/
def afterSend : List Op → List Op
  | .send _ _ :: rest => rest
  | .sendLocal _ :: rest => rest
  | code => code

/-- A receive that releases a parked sender: the send of goroutine `g` (the
goroutines started by `main` are numbered from 1) is through. -/
def World.release (s : World) : Option Nat → World
  | none => s
  | some g =>
    match s.threads[g - 1]? with
    | none => s
    | some t =>
      { s with threads := s.threads.set (g - 1) { t with parked := false, code := afterSend t.code } }

/-- The thread `t` at index `i` with new statements. -/
def World.setThread (s : World) (i : Nat) (t : Thread) : World :=
  { s with threads := s.threads.set i t }

/-- The channel at index `ch` replaced. -/
def World.setChan (s : World) (ch : Nat) (c : Chan Int) : World :=
  { s with chans := s.chans.set ch c }

/-- A send `ch <- v` by thread `i`, whose statements after the send are
`rest`.  A send on a channel that was not made blocks for ever. -/
def World.doSend (s : World) (i : Nat) (t : Thread) (rest : List Op) (ch : Nat) (v : Int) :
    Option World :=
  match s.chans[ch]? with
  | none => none
  | some c =>
    match c.send (i + 1) v with
    | .sent c1 => some ((s.setChan ch c1).setThread i { t with code := rest })
    | .parked c1 => some ((s.setChan ch c1).setThread i { t with parked := true })
    | .panicClosed => some { s with fault := some .sendOnClosedChannel }

/-- One step of the goroutine at index `i`: its next statement.  `none` when
there is no such goroutine, it has finished, or its statement blocks. -/
def World.stepThread (s : World) (i : Nat) : Option World :=
  match s.threads[i]? with
  | none => none
  | some t =>
    if t.parked then none
    else match t.code with
      | [] => none
      | .wgDone :: rest =>
        if s.wg = 0 then some { s with fault := some .negativeWaitGroup }
        else some ({ s with wg := s.wg - 1 }.setThread i { t with code := rest })
      | .rLock :: rest =>
        if s.mtx.writer then none
        else some ({ s with mtx := { s.mtx with readers := s.mtx.readers + 1 } }.setThread i
          { t with code := rest })
      | .rUnlock :: rest =>
        if s.mtx.readers = 0 then some { s with fault := some .rUnlockOfUnlocked }
        else some ({ s with mtx := { s.mtx with readers := s.mtx.readers - 1 } }.setThread i
          { t with code := rest })
      | .lock :: rest =>
        if s.mtx.writer || s.mtx.readers != 0 then none
        else some ({ s with mtx := { s.mtx with writer := true } }.setThread i
          { t with code := rest })
      | .unlock :: rest =>
        if s.mtx.writer then
          some ({ s with mtx := { s.mtx with writer := false } }.setThread i
            { t with code := rest })
        else some { s with fault := some .unlockOfUnlocked }
      | .printHello v :: rest =>
        some ({ s with out := s.out ++ [helloLine (s.get v)] }.setThread i { t with code := rest })
      | .load v :: rest => some (s.setThread i { t with code := rest, loc := s.get v })
      | .store v :: rest =>
        some ((s.set v (wrapInt (t.loc + 1))).setThread i { t with code := rest })
      | .printMsg :: rest =>
        some ({ s with out := s.out ++ [Line.text (s.msg ++ "\n")] }.setThread i { t with code := rest })
      | .println str :: rest =>
        some ({ s with out := s.out ++ [Line.text (str ++ "\n")] }.setThread i { t with code := rest })
      | .send ch v :: rest => s.doSend i t rest ch v
      | .setLocal v :: rest => some (s.setThread i { t with code := rest, loc := v })
      | .sendLocal ch :: rest => s.doSend i t rest ch t.loc
      | .recv ch :: rest =>
        match s.chans[ch]? with
        | none => none
        | some c =>
          match c.recv with
          | .value v c1 w =>
            some (((s.setChan ch c1).setThread i { t with code := rest, loc := v }).release w)
          | .closedEmpty => some (s.setThread i { t with code := rest, loc := 0 })
          | .blocks => none
      | .printLocal label :: rest =>
        some ({ s with out := s.out ++ [localLine label t.loc] }.setThread i { t with code := rest })
      | .close ch :: rest =>
        match s.chans[ch]? with
        | none => none
        | some c =>
          match c.close with
          | .closed c1 => some ((s.setChan ch c1).setThread i { t with code := rest })
          | .panicClosed => some { s with fault := some .closeOfClosedChannel }
          | .panicSenders => some { s with fault := some .sendOnClosedChannel }
      | .rangePrint ch :: rest =>
        match s.chans[ch]? with
        | none => none
        | some c =>
          match c.recv with
          | .value v c1 w =>
            some ((({ s with out := s.out ++ [localLine "" v] }.setChan ch c1).setThread i
              { t with loc := v }).release w)
          | .closedEmpty => some (s.setThread i { t with code := rest })
          | .blocks => none
      | .manualLoopPrint ch :: rest =>
        match s.chans[ch]? with
        | none => none
        | some c =>
          match c.recv with
          | .value v c1 w =>
            some ((({ s with out := s.out ++ [localLine "" v] }.setChan ch c1).setThread i
              { t with loc := v }).release w)
          | .closedEmpty => some (s.setThread i { t with code := rest, loc := 0 })
          | .blocks => none

/-- One step of `main`: its next statement; `none` when it blocks. -/
def World.stepMain (s : World) : Option World :=
  match s.main with
  | [] => none
  | .println str :: rest => some { s with main := rest, out := s.out ++ [Line.text (str ++ "\n")] }
  | .wgAdd n :: rest => some { s with main := rest, wg := s.wg + n }
  | .wgWait :: rest => if s.wg = 0 then some { s with main := rest } else none
  | .go body :: rest =>
    some { s with main := rest, threads := s.threads ++ [⟨body, body, 0, false⟩] }
  | .rLock :: rest =>
    if s.mtx.writer then none
    else some { s with main := rest, mtx := { s.mtx with readers := s.mtx.readers + 1 } }
  | .lock :: rest =>
    if s.mtx.writer || s.mtx.readers != 0 then none
    else some { s with main := rest, mtx := { s.mtx with writer := true } }
  | .makeChan cap :: rest => some { s with main := rest, chans := s.chans ++ [makeChan Int cap] }
  | .setMsg str :: rest => some { s with main := rest, msg := str }
  | .sleep _ :: rest => some { s with main := rest }
  | .gomaxprocs _ :: rest => some { s with main := rest }
  | .printTimeWaited :: rest => some { s with main := rest, out := s.out ++ [Line.timeWaited] }
  | .printThreads :: rest => some { s with main := rest, out := s.out ++ [Line.threadsAvailable] }

/-- The goroutine the scheduler picks next. -/
inductive Pick where
  | main
  /-- The goroutine at index `i` of those `main` started. -/
  | thread (i : Nat)
deriving DecidableEq, Repr

/-- One step of the program; `none` when the goroutine picked cannot run.
Nothing runs after a panic, nor after `main` has returned (the program has
exited). -/
def World.step (s : World) (p : Pick) : Option World :=
  match s.fault, s.main with
  | some _, _ => none
  | none, [] => none
  | none, _ :: _ =>
    match p with
    | .main => s.stepMain
    | .thread i => s.stepThread i

/-- A run under a schedule: a pick that cannot run leaves the state as it is. -/
def World.exec (s : World) : List Pick → World
  | [] => s
  | p :: ps => ((s.step p).getD s).exec ps

/-- The number of calls `wg.Done()` in the statements of a goroutine. -/
def dones (code : List Op) : Nat := code.count .wgDone

/-- The calls `wg.Done()` the started goroutines have still to make. -/
def World.pendingDones (s : World) : Nat := (s.threads.map (fun t => dones t.code)).sum

/-- Whether every `wg.Add(n)` of the statements of `main` is followed, before
the next `wg.Add` or `wg.Wait`, by exactly `n` `go` statements whose function
calls `wg.Done()` exactly once, as its last statement, and no other `go`
statement starts a function that calls `wg.Done()`; `owed` is the number of
units added and not started yet. -/
def matchedFrom : Nat → List Stmt → Bool
  | owed, [] => owed == 0
  | owed, .wgAdd n :: rest => owed == 0 && matchedFrom n rest
  | owed, .wgWait :: rest => owed == 0 && matchedFrom 0 rest
  | owed, .go body :: rest =>
    if owed = 0 then dones body == 0 && matchedFrom 0 rest
    else dones body == 1 && body.getLast? == some .wgDone && matchedFrom (owed - 1) rest
  | owed, _ :: rest => matchedFrom owed rest

/-- The statements of a function of `main` pair every `wg.Add(n)` with `n`
started units that call `wg.Done()` once each. -/
def Matched (prog : List Stmt) : Bool := matchedFrom 0 prog

/-- The counter of `wg` is the number of calls `wg.Done()` the started
goroutines have still to make plus the units added and not started yet. -/
def World.WgBalanced (s : World) : Prop :=
  ∃ owed, matchedFrom owed s.main = true ∧ s.wg = s.pendingDones + owed

/-- The statement `v++`: a read and a write. -/
def inc (v : Var) : List Op := [.load v, .store v]

/-- The loop `for i := 0; i < n; i++ { body }` when the body does not use `i`. -/
def forN (n : Nat) (body : List Stmt) : List Stmt := (List.replicate n body).flatten

end Runtime

/-! ### The programs of 03-goroutines-examples -/

namespace Goroutines

open Runtime

/-- The function `sayHelloBetterMutex`. -/
def sayHelloBetterMutex : List Op :=
  [.printHello .counterBetterMutex, .rUnlock, .wgDone]

/-- The function `incrementBetterMutex`. -/
def incrementBetterMutex : List Op :=
  inc .counterBetterMutex ++ [.unlock, .wgDone]

/-- The body of the loop of `betterMutexExample`. -/
def betterMutexBody : List Stmt :=
  [.wgAdd 2, .rLock, .go sayHelloBetterMutex, .lock, .go incrementBetterMutex]

/-- The function `betterMutexExample` with `n` for the bound 10 of its loop. -/
def betterMutexExampleN (n : Nat) : List Stmt :=
  [.println "Better RWMutex example:", .gomaxprocs 100] ++ forN n betterMutexBody ++ [.wgWait]

/-- The function `betterMutexExample`. -/
def betterMutexExample : List Stmt := betterMutexExampleN 10

/-- The function `sayHelloMutex`. -/
def sayHelloMutex : List Op :=
  [.rLock, .printHello .counterMutex, .rUnlock, .wgDone]

/-- The function `incrementMutex`. -/
def incrementMutex : List Op :=
  [.lock] ++ inc .counterMutex ++ [.unlock, .wgDone]

/-- The body of the loop of `mutexExample`. -/
def mutexBody : List Stmt := [.wgAdd 2, .go sayHelloMutex, .go incrementMutex]

/-- The function `mutexExample` with `n` for the bound 10 of its loop. -/
def mutexExampleN (n : Nat) : List Stmt :=
  [.println "Simple RWMutex example:", .gomaxprocs 100] ++ forN n mutexBody ++ [.wgWait]

/-- The function `mutexExample`. -/
def mutexExample : List Stmt := mutexExampleN 10

/-- The function `sayHello`. -/
def sayHello : List Op := [.printHello .counter, .wgDone]

/-- The function `increment`. -/
def increment : List Op := inc .counter ++ [.wgDone]

/-- The function `forWaitGroupExample`. -/
def forWaitGroupExample : List Stmt :=
  [.println "Unsynchronised 'for' WaitGroup example:"] ++
    forN 10 [.wgAdd 2, .go sayHello, .go increment] ++
    [.wgWait]

/-- The function `waitGroupExample`.  The second goroutine gets `msg` as an
argument, which is `"Hello"` when the `go` statement is run. -/
def waitGroupExample : List Stmt :=
  [ .println "WaitGroup example:",
    .setMsg "Hello",
    .wgAdd 2,
    .go [.printMsg, .wgDone],
    .go [.println "Hello", .wgDone],
    .setMsg "Goodbye",
    .wgWait,
    .printTimeWaited ]

/-- The function `sleepExample`. -/
def sleepExample : List Stmt :=
  [ .println "Sleep example:",
    .setMsg "Hello",
    .go [.printMsg],
    .go [.println "Hello"],
    .setMsg "Goodbye",
    .sleep 100,
    .printTimeWaited ]

/-- The function `main`. -/
def main : List Stmt :=
  [.printThreads] ++ sleepExample ++ waitGroupExample ++ forWaitGroupExample ++
    mutexExample ++ betterMutexExample ++ [.printThreads]

/-! #### The states of `mutexExample` -/

/-- A world with `M` goroutines that run `incrementMutex` and `R` that run
`sayHelloMutex`, all just started and counted by `wg`, `counterMutex` at `c0`,
and `main` in its call of `wg.Wait()`. -/
def writersWorld (M R : Nat) (c0 : Int) : World :=
  { wg := M + R, mtx := ⟨false, 0⟩, counter := 0, counterMutex := c0, counterBetterMutex := 0,
    msg := "", chans := [], out := [], main := [.wgWait],
    threads := List.replicate M ⟨incrementMutex, incrementMutex, 0, false⟩ ++
      List.replicate R ⟨sayHelloMutex, sayHelloMutex, 0, false⟩,
    fault := none }

/-- 1 for a goroutine that runs `incrementMutex`, else 0. -/
def isWriter (t : Thread) : Nat := if t.fn = incrementMutex then 1 else 0

/-- 1 for a goroutine of `incrementMutex` that has written `counterMutex`
(at most `mtx.Unlock()` and `wg.Done()` are left), else 0. -/
def hasStored (t : Thread) : Nat :=
  if t.fn = incrementMutex ∧ t.code.length ≤ 2 then 1 else 0

/-- A goroutine of `incrementMutex` between its `mtx.Lock()` and its
`mtx.Unlock()`. -/
def InCS (t : Thread) : Prop :=
  t.fn = incrementMutex ∧ 2 ≤ t.code.length ∧ t.code.length ≤ 4

/-- A goroutine of `mutexExample`: it runs `incrementMutex` or `sayHelloMutex`
and has some of its statements left. -/
def PoolThread (t : Thread) : Prop :=
  t.parked = false ∧ (t.fn = incrementMutex ∨ t.fn = sayHelloMutex) ∧ ∃ k, t.code = t.fn.drop k

/-- The statements of `main` in `mutexExample`. -/
def poolStmt : Stmt → Bool
  | .println _ => true
  | .gomaxprocs _ => true
  | .wgAdd _ => true
  | .wgWait => true
  | .go body => body == incrementMutex || body == sayHelloMutex
  | _ => false

/-- The number of statements `go incrementMutex()` in the statements of `main`. -/
def writersToStart : List Stmt → Nat
  | [] => 0
  | .go body :: rest => (if body = incrementMutex then 1 else 0) + writersToStart rest
  | _ :: rest => writersToStart rest

/-- The lock discipline of `incrementMutex`: the write lock is held exactly
while one goroutine is between `mtx.Lock()` and `mtx.Unlock()`; `counterMutex`
is `c0` plus the number of goroutines that have written it, as an `int`; and
a goroutine that has read it and not yet written holds its current value. -/
def MutexInv (c0 : Int) (s : World) : Prop :=
  (∀ t ∈ s.threads, PoolThread t) ∧
  (∃ h : Option Nat, s.mtx.writer = h.isSome ∧
    (∀ i, h = some i → ∃ t, s.threads[i]? = some t ∧ InCS t) ∧
    (∀ i t, s.threads[i]? = some t → InCS t → h = some i)) ∧
  s.counterMutex = wrapInt (c0 + ((s.threads.map hasStored).sum : Nat)) ∧
  (∀ t ∈ s.threads, t.fn = incrementMutex → t.code.length = 3 → t.loc = s.counterMutex)

/-- The states of a run in which `m` goroutines of `incrementMutex` are or
will be started and `main` ends with `wg.Wait()`. -/
def PoolInv (c0 : Int) (m : Nat) (s : World) : Prop :=
  MutexInv c0 s ∧ (∀ st ∈ s.main, poolStmt st = true) ∧
    (s.threads.map isWriter).sum + writersToStart s.main = m ∧
    ((s.main = [] ∧ s.pendingDones = 0) ∨ (s.main.getLast? = some .wgWait ∧ s.WgBalanced))

/-! #### The states of `betterMutexExample` -/

/-- A goroutine that has released its lock: only its call of `wg.Done()` is
left, or nothing. -/
def Quiet (t : Thread) : Prop := t.code = [.wgDone] ∨ t.code = []

/-- Where a run of `betterMutexExampleN n` is.  In `idle i j` the lock is
with `main` or free, `i` iterations of the loop are through and `j`
statements of the next; in `hello i a` the goroutine `sayHelloBetterMutex` of
iteration `i` has the read lock and has run `a` statements; in `incr i j a`
the goroutine `incrementBetterMutex` of iteration `i - 1` has the write lock
and has run `a` statements, `main` having run `j` statements of iteration `i`. -/
inductive BetterPhase where
  | pre (p : Nat)
  | idle (i j : Nat)
  | hello (i a : Nat)
  | incr (i j a : Nat)
  | final
deriving DecidableEq, Repr

/-- The statements of `main` when `i` iterations are through and `j`
statements of the next. -/
def loopAt (n i j : Nat) : List Stmt :=
  if j = 0 then forN (n - i) betterMutexBody ++ [.wgWait]
  else betterMutexBody.drop j ++ forN (n - i - 1) betterMutexBody ++ [.wgWait]

/-- The phases that occur. -/
def BetterPhase.Valid (n : Nat) : BetterPhase → Prop
  | .pre p => p ≤ 1
  | .idle i j => i ≤ n ∧ j ≤ 4 ∧ (1 ≤ j → i < n)
  | .hello i a => i < n ∧ a ≤ 1
  | .incr i j a => 1 ≤ i ∧ i ≤ n ∧ j ≤ 1 ∧ (j = 1 → i < n) ∧ a ≤ 2
  | .final => True

/-- The statements `main` has still to run in a phase. -/
def BetterPhase.main (n : Nat) : BetterPhase → List Stmt
  | .pre p => (betterMutexExampleN n).drop p
  | .idle i j => loopAt n i j
  | .hello i _ => loopAt n i 3
  | .incr i j _ => loopAt n i j
  | .final => []

/-- The lock in a phase. -/
def BetterPhase.mtx : BetterPhase → RWMutex
  | .pre _ => ⟨false, 0⟩
  | .idle _ j => if j = 2 then ⟨false, 1⟩ else if j = 4 then ⟨true, 0⟩ else ⟨false, 0⟩
  | .hello _ _ => ⟨false, 1⟩
  | .incr _ _ _ => ⟨true, 0⟩
  | .final => ⟨false, 0⟩

/-- The number of increments of `counterBetterMutex` that are through in a
phase. -/
def BetterPhase.counter : BetterPhase → Nat
  | .pre _ => 0
  | .idle i _ => i
  | .hello i _ => i
  | .incr i _ a => if a = 2 then i else i - 1
  | .final => 0

/-- The line the `i`-th call of `sayHelloBetterMutex` prints: the counter
after `i` increments, as an `int`. -/
def helloAt (i : Nat) : Line := helloLine (wrapInt i)

/-- The lines `Hello #0`, ..., up to `k` of them. -/
def helloLines (k : Nat) : List Line := (List.range k).map helloAt

/-- The output in a phase. -/
def BetterPhase.out (n : Nat) : BetterPhase → List Line
  | .pre p => if p = 0 then [] else [.text "Better RWMutex example:\n"]
  | .idle i j => .text "Better RWMutex example:\n" :: helloLines (if 3 ≤ j then i + 1 else i)
  | .hello i a => .text "Better RWMutex example:\n" :: helloLines (i + a)
  | .incr i _ _ => .text "Better RWMutex example:\n" :: helloLines i
  | .final => .text "Better RWMutex example:\n" :: helloLines n

/-- The statements the goroutine that holds the lock has still to run, and
the value of its local variable when that matters. -/
def BetterPhase.active : BetterPhase → Option (List Op × Option Nat)
  | .hello _ a => some (sayHelloBetterMutex.drop a, none)
  | .incr i _ a => some (incrementBetterMutex.drop a, if a = 1 then some (i - 1) else none)
  | _ => none

/-- The goroutines in a phase: all quiet but the one that holds the lock,
which is the last one started. -/
def BetterPhase.ThreadsOk (ph : BetterPhase) (ths : List Thread) : Prop :=
  match ph.active with
  | none => ∀ t ∈ ths, Quiet t
  | some (code, loc) =>
    ∃ qs t, ths = qs ++ [t] ∧ (∀ q ∈ qs, Quiet q) ∧ t.code = code ∧ t.parked = false ∧
      ∀ v, loc = some v → t.loc = wrapInt v

/-- The statements a statement of `main` stands for: itself and, for a `go`
statement, the statements of the function it starts. -/
def stmtWeight : Stmt → Nat
  | .go body => body.length + 1
  | _ => 1

/-- The number of statements the program has still to run: those of `main`,
those of the functions it will start, and those the started goroutines have
left. -/
def todo (s : World) : Nat :=
  (s.main.map stmtWeight).sum + (s.threads.map (fun t => t.code.length)).sum

/-- The states in which the wait group is balanced, the program has not
panicked and no goroutine is parked. -/
def Sound (s : World) : Prop :=
  s.WgBalanced ∧ s.fault = none ∧ ∀ t ∈ s.threads, t.parked = false

/-- The states of a run of `betterMutexExampleN n`. -/
def BetterInv (n : Nat) (s : World) : Prop :=
  ∃ ph : BetterPhase, ph.Valid n ∧ s.main = ph.main n ∧ s.out = ph.out n ∧
    (ph = .final ∨
      (s.mtx = ph.mtx ∧ s.counterBetterMutex = wrapInt ph.counter ∧ ph.ThreadsOk s.threads))

end Goroutines

/-! ### The programs of 04-channels-examples

Every demo makes one channel; `ch` is its index among the channels the
program makes. -/

namespace Channels

open Runtime

/-- The function `manualForLoopChannelDemo`. -/
def manualForLoopChannelDemo (ch : Nat) : List Stmt :=
  [ .println "Manual for loop over channel demo:",
    .makeChan 50,
    .wgAdd 2,
    .go [.manualLoopPrint ch, .wgDone],
    .go [.send ch 42, .send ch 27, .send ch 14, .close ch, .wgDone],
    .wgWait ]

/-- The function `forRangeLoopChannelDemo`. -/
def forRangeLoopChannelDemo (ch : Nat) : List Stmt :=
  [ .println "For-range loop over channel demo:",
    .makeChan 50,
    .wgAdd 2,
    .go [.rangePrint ch, .wgDone],
    .go [.send ch 42, .send ch 27, .send ch 14, .close ch, .wgDone],
    .wgWait ]

/-- The function `bufferedChannelDemo`. -/
def bufferedChannelDemo (ch : Nat) : List Stmt :=
  [ .println "Buffered channel demo:",
    .makeChan 50,
    .wgAdd 2,
    .go [.recv ch, .printLocal "", .wgDone],
    .go [.send ch 42, .send ch 27, .wgDone],
    .wgWait ]

/-- The function `sendReceiveOnlyDemo`. -/
def sendReceiveOnlyDemo (ch : Nat) : List Stmt :=
  [ .println "Send-only + receive-only demo:",
    .makeChan 0,
    .wgAdd 2,
    .go [.recv ch, .printLocal "Up:", .wgDone],
    .go [.send ch 42, .wgDone],
    .wgWait ]

/-- The function `senderAndReceiverDemo`. -/
def senderAndReceiverDemo (ch : Nat) : List Stmt :=
  [ .println "Sender and receiver demo:",
    .makeChan 0,
    .wgAdd 2,
    .go [.recv ch, .printLocal "Up:", .send ch 27, .wgDone],
    .go [.send ch 42, .recv ch, .printLocal "Down:", .wgDone],
    .wgWait ]

/-- The function `potentialDeadlockDemo`. -/
def potentialDeadlockDemo (ch : Nat) : List Stmt :=
  [.println "Potential deadlock:", .makeChan 0] ++
    forN 5 [.wgAdd 1, .go [.recv ch, .printLocal "", .wgDone]] ++
    forN 5 [.wgAdd 1, .go [.send ch 42, .wgDone]] ++
    [.wgWait]

/-- The function `simpleChannelDemo`. -/
def simpleChannelDemo (ch : Nat) : List Stmt :=
  [ .makeChan 0,
    .wgAdd 2,
    .go [.recv ch, .printLocal "", .wgDone],
    .go [.setLocal 42, .sendLocal ch, .setLocal 13, .wgDone],
    .wgWait ]

/-- The function `main`. -/
def main : List Stmt :=
  simpleChannelDemo 0 ++ potentialDeadlockDemo 1 ++ senderAndReceiverDemo 2 ++
    sendReceiveOnlyDemo 3 ++ bufferedChannelDemo 4 ++ forRangeLoopChannelDemo 5 ++
    manualForLoopChannelDemo 6

end Channels

/-! ## Part 7: sessions of `BufferedWriterCloser` (02-interfaces-examples) -/

/-- The calls `wc.Write(d)` for the `d` of `datas` one after the other, as in
`interfaceCompositionDemo` (which does not look at what they return): the
writer, the console and the outcomes left afterwards, and the count and
whether the error is non-nil that each call returned, in the order of the
calls. -/
def writeAll (bwc : BufferedWriterCloser) (out : Console) (errs : List Bool) :
    List (List Byte) → Option (BufferedWriterCloser × Console × List Bool × List (Nat × Bool))
  | [] => some (bwc, out, errs, [])
  | d :: ds =>
    match bwc.Write d out errs with
    | none => none
    | some r =>
      match writeAll r.bwc r.out r.errs ds with
      | none => none
      | some (b, o, e, rs) => some (b, o, e, (r.n, r.err) :: rs)

/-- The first four writes of `interfaceCompositionDemo`. -/
def demoWrites : List (List Byte) :=
  [bytesOf "Hello, this is a test.", bytesOf "This will come right after.",
    bytesOf "As well as this.", bytesOf "There is no interruption!"]

/-! ## Part 8: the two drain loops (04-channels-examples) -/

namespace Channels

open Runtime

/-- The receive `i, ok := <-ch`: the value, the flag and the queue afterwards;
`none` when the receive has to wait. -/
def recvOk (ch : Chan Int) : Option (Int × Bool × Chan Int) :=
  match ch.recv with
  | .value v c _ => some (v, true, c)
  | .closedEmpty => some (0, false, ch)
  | .blocks => none

/-- What a drain loop has done when it stops: the lines printed, the queue,
the number of receives made, and whether the loop was left (`true`) or waits
in a receive on an open and empty queue (`false`). -/
structure DrainResult where
  out : List Line
  ch : Chan Int
  receives : Nat
  left : Bool
deriving DecidableEq, Repr

/-- The loop `for { if i, ok := <-ch; ok { fmt.Println(i) } else { break } }`
of `manualForLoopChannelDemo`, run with nobody else on the queue; `oks` are
the flags received so far.  `none` means the fuel ran out. -/
def manualForLoop : Nat → Chan Int → List Line → Nat → List Bool →
    Option (DrainResult × List Bool)
  | 0, _, _, _, _ => none
  | fuel + 1, ch, out, n, oks =>
    match recvOk ch with
    | none => some (⟨out, ch, n, false⟩, oks)
    | some (i, ok, c) =>
      if ok then manualForLoop fuel c (out ++ [localLine "" i]) (n + 1) (oks ++ [ok])
      else some (⟨out, c, n + 1, true⟩, oks ++ [ok])

/-- The loop `for i := range ch { fmt.Println(i) }` of
`forRangeLoopChannelDemo`, run with nobody else on the queue.  `none` means
the fuel ran out. -/
def forRangeLoop : Nat → Chan Int → List Line → Nat → Option DrainResult
  | 0, _, _, _ => none
  | fuel + 1, ch, out, n =>
    match ch.recv with
    | .value i c _ => forRangeLoop fuel c (out ++ [localLine "" i]) (n + 1)
    | .closedEmpty => some ⟨out, ch, n + 1, true⟩
    | .blocks => some ⟨out, ch, n, false⟩

end Channels

/-! ## Part 9: `main` of 05-channels-logger after `loggerDemo` -/

namespace ChannelsLogger

/-- The states of the program `main` from the return of `loggerDemo` on:
`logCh` is closed, the other two channels are as they were made, and `main`
has run at most the first two statements of `betterLoggerDemo`. -/
def World.InBetterLoggerDemo (t3 t4 : Time) (s : World) : Prop :=
  s.logCh.closed = true ∧ s.logCh.sendq = [] ∧ s.parked = false ∧
    s.betterLogCh = makeChan logEntry 50 ∧ s.doneCh = makeChan Unit 0 ∧
    ∃ j, j ≤ 2 ∧ s.main = (betterLoggerDemo t3 t4).drop j

end ChannelsLogger

/-! ## Part 10: the lock discipline of the counters (03-goroutines-examples) -/

namespace Goroutines

open Runtime

/-- Whether `mtx` is held in the mode a statement needs under the lock
discipline: for the read of `fmt.Printf("Hello #%v\n", v)` in shared mode (no
writer holds it, a reader does), for the read and for the write of `v++` in
exclusive mode (a writer holds it, no reader does).  The other statements
touch no counter. -/
def lockHeld (m : RWMutex) : Op → Bool
  | .printHello _ => !m.writer && decide (1 ≤ m.readers)
  | .load _ => m.writer && m.readers == 0
  | .store _ => m.writer && m.readers == 0
  | _ => true

/-- 1 for a goroutine of `sayHelloMutex` between its `mtx.RLock()` and its
`mtx.RUnlock()`, else 0. -/
def holdsRead (t : Thread) : Nat :=
  if t.fn = sayHelloMutex ∧ 2 ≤ t.code.length ∧ t.code.length ≤ 3 then 1 else 0

/-- The read side of the lock in `mutexExample`: the readers of `mtx` are the
goroutines of `sayHelloMutex` between `mtx.RLock()` and `mtx.RUnlock()`, and
there is none while a writer holds the lock. -/
def ReadersInv (s : World) : Prop :=
  s.mtx.readers = (s.threads.map holdsRead).sum ∧ (s.mtx.writer = true → s.mtx.readers = 0)

end Goroutines

/-! # Theorems -/

/-! ## Part 1, theorems: `BufferedWriterCloser` -/

theorem Buffer.Read_full (b : Buffer) (p : List Byte) (hp : p.length = 8) (hb : 8 < b.Len) :
    b.Read p = (8, false, ⟨b.unread.drop 8⟩, b.unread.take 8) := by
  obtain ⟨u⟩ := b
  cases u with
  | nil => simp [Buffer.Len] at hb
  | cons x xs =>
    simp only [Buffer.Len] at hb
    have h8 : min p.length (x :: xs).length = 8 := by
      rw [hp]; exact Nat.min_eq_left (Nat.le_of_lt hb)
    simp only [Buffer.Read, h8]
    have hd : p.drop 8 = [] := List.drop_eq_nil_of_le (by omega)
    rw [hd, List.append_nil]

/-- A call of `fmt.Println` that does not fail prints its argument. -/
theorem Println_ok (out : Console) (errs : List Bool) (v : List Byte)
    (h : ∀ e ∈ errs, e = false) : Println out errs v = (out ++ [v], errs.tail, false) := by
  cases errs with
  | nil => rfl
  | cons e rest =>
    have he : e = false := h e (List.mem_cons_self _ _)
    subst he
    rfl

theorem tail_all_false (errs : List Bool) (h : ∀ e ∈ errs, e = false) :
    ∀ e ∈ errs.tail, e = false :=
  fun e he => h e (List.mem_of_mem_tail he)

/-- The loop of `Write`, when no call of `fmt.Println` fails, ends within
`Len + 1` iterations, without error, with the count it was given, at most 8
bytes left, and nothing lost: what it prints followed by what it leaves is
what it started from. -/
theorem writeLoop_spec (fuel : Nat) : ∀ (n : Nat) (b : Buffer) (v : List Byte) (out : Console)
    (errs : List Bool), v.length = 8 → b.Len < fuel → (∀ e ∈ errs, e = false) →
    ∃ r, writeLoop fuel n b v out errs = some r ∧ r.err = false ∧ r.n = n ∧
      r.bwc.buffer.Len ≤ 8 ∧ (8 < b.Len → 0 < r.bwc.buffer.Len) ∧
      (b.Len ≤ 8 → r.bwc.buffer = b ∧ r.out = out) ∧ (∀ e ∈ r.errs, e = false) ∧
      ∃ chunks, r.out = out ++ chunks ∧ (∀ c ∈ chunks, c.length = 8) ∧
        chunks.flatten ++ r.bwc.buffer.unread = b.unread := by
  induction fuel with
  | zero => intro n b v out errs _ h; omega
  | succ k ih =>
    intro n b v out errs hv hlen herrs
    by_cases h8 : 8 < b.Len
    · have hread := Buffer.Read_full b v hv h8
      have hlen1 : (Buffer.mk (b.unread.drop 8)).Len < k := by
        simp only [Buffer.Len, List.length_drop] at *; omega
      have hv1 : (b.unread.take 8).length = 8 := by
        simp only [Buffer.Len] at h8
        simp [List.length_take]; omega
      obtain ⟨r, hr, herr, hn, hle, hpos, hsame, hre, chunks, hout, hch, hcat⟩ :=
        ih n ⟨b.unread.drop 8⟩ (b.unread.take 8) (out ++ [b.unread.take 8]) errs.tail hv1 hlen1
          (tail_all_false errs herrs)
      refine ⟨r, ?_, herr, hn, hle, ?_, ?_, hre, b.unread.take 8 :: chunks, ?_, ?_, ?_⟩
      · simp only [writeLoop, gt_iff_lt, h8, if_true, hread, Println_ok _ _ _ herrs]; exact hr
      · intro _
        by_cases h16 : 8 < (Buffer.mk (b.unread.drop 8)).Len
        · exact hpos h16
        · have hkeep : (Buffer.mk (b.unread.drop 8)).Len ≤ 8 := Nat.le_of_not_lt h16
          rw [(hsame hkeep).1]
          simp only [Buffer.Len, List.length_drop] at *; omega
      · intro hle8; omega
      · rw [hout]; simp
      · intro c hc
        rcases List.mem_cons.mp hc with rfl | hc
        · exact hv1
        · exact hch c hc
      · simp only [List.flatten_cons, List.append_assoc, hcat]
        exact List.take_append_drop 8 b.unread
    · refine ⟨⟨n, false, ⟨b⟩, out, errs⟩, ?_, rfl, rfl, Nat.le_of_not_lt h8, ?_, ?_, herrs, [],
        ?_, ?_, ?_⟩
      · simp [writeLoop, h8]
      · intro h; exact absurd h h8
      · intro _; exact ⟨rfl, rfl⟩
      · simp
      · simp
      · simp


/-- What `Write` does on every writer and every data when no call of
`fmt.Println` fails: it returns, without error, the length of the data, and
leaves at most 8 bytes (not fewer than 8: the loop runs while `Len() > 8`);
the chunks printed are 8 bytes each and, followed by what is left, they are
the old buffer followed by the data. -/
theorem Write_spec (bwc : BufferedWriterCloser) (data : List Byte) (out : Console)
    (errs : List Bool) (herrs : ∀ e ∈ errs, e = false) :
    ∃ r, bwc.Write data out errs = some r ∧ r.err = false ∧ r.n = data.length ∧
      r.bwc.buffer.Len ≤ 8 ∧ (∀ e ∈ r.errs, e = false) ∧
      ∃ chunks, r.out = out ++ chunks ∧ (∀ c ∈ chunks, c.length = 8) ∧
        chunks.flatten ++ r.bwc.buffer.unread = bwc.buffer.unread ++ data := by
  obtain ⟨r, hr, herr, hn, hle, _, _, hre, chunks, hout, hch, hcat⟩ :=
    writeLoop_spec ((bwc.buffer.Write data).2.Len + 1) (bwc.buffer.Write data).1
      (bwc.buffer.Write data).2 (List.replicate 8 0) out errs (by simp) (Nat.lt_succ_self _)
      herrs
  exact ⟨r, hr, herr, hn, hle, hre, chunks, hout, hch, hcat⟩

/-- C10 (evaluation of the code where the claim fails): on a fresh writer,
`Write` of 8 bytes returns 8 with a nil error, prints nothing and leaves all 8
bytes in the buffer; `Write` of 16 bytes prints the first 8 and leaves the
other 8.  In both cases the buffer does not hold fewer than 8 bytes after
`Write`, and `Close` then flushes a full chunk of 8 bytes.  (No call of
`fmt.Println` fails in these runs.) -/
theorem Write_leaves_eight_bytes :
    NewBufferedWriterCloser.Write (bytesOf "12345678") [] [] =
        some ⟨8, false, ⟨⟨bytesOf "12345678"⟩⟩, [], []⟩ ∧
      NewBufferedWriterCloser.Write (bytesOf "Hello, this is a") [] [] =
        some ⟨16, false, ⟨⟨bytesOf "his is a"⟩⟩, [bytesOf "Hello, t"], []⟩ ∧
      ¬ (Buffer.mk (bytesOf "12345678")).Len < 8 ∧
      ¬ (Buffer.mk (bytesOf "his is a")).Len < 8 ∧
      BufferedWriterCloser.Close ⟨⟨bytesOf "his is a"⟩⟩ [bytesOf "Hello, t"] [] =
        some ⟨0, false, ⟨⟨[]⟩⟩, [bytesOf "Hello, t", bytesOf "his is a"], []⟩ := by
  refine ⟨by decide, by decide, by decide, by decide, by decide⟩

/-! ## Part 2, theorems: rendering of a log record -/

theorem ofNat_digit_ne_newline (d : Nat) (h : d < 10) : Char.ofNat (48 + d) ≠ '\n' := by
  interval_cases d <;> decide

theorem decimal_no_newline (fuel : Nat) : ∀ u : Nat, ∀ c ∈ decimal fuel u, c ≠ '\n' := by
  induction fuel with
  | zero => intro u c hc; simp [decimal] at hc
  | succ k ih =>
    intro u c hc
    simp only [decimal] at hc
    split at hc
    · rename_i hu
      simp only [List.mem_singleton] at hc
      subst hc
      exact ofNat_digit_ne_newline u hu
    · rcases List.mem_append.mp hc with hc | hc
      · exact ih _ c hc
      · simp only [List.mem_singleton] at hc
        subst hc
        exact ofNat_digit_ne_newline _ (Nat.mod_lt _ (by decide))

theorem count_eq_zero_of_forall_ne (l : List Char) (h : ∀ c ∈ l, c ≠ '\n') :
    l.count '\n' = 0 :=
  List.count_eq_zero.mpr (fun hm => h _ hm rfl)

theorem count_newline_appendInt (x : Int) (width : Nat) : (appendInt x width).count '\n' = 0 := by
  apply count_eq_zero_of_forall_ne
  intro c hc
  simp only [appendInt, List.mem_append, List.mem_replicate] at hc
  rcases hc with (hc | hc) | hc
  · split at hc
    · simp only [List.mem_singleton] at hc
      subst hc
      decide
    · simp at hc
  · rw [hc.2]; decide
  · exact decimal_no_newline _ _ c hc

/-- The digits of a number do not depend on the fuel, once there is enough. -/
theorem decimal_fuel (f1 : Nat) : ∀ (f2 u : Nat), u < f1 → u < f2 →
    decimal f1 u = decimal f2 u := by
  induction f1 with
  | zero => intro f2 u h; omega
  | succ k ih =>
    intro f2 u h1 h2
    cases f2 with
    | zero => omega
    | succ j =>
      simp only [decimal]
      split
      · rfl
      · rw [ih j (u / 10) (by omega) (by omega)]

/-- A number below 10 is one digit. -/
theorem decimal_lt_ten (u : Nat) (h : u < 10) : decimal (u + 1) u = [Char.ofNat (48 + u)] := by
  simp [decimal, h]

/-- A number from 10 on is the digits of its tenth part and its last digit. -/
theorem decimal_ge_ten (u : Nat) (h : 10 ≤ u) :
    decimal (u + 1) u = decimal (u / 10 + 1) (u / 10) ++ [Char.ofNat (48 + u % 10)] := by
  have h1 : ¬ u < 10 := by omega
  have e : decimal (u + 1) u = decimal u (u / 10) ++ [Char.ofNat (48 + u % 10)] := by
    simp [decimal, h1]
  rw [e, decimal_fuel u (u / 10 + 1) (u / 10) (by omega) (by omega)]

/-- A field of two digits: a number below 100 is written as its tens digit and
its units digit. -/
theorem appendInt_two (n : Nat) (h : n < 100) :
    appendInt (n : Int) 2 = [Char.ofNat (48 + n / 10), Char.ofNat (48 + n % 10)] := by
  have hneg : ¬ ((n : Int) < 0) := by omega
  simp only [appendInt, hneg, if_false, Int.natAbs_ofNat, List.nil_append]
  by_cases h10 : n < 10
  · rw [decimal_lt_ten n h10]
    have e1 : n / 10 = 0 := by omega
    have e2 : n % 10 = n := by omega
    simp [e1, e2]
  · rw [decimal_ge_ten n (by omega), decimal_lt_ten (n / 10) (by omega)]
    simp

/-- A field of four digits: a number from 0 to 9999 is written as its four
digits, zero padded. -/
theorem appendInt_four (n : Nat) (h : n < 10000) :
    appendInt (n : Int) 4 =
      [Char.ofNat (48 + n / 1000), Char.ofNat (48 + n / 100 % 10),
        Char.ofNat (48 + n / 10 % 10), Char.ofNat (48 + n % 10)] := by
  have hneg : ¬ ((n : Int) < 0) := by omega
  simp only [appendInt, hneg, if_false, Int.natAbs_ofNat, List.nil_append]
  by_cases h10 : n < 10
  · rw [decimal_lt_ten n h10]
    have e1 : n / 1000 = 0 := by omega
    have e2 : n / 100 = 0 := by omega
    have e3 : n / 10 = 0 := by omega
    have e4 : n % 10 = n := by omega
    simp [e1, e2, e3, e4]
  · rw [decimal_ge_ten n (by omega)]
    by_cases h100 : n < 100
    · rw [decimal_lt_ten (n / 10) (by omega)]
      have e1 : n / 1000 = 0 := by omega
      have e2 : n / 100 = 0 := by omega
      have e3 : n / 10 % 10 = n / 10 := by omega
      simp [e1, e2, e3]
    · rw [decimal_ge_ten (n / 10) (by omega)]
      have d1 : n / 10 / 10 = n / 100 := by omega
      rw [d1]
      by_cases h1000 : n < 1000
      · rw [decimal_lt_ten (n / 100) (by omega)]
        have e1 : n / 1000 = 0 := by omega
        have e2 : n / 100 % 10 = n / 100 := by omega
        simp [e1, e2]
      · rw [decimal_ge_ten (n / 100) (by omega)]
        have d2 : n / 100 / 10 = n / 1000 := by omega
        rw [d2, decimal_lt_ten (n / 1000) (by omega)]
        simp

/-- The layout `2006-01-02T15:04:05` formats a time as year, month, day, `T`,
hour, minute and second. -/
theorem Format_layout (t : Time) :
    t.Format "2006-01-02T15:04:05" =
      ⟨appendInt t.year 4 ++ ['-'] ++ appendInt t.month 2 ++ ['-'] ++ appendInt t.day 2 ++
        ['T'] ++ appendInt t.hour 2 ++ [':'] ++ appendInt t.minute 2 ++ [':'] ++
        appendInt t.second 2⟩ := by
  simp [Time.Format, formatLayout]

theorem count_newline_Format (t : Time) :
    (t.Format "2006-01-02T15:04:05").data.count '\n' = 0 := by
  rw [Format_layout]
  simp [List.count_append, List.count_cons, count_newline_appendInt]

/-- C3 (as amended): for every record, `logger` writes the time in the layout
`2006-01-02T15:04:05`, then ` - [`, the severity, `] `, the message and a
newline, and `betterLogger` writes the identical text.  For a time within the
calendar in a year from 0 to 9999 the time is the nineteen characters
`YYYY-MM-DDThh:mm:ss`, each field in decimal digits, zero padded.  The text
ends with a newline and holds, besides it, the newlines of the severity and of
the message: it is exactly one line when the severity and the message hold no
newline.  Three times are rendered as examples: a year of four digits, a year
of five digits (written in full) and a negative year. -/
theorem logger_renders_one_line (entry : logEntry) :
    loggerLine entry =
        (entry.time.Format "2006-01-02T15:04:05") ++ " - [" ++ entry.severity ++ "] " ++
          entry.message ++ "\n" ∧
      (0 ≤ entry.time.year → entry.time.year ≤ 9999 → entry.time.month ≤ 12 →
        entry.time.day ≤ 31 → entry.time.hour ≤ 23 → entry.time.minute ≤ 59 →
        entry.time.second ≤ 59 →
        (entry.time.Format "2006-01-02T15:04:05").data =
          [Char.ofNat (48 + entry.time.year.toNat / 1000),
            Char.ofNat (48 + entry.time.year.toNat / 100 % 10),
            Char.ofNat (48 + entry.time.year.toNat / 10 % 10),
            Char.ofNat (48 + entry.time.year.toNat % 10), '-',
            Char.ofNat (48 + entry.time.month / 10), Char.ofNat (48 + entry.time.month % 10), '-',
            Char.ofNat (48 + entry.time.day / 10), Char.ofNat (48 + entry.time.day % 10), 'T',
            Char.ofNat (48 + entry.time.hour / 10), Char.ofNat (48 + entry.time.hour % 10), ':',
            Char.ofNat (48 + entry.time.minute / 10), Char.ofNat (48 + entry.time.minute % 10),
            ':',
            Char.ofNat (48 + entry.time.second / 10),
            Char.ofNat (48 + entry.time.second % 10)]) ∧
      (loggerLine entry).data =
        ((entry.time.Format "2006-01-02T15:04:05") ++ " - [" ++ entry.severity ++ "] " ++
          entry.message).data ++ ['\n'] ∧
      (entry.time.Format "2006-01-02T15:04:05").data.count '\n' = 0 ∧
      (loggerLine entry).data.count '\n' =
        entry.severity.data.count '\n' + entry.message.data.count '\n' + 1 ∧
      ('\n' ∉ entry.severity.data → '\n' ∉ entry.message.data →
        '\n' ∉ ((entry.time.Format "2006-01-02T15:04:05") ++ " - [" ++ entry.severity ++ "] " ++
          entry.message).data ∧ (loggerLine entry).data.count '\n' = 1) ∧
      betterLoggerLine entry = loggerLine entry ∧
      loggerLine ⟨⟨2024, 3, 5, 7, 8, 9⟩, logInfo, "App is starting"⟩ =
        "2024-03-05T07:08:09 - [INFO] App is starting\n" ∧
      loggerLine ⟨⟨12345, 11, 30, 23, 59, 58⟩, logError, "late"⟩ =
        "12345-11-30T23:59:58 - [ERROR] late\n" ∧
      loggerLine ⟨⟨-5, 1, 2, 0, 0, 0⟩, logWarning, ""⟩ =
        "-0005-01-02T00:00:00 - [WARNING] \n" := by
  have hcount : (loggerLine entry).data.count '\n' =
      entry.severity.data.count '\n' + entry.message.data.count '\n' + 1 := by
    have h := count_newline_Format entry.time
    simp only [loggerLine, Printf_v_v_v, String.data_append, List.count_append, h]
    have h1 : List.count '\n' [' ', '-', ' ', '['] = 0 := by decide
    have h2 : List.count '\n' [']', ' '] = 0 := by decide
    have h3 : List.count '\n' ['\n'] = 1 := by decide
    show _ + List.count '\n' [' ', '-', ' ', '['] + _ + List.count '\n' [']', ' '] + _ +
      List.count '\n' ['\n'] = _
    omega
  refine ⟨rfl, ?_, ?_, count_newline_Format _, hcount, ?_, rfl, by decide, by decide,
    by decide⟩
  · intro hy0 hy hmo hd hh hmi hs
    obtain ⟨y, hyeq⟩ := Int.eq_ofNat_of_zero_le hy0
    rw [Format_layout, hyeq]
    have hy' : y < 10000 := by omega
    rw [appendInt_four y hy', appendInt_two _ (by omega : entry.time.month < 100),
      appendInt_two _ (by omega : entry.time.day < 100),
      appendInt_two _ (by omega : entry.time.hour < 100),
      appendInt_two _ (by omega : entry.time.minute < 100),
      appendInt_two _ (by omega : entry.time.second < 100)]
    simp
  · simp [loggerLine, Printf_v_v_v, String.data_append]
  · intro hsev hmsg
    have h1 := List.count_eq_zero.mpr hsev
    have h2 := List.count_eq_zero.mpr hmsg
    refine ⟨?_, by rw [hcount, h1, h2]⟩
    have hf := count_newline_Format entry.time
    apply List.count_eq_zero.mp
    simp only [String.data_append, List.count_append, hf, h1, h2]
    decide

/-- C3 (as amended), at the first record of `loggerDemo` sent on March 5, 2024
at 07:08:09: the time is rendered as `2024-03-05T07:08:09` and the text is one
line. -/
theorem logger_renders_one_line_witness :
    (Time.Format ⟨2024, 3, 5, 7, 8, 9⟩ "2006-01-02T15:04:05").data =
        ['2', '0', '2', '4', '-', '0', '3', '-', '0', '5', 'T', '0', '7', ':', '0', '8', ':',
          '0', '9'] ∧
      (loggerLine ⟨⟨2024, 3, 5, 7, 8, 9⟩, logInfo, "App is starting"⟩).data.count '\n' = 1 :=
  ⟨(logger_renders_one_line ⟨⟨2024, 3, 5, 7, 8, 9⟩, logInfo, "App is starting"⟩).2.1
      (by decide) (by decide) (by decide) (by decide) (by decide) (by decide) (by decide),
    ((logger_renders_one_line ⟨⟨2024, 3, 5, 7, 8, 9⟩, logInfo, "App is starting"⟩).2.2.2.2.2.1
      (by decide) (by decide)).2⟩

/-- C3 (the claim fails on the code): a record whose message holds a newline is
rendered as two lines, and one whose severity and message hold one each as
three: the text written for a record is not always exactly one line. -/
theorem loggerLine_two_lines :
    loggerLine ⟨Time.zero, logInfo, "disk full\nretrying"⟩ =
        "0001-01-01T00:00:00 - [INFO] disk full\nretrying\n" ∧
      (loggerLine ⟨Time.zero, logInfo, "disk full\nretrying"⟩).data.count '\n' = 2 ∧
      (betterLoggerLine ⟨Time.zero, logInfo, "disk full\nretrying"⟩).data.count '\n' = 2 ∧
      (loggerLine ⟨Time.zero, "IN\nFO", "a\nb"⟩).data.count '\n' = 3 := by
  refine ⟨by decide, by decide, by decide, by decide⟩

/-! ## Part 4, theorems: the two consumers -/

theorem DrainState.run_append (s : DrainState) (as bs : List DrainAct) :
    s.run (as ++ bs) = (s.run as).bind (fun s1 => s1.run bs) := by
  induction as generalizing s with
  | nil => rfl
  | cons a as ih =>
    simp only [List.cons_append, DrainState.run]
    cases s.step a with
    | none => rfl
    | some s1 => exact ih s1

theorem enqueued_append (as bs : List DrainAct) :
    enqueued (as ++ bs) = enqueued as ++ enqueued bs := by
  induction as with
  | nil => rfl
  | cons a as ih => cases a <;> simp [enqueued, ih]

/-- A receive keeps the order: the value received is the first pending one. -/
theorem Chan.recv_value {α : Type} (c c1 : Chan α) (v : α) (w : Option Nat)
    (h : c.recv = .value v c1 w) :
    c.pending = v :: c1.pending ∧ c1.closed = c.closed ∧ c1.cap = c.cap ∧ (c.Wf → c1.Wf) := by
  obtain ⟨cap, buf, sendq, closed⟩ := c
  cases buf with
  | nil =>
    cases sendq with
    | nil =>
      simp only [Chan.recv] at h
      split at h <;> cases h
    | cons p q =>
      obtain ⟨g, x⟩ := p
      simp only [Chan.recv] at h
      cases h
      simp_all [Chan.pending, Chan.Wf]
  | cons b rest =>
    cases sendq with
    | nil =>
      simp only [Chan.recv] at h
      cases h
      simp_all [Chan.pending, Chan.Wf]
    | cons p q =>
      obtain ⟨g, x⟩ := p
      simp only [Chan.recv] at h
      cases h
      simp_all [Chan.pending, Chan.Wf]

theorem Chan.recv_closedEmpty {α : Type} (c : Chan α) (h : c.recv = .closedEmpty) :
    c.buf = [] ∧ c.sendq = [] ∧ c.closed = true := by
  obtain ⟨cap, buf, sendq, closed⟩ := c
  cases buf with
  | nil =>
    cases sendq with
    | nil =>
      simp only [Chan.recv] at h
      split at h
      · rename_i hc; exact ⟨rfl, rfl, hc⟩
      · cases h
    | cons p q => obtain ⟨g, x⟩ := p; simp [Chan.recv] at h
  | cons b rest =>
    cases sendq with
    | nil => simp [Chan.recv] at h
    | cons p q => obtain ⟨g, x⟩ := p; simp [Chan.recv] at h

theorem makeChan_wf (α : Type) (cap : Nat) : (makeChan α cap).Wf := by
  simp [Chan.Wf, makeChan]

theorem Chan.send_sent {α : Type} (c c1 : Chan α) (g : Nat) (v : α) (hw : c.Wf)
    (h : c.send g v = .sent c1) :
    c1.pending = c.pending ++ [v] ∧ c1.Wf ∧ c1.closed = false ∧ c.closed = false := by
  obtain ⟨cap, buf, sendq, closed⟩ := c
  simp only [Chan.send] at h
  obtain ⟨hw1, hw2⟩ := hw
  simp only at hw1 hw2
  by_cases hc : closed = true
  · simp [hc] at h
  · by_cases hfull : buf.length < cap
    · simp only [hc, hfull, if_true] at h
      cases h
      have hsq : sendq = [] := by
        by_contra hne
        have := hw2 hne
        omega
      subst hsq
      simp_all [Chan.pending, Chan.Wf]
    · simp [hc, hfull] at h

theorem Chan.send_parked {α : Type} (c c1 : Chan α) (g : Nat) (v : α) (hw : c.Wf)
    (h : c.send g v = .parked c1) :
    c1.pending = c.pending ++ [v] ∧ c1.Wf ∧ c1.closed = false ∧ c.closed = false := by
  obtain ⟨cap, buf, sendq, closed⟩ := c
  simp only [Chan.send] at h
  by_cases hc : closed = true
  · simp [hc] at h
  · by_cases hfull : buf.length < cap
    · simp [hc, hfull] at h
    · simp only [hc, hfull] at h
      cases h
      simp_all [Chan.pending, Chan.Wf]

theorem Chan.close_closed {α : Type} (c c1 : Chan α) (h : c.close = .closed c1) :
    c1.pending = c.pending ∧ c1.Wf ∧ c1.closed = true ∧ c.closed = false ∧ c1.buf = c.buf := by
  obtain ⟨cap, buf, sendq, closed⟩ := c
  simp only [Chan.close] at h
  by_cases hc : closed = true
  · simp [hc] at h
  · cases sendq with
    | nil =>
      simp only [hc] at h
      cases h
      simp_all [Chan.pending, Chan.Wf]
    | cons p q => simp [hc] at h

/-- What a step of the drain machine keeps: the lines written followed by the
pending records are those before the step followed by the record the step
enqueued; the queue stays well formed; a returned `logger` left a closed and
empty queue. -/
theorem DrainState.step_inv (s s1 : DrainState) (a : DrainAct) (h : s.step a = some s1)
    (hw : s.logCh.Wf)
    (hr : s.logger = .returned → s.logCh.closed = true ∧ s.logCh.buf = []) :
    s1.out ++ s1.logCh.pending.map loggerLine =
        s.out ++ s.logCh.pending.map loggerLine ++ (enqueued [a]).map loggerLine ∧
      s1.logCh.Wf ∧
      (s1.logger = .returned → s1.logCh.closed = true ∧ s1.logCh.buf = []) := by
  obtain ⟨ch, out, lg⟩ := s
  simp only at hw hr
  cases a with
  | enqueue g e =>
    simp only [DrainState.step] at h
    cases hsend : ch.send g e with
    | sent c =>
      simp only [hsend] at h
      cases h
      obtain ⟨hp, hw1, _, hc⟩ := Chan.send_sent ch c g e hw hsend
      refine ⟨by simp [hp, enqueued], hw1, ?_⟩
      intro hret
      have := (hr hret).1
      simp [hc] at this
    | parked c =>
      simp only [hsend] at h
      cases h
      obtain ⟨hp, hw1, _, hc⟩ := Chan.send_parked ch c g e hw hsend
      refine ⟨by simp [hp, enqueued], hw1, ?_⟩
      intro hret
      have := (hr hret).1
      simp [hc] at this
    | panicClosed => simp [hsend] at h
  | close =>
    simp only [DrainState.step] at h
    cases hclose : ch.close with
    | closed c =>
      simp only [hclose] at h
      cases h
      obtain ⟨hp, hw1, _, hc, _⟩ := Chan.close_closed ch c hclose
      refine ⟨by simp [hp, enqueued], hw1, ?_⟩
      intro hret
      have := (hr hret).1
      simp [hc] at this
    | panicClosed => simp [hclose] at h
    | panicSenders => simp [hclose] at h
  | logger =>
    cases lg with
    | returned => simp [DrainState.step] at h
    | running =>
      simp only [DrainState.step, loggerIter] at h
      cases hrecv : ch.recv with
      | value v c w =>
        simp only [hrecv] at h
        cases h
        obtain ⟨hp, _, _, hw1⟩ := Chan.recv_value ch c v w hrecv
        exact ⟨by simp [hp, enqueued], hw1 hw, fun hret => by cases hret⟩
      | closedEmpty =>
        simp only [hrecv] at h
        cases h
        obtain ⟨hb, _, hc⟩ := Chan.recv_closedEmpty ch hrecv
        exact ⟨by simp [enqueued], hw, fun _ => ⟨hc, hb⟩⟩
      | blocks => simp [hrecv] at h

theorem DrainState.run_inv (acts : List DrainAct) : ∀ (s s1 : DrainState),
    s.run acts = some s1 →
    s.logCh.Wf →
    (s.logger = .returned → s.logCh.closed = true ∧ s.logCh.buf = []) →
    s1.out ++ s1.logCh.pending.map loggerLine =
        s.out ++ s.logCh.pending.map loggerLine ++ (enqueued acts).map loggerLine ∧
      s1.logCh.Wf ∧
      (s1.logger = .returned → s1.logCh.closed = true ∧ s1.logCh.buf = []) := by
  induction acts with
  | nil =>
    intro s s1 h hq hr
    simp only [DrainState.run] at h
    cases h
    exact ⟨by simp [enqueued], hq, hr⟩
  | cons a as ih =>
    intro s s1 h hq hr
    simp only [DrainState.run] at h
    cases hstep : s.step a with
    | none => simp [hstep] at h
    | some s2 =>
      simp only [hstep] at h
      obtain ⟨e1, q1, r1⟩ := DrainState.step_inv s s2 a hstep hq hr
      obtain ⟨e2, q2, r2⟩ := ih s2 s1 h q1 r1
      refine ⟨?_, q2, r2⟩
      rw [e2, e1]
      have : enqueued (a :: as) = enqueued [a] ++ enqueued as := enqueued_append [a] as
      rw [this]
      simp

/-- Once the queue is closed, `logger` alone empties it and returns: one
iteration for each buffered record and one more to see the closed queue. -/
theorem DrainState.drain_closed (buf : List logEntry) : ∀ (cap : Nat) (out : List String),
    (DrainState.mk ⟨cap, buf, [], true⟩ out .running).run
        (List.replicate (buf.length + 1) .logger) =
      some ⟨⟨cap, [], [], true⟩, out ++ buf.map loggerLine, .returned⟩ := by
  induction buf with
  | nil => intro cap out; simp [DrainState.run, DrainState.step, loggerIter, Chan.recv]
  | cons b rest ih =>
    intro cap out
    have h := ih cap (out ++ [loggerLine b])
    simp only [List.length_cons, List.replicate_succ, DrainState.run, DrainState.step,
      loggerIter, Chan.recv] at h ⊢
    simp only [List.map_cons]
    rw [h]
    simp

/-- C1: against any producers, for every run of sends, a close and iterations
of `logger` that does not panic, the lines written followed by the rendering
of the records still pending are the rendering of the records enqueued, in
the order of the sends; if `logger` has returned it has written exactly the
rendering of the enqueued records, in that order, and the queue is closed and
empty; and if the queue is closed and `logger` is still in its loop, then
`logger` returns after one iteration for each buffered record and one more,
having written exactly the rendering of the enqueued records. -/
theorem logger_drains_in_fifo_order (acts : List DrainAct) (s : DrainState)
    (h : DrainState.init.run acts = some s) :
    s.out ++ s.logCh.pending.map loggerLine = (enqueued acts).map loggerLine ∧
      (s.logger = .returned →
        s.out = (enqueued acts).map loggerLine ∧ s.logCh.closed = true ∧ s.logCh.buf = []) ∧
      (s.logCh.closed = true → s.logger = .running →
        ∃ s1, s.run (List.replicate (s.logCh.buf.length + 1) .logger) = some s1 ∧
          s1.logger = .returned ∧ s1.out = (enqueued acts).map loggerLine ∧
          s1.logCh.closed = true ∧ s1.logCh.buf = []) := by
  obtain ⟨e, q, r⟩ := DrainState.run_inv acts DrainState.init s h
    (makeChan_wf _ _) (by simp [DrainState.init])
  have e1 : s.out ++ s.logCh.pending.map loggerLine = (enqueued acts).map loggerLine := by
    rw [e]; simp [DrainState.init, makeChan, Chan.pending]
  refine ⟨e1, ?_, ?_⟩
  · intro hret
    obtain ⟨hc, hb⟩ := r hret
    have hs := q.1 hc
    refine ⟨?_, hc, hb⟩
    rw [← e1]; simp [Chan.pending, hb, hs]
  · intro hc hrun
    have hs := q.1 hc
    obtain ⟨ch, out, lg⟩ := s
    obtain ⟨cap, buf, sendq, closed⟩ := ch
    simp only at hc hs hrun e1 ⊢
    subst hc hs hrun
    refine ⟨_, DrainState.drain_closed buf cap out, rfl, ?_, rfl, rfl⟩
    rw [← e1]; simp [Chan.pending]

/-- C1, at a concrete run: two producers send three records, the queue is
closed, `logger` runs: it returns having written the three lines in order. -/
theorem logger_drains_in_fifo_order_witness :
    DrainState.init.run [.enqueue 1 ⟨Time.zero, logInfo, "a"⟩, .logger,
        .enqueue 2 ⟨Time.zero, logError, "b"⟩, .enqueue 1 ⟨Time.zero, logWarning, "c"⟩,
        .close, .logger, .logger, .logger] =
      some ⟨⟨50, [], [], true⟩,
        ["0001-01-01T00:00:00 - [INFO] a\n", "0001-01-01T00:00:00 - [ERROR] b\n",
          "0001-01-01T00:00:00 - [WARNING] c\n"], .returned⟩ ∧
    (["0001-01-01T00:00:00 - [INFO] a\n", "0001-01-01T00:00:00 - [ERROR] b\n",
          "0001-01-01T00:00:00 - [WARNING] c\n"] =
        (enqueued [.enqueue 1 ⟨Time.zero, logInfo, "a"⟩, .logger,
          .enqueue 2 ⟨Time.zero, logError, "b"⟩, .enqueue 1 ⟨Time.zero, logWarning, "c"⟩,
          .close, .logger, .logger, .logger]).map loggerLine ∧
      true = true ∧ ([] : List logEntry) = []) :=
  ⟨by decide,
    (logger_drains_in_fifo_order _ ⟨⟨50, [], [], true⟩,
        ["0001-01-01T00:00:00 - [INFO] a\n", "0001-01-01T00:00:00 - [ERROR] b\n",
          "0001-01-01T00:00:00 - [WARNING] c\n"], .returned⟩ (by decide)).2.1 rfl⟩

/-- An iteration of `betterLogger` never leaves the loop, whichever case is
picked: the `break` of the done case ends the `select` only. -/
theorem betterLoggerIter_running (pick : SelectCase) (b : Chan logEntry) (d : Chan Unit)
    (out : List String) (ev : List LogEvent) (r : BetterLoggerStep)
    (h : betterLoggerIter pick b d out ev = some r) : r.state = .running := by
  cases pick with
  | entry =>
    simp only [betterLoggerIter] at h
    cases hrecv : b.recv with
    | value v c w => simp only [hrecv] at h; cases h; rfl
    | closedEmpty => simp only [hrecv] at h; cases h; rfl
    | blocks => simp [hrecv] at h
  | done =>
    simp only [betterLoggerIter] at h
    cases hrecv : d.recv with
    | value v c w => simp only [hrecv] at h; cases h; rfl
    | closedEmpty => simp only [hrecv] at h; cases h; rfl
    | blocks => simp [hrecv] at h

theorem SelectState.step_running (s s1 : SelectState) (a : SelectAct)
    (h : s.step a = some s1) (hr : s.betterLogger = .running) : s1.betterLogger = .running := by
  obtain ⟨b, d, out, ev, st⟩ := s
  simp only at hr
  subst hr
  cases a with
  | enqueue g e =>
    simp only [SelectState.step] at h
    cases hsend : b.send g e with
    | sent c => simp only [hsend] at h; cases h; rfl
    | parked c => simp only [hsend] at h; cases h; rfl
    | panicClosed => simp [hsend] at h
  | signalDone g =>
    simp only [SelectState.step] at h
    cases hsend : d.send g () with
    | sent c => simp only [hsend] at h; cases h; rfl
    | parked c => simp only [hsend] at h; cases h; rfl
    | panicClosed => simp [hsend] at h
  | betterLogger pick =>
    simp only [SelectState.step] at h
    cases hit : betterLoggerIter pick b d out ev with
    | none => simp [hit] at h
    | some r =>
      simp only [hit] at h
      cases h
      exact betterLoggerIter_running pick b d out ev r hit

theorem SelectState.run_running (acts : List SelectAct) : ∀ (s s1 : SelectState),
    s.run acts = some s1 → s.betterLogger = .running → s1.betterLogger = .running := by
  induction acts with
  | nil => intro s s1 h hr; simp only [SelectState.run] at h; cases h; exact hr
  | cons a as ih =>
    intro s s1 h hr
    simp only [SelectState.run] at h
    cases hstep : s.step a with
    | none => simp [hstep] at h
    | some s2 =>
      simp only [hstep] at h
      exact ih s2 s1 h (SelectState.step_running s s2 a hstep hr)

/-- C2 (evaluation of the code where the claim fails): a record is buffered in
`betterLogCh`, the done-signal is offered, `betterLogger` takes the done case
and is still in its loop; in its next iteration it renders the buffered
record, after the done-signal.  And in no run at all does `betterLogger`
return. -/
theorem betterLogger_goes_on_after_done :
    SelectState.init.run [.enqueue 1 ⟨Time.zero, logInfo, "late"⟩, .signalDone 0,
        .betterLogger .done] =
      some ⟨⟨50, [⟨Time.zero, logInfo, "late"⟩], [], false⟩, ⟨0, [], [], false⟩, [],
        [.doneReceived], .running⟩ ∧
    SelectState.init.run [.enqueue 1 ⟨Time.zero, logInfo, "late"⟩, .signalDone 0,
        .betterLogger .done, .betterLogger .entry] =
      some ⟨⟨50, [], [], false⟩, ⟨0, [], [], false⟩, ["0001-01-01T00:00:00 - [INFO] late\n"],
        [.doneReceived, .rendered "0001-01-01T00:00:00 - [INFO] late\n"], .running⟩ ∧
    ∀ acts : List SelectAct,
      (SelectState.init.run acts).map SelectState.betterLogger ≠ some .returned := by
  refine ⟨by decide, by decide, ?_⟩
  intro acts
  cases hrun : SelectState.init.run acts with
  | none => simp
  | some s =>
    have := SelectState.run_running acts SelectState.init s hrun rfl
    simp [this]

/-! ## Part 5, theorems: the program of 05-channels-logger -/

namespace ChannelsLogger

theorem World.step_fault (s : World) (f : Fault) (t : Tid) (h : s.fault = some f) :
    s.step t = none := by
  simp [World.step, h]

theorem World.exec_fault (sched : List Tid) (s : World) (f : Fault) (h : s.fault = some f) :
    s.exec sched = s := by
  induction sched with
  | nil => rfl
  | cons t ts ih => simp [World.exec, World.step_fault s f t h, ih]

/-- C4 (as amended): a send on a closed channel is the run-time panic
`send on closed channel`, for every closed channel, sender and value: the send
is neither buffered nor parked.  In the program, when the next statement of
`main` is a send on a closed queue, the step of `main` stops the program with
that panic, the queues and the statements of `main` being as before (the
record is not enqueued, the send is not completed and nothing is returned to
its caller), and after it no goroutine runs any more. -/
theorem send_on_closed_channel_panics (s : World) (ch : ChanName) (e : logEntry)
    (rest : List Stmt) (hf : s.fault = none) (hp : s.parked = false)
    (hm : s.main = .send ch e :: rest) (hc : (s.chan ch).closed = true) :
    (∀ g : Nat, (s.chan ch).send g e = .panicClosed) ∧
      s.step .main = some { s with fault := some .sendOnClosedChannel } ∧
      ∀ (sched : List Tid),
        ({ s with fault := some .sendOnClosedChannel } : World).exec sched =
          { s with fault := some .sendOnClosedChannel } := by
  refine ⟨?_, ?_, ?_⟩
  · intro g; simp [Chan.send, hc]
  · simp [World.step, World.stepMain, hf, hp, hm, Chan.send, hc]
  · intro sched
    exact World.exec_fault sched _ .sendOnClosedChannel rfl

/-- C4 (as amended), at a concrete state: `logCh` closed after `loggerDemo`,
`main` about to run the first send of `betterLoggerDemo`. -/
theorem send_on_closed_channel_panics_witness :
    (Chan.mk 50 [] [] true).send 0 (logEntry.mk Time.zero logInfo "App is starting") =
        .panicClosed ∧
      (World.mk ⟨50, [], [], true⟩ (makeChan logEntry 50) (makeChan Unit 0) [] []
          ((betterLoggerDemo Time.zero Time.zero).drop 2) false (some .returned)
          none (some .running) none).step .main =
        some (World.mk ⟨50, [], [], true⟩ (makeChan logEntry 50) (makeChan Unit 0) [] []
          ((betterLoggerDemo Time.zero Time.zero).drop 2) false (some .returned)
          none (some .running) (some .sendOnClosedChannel)) :=
  ⟨(send_on_closed_channel_panics
      (World.mk ⟨50, [], [], true⟩ (makeChan logEntry 50) (makeChan Unit 0) [] []
        ((betterLoggerDemo Time.zero Time.zero).drop 2) false (some .returned)
        none (some .running) none)
      .logCh ⟨Time.zero, logInfo, "App is starting"⟩
      ((betterLoggerDemo Time.zero Time.zero).drop 3) rfl rfl rfl rfl).1 0,
   (send_on_closed_channel_panics
      (World.mk ⟨50, [], [], true⟩ (makeChan logEntry 50) (makeChan Unit 0) [] []
        ((betterLoggerDemo Time.zero Time.zero).drop 2) false (some .returned)
        none (some .running) none)
      .logCh ⟨Time.zero, logInfo, "App is starting"⟩
      ((betterLoggerDemo Time.zero Time.zero).drop 3) rfl rfl rfl rfl).2.1⟩

/-- C4 (the claim fails on the code): in the run of `main` in which `logger`
receives and writes both records and returns, the first send of `betterLoggerDemo` finds
`logCh` closed; the program is stopped by the panic
`send on closed channel`: the statements after the send are never run, `main`
has no result to branch on, and no goroutine can run any more. -/
theorem send_on_closed_channel_aborts_main :
    ((World.init (main Time.zero Time.zero Time.zero Time.zero)).exec
        [.main, .main, .logger, .logger, .main, .main, .logger, .logger, .main,
          .main, .logger, .main, .main, .main]).fault = some .sendOnClosedChannel ∧
    ((World.init (main Time.zero Time.zero Time.zero Time.zero)).exec
        [.main, .main, .logger, .logger, .main, .main, .logger, .logger, .main,
          .main, .logger, .main, .main, .main]).main = (betterLoggerDemo Time.zero Time.zero).drop 2 ∧
    ((World.init (main Time.zero Time.zero Time.zero Time.zero)).exec
        [.main, .main, .logger, .logger, .main, .main, .logger, .logger, .main,
          .main, .logger, .main, .main, .main]).step .main = none ∧
    ((World.init (main Time.zero Time.zero Time.zero Time.zero)).exec
        [.main, .main, .logger, .logger, .main, .main, .logger, .logger, .main,
          .main, .logger, .main, .main, .main, .main, .logger, .betterLogger .entry,
          .betterLogger .done, .main]) =
      (World.init (main Time.zero Time.zero Time.zero Time.zero)).exec
        [.main, .main, .logger, .logger, .main, .main, .logger, .logger, .main,
          .main, .logger, .main, .main, .main] := by
  refine ⟨by decide, by decide, by decide, by decide⟩

theorem World.release_unused (s : World) (w : Option Nat) (h : s.BetterLogChUnused) :
    (s.release w).BetterLogChUnused := by
  cases w with
  | none => exact h
  | some g =>
    obtain ⟨h1, h2, h3⟩ := h
    exact ⟨h1, fun st hst => h2 st (List.mem_of_mem_tail hst), h3⟩

theorem World.stepMain_unused (s s1 : World) (h : s.BetterLogChUnused)
    (hs : s.stepMain = some s1) : s1.BetterLogChUnused := by
  obtain ⟨h1, h2, h3⟩ := h
  unfold World.stepMain at hs
  split at hs
  · cases hs
  · split at hs
    · cases hs
    · cases hs; exact ⟨h1, fun st hst => h2 st (by simp_all), h3⟩
    · cases hs; exact ⟨h1, fun st hst => h2 st (by simp_all), h3⟩
    · rename_i ch e rest hm
      have hch : ch = .logCh := by
        cases ch with
        | logCh => rfl
        | betterLogCh => have := h2 (.send .betterLogCh e) (by simp [hm]); simp [usesBetterLogCh] at this
      subst hch
      split at hs
      · cases hs; exact ⟨h1, fun st hst => h2 st (by simp_all [World.setChan]), h3⟩
      · cases hs; exact ⟨h1, fun st hst => h2 st (by simp_all [World.setChan]), h3⟩
      · cases hs; exact ⟨h1, h2, h3⟩
    · cases hs; exact ⟨h1, fun st hst => h2 st (by simp_all), h3⟩
    · rename_i ch rest hm
      have hch : ch = .logCh := by
        cases ch with
        | logCh => rfl
        | betterLogCh => have := h2 (.close .betterLogCh) (by simp [hm]); simp [usesBetterLogCh] at this
      subst hch
      split at hs
      · cases hs; exact ⟨h1, fun st hst => h2 st (by simp_all [World.setChan]), h3⟩
      · cases hs; exact ⟨h1, h2, h3⟩
      · cases hs; exact ⟨h1, h2, h3⟩
    · cases hs; exact ⟨h1, fun st hst => h2 st (by simp_all), h3⟩
    · split at hs
      · cases hs; exact ⟨h1, fun st hst => h2 st (by simp_all), h3⟩
      · cases hs; exact ⟨h1, h2, h3⟩
      · cases hs; exact ⟨h1, h2, h3⟩

theorem World.step_unused (s s1 : World) (t : Tid) (h : s.BetterLogChUnused)
    (hs : s.step t = some s1) : s1.BetterLogChUnused := by
  unfold World.step at hs
  split at hs
  · cases hs
  · cases hs
  · cases t with
    | main => exact World.stepMain_unused s s1 h hs
    | logger =>
      simp only [World.stepLogger] at hs
      split at hs
      · split at hs
        · cases hs
          exact ⟨h.1, h.2.1, h.2.2⟩
        · split at hs
          · cases hs
            exact World.release_unused _ _ ⟨h.1, h.2.1, h.2.2⟩
          · cases hs
            exact ⟨h.1, h.2.1, h.2.2⟩
          · cases hs
      · cases hs
    | betterLogger pick =>
      simp only [World.stepBetterLogger] at hs
      split at hs
      · split at hs
        · rename_i r hr
          cases hs
          apply World.release_unused
          obtain ⟨h1, h2, h3⟩ := h
          cases pick with
          | entry => simp [betterLoggerIter, h1, makeChan, Chan.recv] at hr
          | done =>
            simp only [betterLoggerIter] at hr
            split at hr
            · cases hr
              refine ⟨h1, h2, ?_⟩
              intro ev hev
              rcases List.mem_append.mp hev with hev | hev
              · exact h3 ev hev
              · simpa using hev
            · cases hr
              refine ⟨h1, h2, ?_⟩
              intro ev hev
              rcases List.mem_append.mp hev with hev | hev
              · exact h3 ev hev
              · simpa using hev
            · cases hr
        · cases hs
      · cases hs

theorem World.exec_unused (sched : List Tid) : ∀ (s : World), s.BetterLogChUnused →
    (s.exec sched).BetterLogChUnused := by
  induction sched with
  | nil => intro s h; exact h
  | cons t ts ih =>
    intro s h
    simp only [World.exec]
    cases hs : s.step t with
    | none => exact ih s h
    | some s1 => exact ih s1 (World.step_unused s s1 t h hs)

/-- C5 (evaluation of the code where the claim fails): `betterLoggerDemo`,
run on fresh channels to its end, has put its two records on `logCh`, where
they stay; `betterLogCh` is empty and `betterLogger` has received the
done-signal and rendered nothing: the output is the headline only.  And in
every run of `main`, whatever the times and the schedule, `betterLogCh` stays
empty and `betterLogger` renders no record. -/
theorem betterLoggerDemo_enqueues_on_logCh :
    (World.init (betterLoggerDemo Time.zero Time.zero)).exec
        [.main, .main, .main, .betterLogger .entry, .main, .main, .betterLogger .entry,
          .main, .main, .betterLogger .entry, .betterLogger .done] =
      { logCh := ⟨50, [⟨Time.zero, logInfo, "App is starting"⟩,
            ⟨Time.zero, logInfo, "App is shutting down"⟩], [], false⟩,
        betterLogCh := ⟨50, [], [], false⟩, doneCh := ⟨0, [], [], false⟩,
        out := ["Better way to handle signals:\n"], events := [.doneReceived], main := [],
        parked := false, logger := none, held := none, betterLogger := some .running,
        fault := none } ∧
    ∀ (t1 t2 t3 t4 : Time) (sched : List Tid),
      ((World.init (main t1 t2 t3 t4)).exec sched).betterLogCh.buf = [] ∧
      ((World.init (main t1 t2 t3 t4)).exec sched).betterLogCh.sendq = [] ∧
      ∀ ev ∈ ((World.init (main t1 t2 t3 t4)).exec sched).events, ev = .doneReceived := by
  refine ⟨by decide, ?_⟩
  intro t1 t2 t3 t4 sched
  have h0 : (World.init (main t1 t2 t3 t4)).BetterLogChUnused := by
    refine ⟨rfl, ?_, by simp [World.init]⟩
    intro st hst
    simp only [World.init, main, loggerDemo, betterLoggerDemo, List.cons_append,
      List.nil_append, List.mem_cons, List.mem_singleton] at hst
    rcases hst with h | h | h | h | h | h | h | h | h | h | h | h | h | h <;>
      first | (subst h; rfl) | simp at h
  obtain ⟨h1, _, h3⟩ := World.exec_unused sched _ h0
  rw [h1]
  exact ⟨rfl, rfl, h3⟩

end ChannelsLogger

/-! ## Part 5, theorems: `loggerDemo` -/

namespace ChannelsLogger

theorem sentCount_le_two (k : Nat) : sentCount k ≤ 2 := by
  unfold sentCount; split_ifs <;> omega

theorem sentCount_mono (k : Nat) : sentCount k ≤ sentCount (k + 1) := by
  unfold sentCount; split_ifs <;> omega

/-- The number of records sent at each statement of `loggerDemo`. -/
theorem sentCount_cases (k : Nat) :
    (k ≤ 1 ∧ sentCount k = 0) ∨ ((k = 2 ∨ k = 3) ∧ sentCount k = 1) ∨
      (4 ≤ k ∧ sentCount k = 2) := by
  unfold sentCount; split_ifs <;> omega

theorem demoState_step_main (t1 t2 t3 t4 : Time) (k d p : Nat) (r : Bool) (hk : k < 6)
    (hd : d ≤ sentCount k) (hp : p ≤ d) (hr : r = true → k = 6 ∧ d = 2 ∧ p = 2) :
    (demoState t1 t2 t3 t4 k d p r).step .main =
      some (demoState t1 t2 t3 t4 (k + 1) d p r) := by
  have hr0 : r = false := by
    cases r with
    | false => rfl
    | true => have := (hr rfl).1; omega
  subst hr0
  have hd2 : d ≤ 2 := le_trans hd (sentCount_le_two k)
  interval_cases k <;> interval_cases d <;> interval_cases p <;>
    first | (exfalso; revert hd; decide) | rfl

theorem demoState_step_logger (t1 t2 t3 t4 : Time) (k d p : Nat) (r : Bool) (hk : k ≤ 6)
    (hd : d ≤ sentCount k) (hp : p ≤ d) (hdp : d ≤ p + 1) :
    (demoState t1 t2 t3 t4 k d p r).step .logger =
      if k = 0 ∨ r = true then none
      else if p < d then some (demoState t1 t2 t3 t4 k d (p + 1) false)
      else if d < sentCount k then some (demoState t1 t2 t3 t4 k (d + 1) p false)
      else if k = 6 then some (demoState t1 t2 t3 t4 6 d p true)
      else none := by
  have hd2 : d ≤ 2 := le_trans hd (sentCount_le_two k)
  interval_cases k <;> interval_cases d <;> interval_cases p <;> cases r <;>
    first | (exfalso; revert hd; decide) | (exfalso; omega) | rfl

theorem demoState_step_betterLogger (t1 t2 t3 t4 : Time) (k d p : Nat) (r : Bool)
    (q : SelectCase) (hk : k ≤ 6) :
    (demoState t1 t2 t3 t4 k d p r).step (.betterLogger q) = none := by
  interval_cases k <;> rfl

theorem demoState_step_main_last (t1 t2 t3 t4 : Time) (d p : Nat) (r : Bool) (hd : d ≤ 2)
    (hp : p ≤ d) :
    ∃ s1, (demoState t1 t2 t3 t4 6 d p r).step .main = some s1 ∧ s1.main.length = 6 := by
  interval_cases d <;> interval_cases p <;> cases r <;> exact ⟨_, rfl, rfl⟩

/-- During a sleep of `loggerDemo`, `main` is at a call of `time.Sleep`. -/
theorem demoState_at_sleep (t1 t2 t3 t4 : Time) (k d p : Nat) (r : Bool) (hk : k = 2 ∨ k = 4) :
    ∃ ms rest, (demoState t1 t2 t3 t4 k d p r).main = .sleep ms :: rest := by
  rcases hk with rfl | rfl
  · exact ⟨2000, _, rfl⟩
  · exact ⟨100, _, rfl⟩

theorem World.release_length (s : World) (w : Option Nat) :
    (s.release w).main.length ≤ s.main.length := by
  cases w with
  | none => exact Nat.le_refl _
  | some g => simp [World.release]

theorem World.setChan_main (s : World) (ch : ChanName) (c : Chan logEntry) :
    (s.setChan ch c).main = s.main := by
  cases ch <;> rfl

theorem World.step_length (s s1 : World) (t : Tid) (h : s.step t = some s1) :
    s1.main.length ≤ s.main.length := by
  unfold World.step at h
  split at h
  · cases h
  · cases h
  · cases t with
    | main =>
      simp only [World.stepMain] at h
      split at h
      · cases h
      · split at h
        · cases h
        · cases h; simp_all
        · cases h; simp_all
        · split at h <;> cases h <;> simp_all [World.setChan_main]
        · cases h; simp_all
        · split at h <;> cases h <;> simp_all [World.setChan_main]
        · cases h; simp_all
        · split at h <;> cases h <;> simp_all
    | logger =>
      simp only [World.stepLogger] at h
      split at h
      · split at h
        · cases h; exact Nat.le_refl _
        · split at h
          · cases h; exact World.release_length _ _
          · cases h; exact Nat.le_refl _
          · cases h
      · cases h
    | betterLogger pick =>
      simp only [World.stepBetterLogger] at h
      split at h
      · split at h
        · cases h; exact World.release_length _ _
        · cases h
      · cases h


/-- The receive and the write of `logger`, one after the other, are one
iteration of its loop: what `loggerIter` does in one step. -/
theorem World.stepLogger_twice (s : World) (v : logEntry) (c : Chan logEntry) (w : Option Nat)
    (hl : s.logger = some .running) (hh : s.held = none) (hr : s.logCh.recv = .value v c w) :
    loggerIter s.logCh s.out = some ⟨c, s.out ++ [loggerLine v], .running, w⟩ ∧
      ∃ s1, s.stepLogger = some s1 ∧ s1.held = some v ∧ s1.out = s.out ∧
        s1.stepLogger =
          some ({ s with logCh := c, out := s.out ++ [loggerLine v] }.release w) := by
  refine ⟨by simp [loggerIter, hr], ({ s with logCh := c, held := some v }.release w), ?_, ?_, ?_,
    ?_⟩
  · simp [World.stepLogger, hl, hh, hr]
  · cases w <;> rfl
  · cases w <;> rfl
  · obtain ⟨a1, a2, a3, a4, a5, a6, a7, a8, a9, a10, a11⟩ := s
    simp only at hl hh
    subst hl hh
    cases w <;> rfl

/-- The states of `loggerDemo` are kept by every step, until `main` goes on
into `betterLoggerDemo`; with `timed`, as long as every sleep lasts two steps
of `logger`. -/
theorem World.exec_inLoggerDemo (t1 t2 t3 t4 : Time) (timed : Bool) (sched : List Tid) :
    ∀ (s : World) (c : Nat), (s.main.length < 7 ∨ s.InLoggerDemo t1 t2 t3 t4 timed c) →
      (timed = true → sleepsLast 2 c s sched = true) →
      ((s.exec sched).main.length < 7 ∨
        ∃ c1, (s.exec sched).InLoggerDemo t1 t2 t3 t4 timed c1) := by
  induction sched with
  | nil => intro s c h _; exact h.imp id (fun h => ⟨c, h⟩)
  | cons t ts ih =>
    intro s c h hsl
    simp only [World.exec]
    rcases h with h | ⟨k, d, p, r, hk, hd, hp, hdp, hr, hti, rfl⟩
    · have hlen : ((s.step t).getD s).main.length < 7 := by
        cases hs : s.step t with
        | none => exact h
        | some s1 => exact Nat.lt_of_le_of_lt (World.step_length s s1 t hs) h
      have hfin : ∀ (sch : List Tid) (u : World), u.main.length < 7 →
          (u.exec sch).main.length < 7 := by
        intro sch
        induction sch with
        | nil => intro u hu; exact hu
        | cons a as iha =>
          intro u hu
          simp only [World.exec]
          apply iha
          cases hs : u.step a with
          | none => exact hu
          | some u1 => exact Nat.lt_of_le_of_lt (World.step_length u u1 a hs) hu
      exact Or.inl (hfin ts _ hlen)
    · have hsc := sentCount_cases k
      have hsc1 := sentCount_cases (k + 1)
      cases t with
      | main =>
        by_cases hk6 : k < 6
        · have hstep := demoState_step_main t1 t2 t3 t4 k d p r hk6 hd hp hr
          apply ih _ 0
          · rw [hstep]
            right
            refine ⟨k + 1, d, p, r, by omega, le_trans hd (sentCount_mono k), hp, hdp, ?_, ?_,
              rfl⟩
            · intro hrt; have := (hr hrt).1; omega
            · intro ht
              have hc := hti ht
              have hsleep : k = 2 ∨ k = 4 → 2 ≤ c := by
                intro hk24
                have h1 := hsl ht
                obtain ⟨ms, rest, hm⟩ := demoState_at_sleep t1 t2 t3 t4 k d p r hk24
                simp only [sleepsLast, hm, Bool.and_eq_true, decide_eq_true_eq] at h1
                exact h1.1
              simp only [loggerWork] at hc ⊢
              omega
          · intro ht
            have h1 := hsl ht
            simp only [sleepsLast, Bool.and_eq_true] at h1
            exact h1.2
        · have hk6' : k = 6 := by omega
          subst hk6'
          obtain ⟨s1, hs1, hlen⟩ := demoState_step_main_last t1 t2 t3 t4 d p r
            (le_trans hd (sentCount_le_two 6)) hp
          apply ih _ 0
          · rw [hs1]
            left
            simp only [Option.getD_some]
            omega
          · intro ht
            have h1 := hsl ht
            simp only [sleepsLast, Bool.and_eq_true] at h1
            exact h1.2
      | logger =>
        apply ih _ (c + 1)
        · rw [demoState_step_logger t1 t2 t3 t4 k d p r hk hd hp hdp]
          right
          split_ifs with h1 h2 h3 h4
          · refine ⟨k, d, p, r, hk, hd, hp, hdp, hr, ?_, rfl⟩
            intro ht
            have hc := hti ht
            simp only [loggerWork] at hc ⊢
            rcases h1 with h1 | h1
            · omega
            · have := hr h1; omega
          · refine ⟨k, d, p + 1, false, hk, hd, by omega, by omega, by simp, ?_, rfl⟩
            intro ht
            have hc := hti ht
            simp only [loggerWork] at hc ⊢
            omega
          · refine ⟨k, d + 1, p, false, hk, h3, by omega, by omega, by simp, ?_, rfl⟩
            intro ht
            have hc := hti ht
            simp only [loggerWork] at hc ⊢
            omega
          · subst h4
            refine ⟨6, d, p, true, Nat.le_refl 6, hd, hp, hdp, ?_, ?_, rfl⟩
            · intro _
              have : sentCount 6 = 2 := rfl
              exact ⟨rfl, by omega, by omega⟩
            · intro ht
              have hc := hti ht
              simp only [loggerWork] at hc ⊢
              omega
          · refine ⟨k, d, p, r, hk, hd, hp, hdp, hr, ?_, rfl⟩
            intro ht
            have hc := hti ht
            simp only [loggerWork] at hc ⊢
            omega
        · intro ht
          have h1 := hsl ht
          simp only [sleepsLast] at h1
          exact h1
      | betterLogger q =>
        apply ih _ c
        · rw [demoState_step_betterLogger t1 t2 t3 t4 k d p r q hk]
          right
          exact ⟨k, d, p, r, hk, hd, hp, hdp, hr, hti, rfl⟩
        · intro ht
          have h1 := hsl ht
          simp only [sleepsLast] at h1
          exact h1

theorem inLoggerDemo_init (t1 t2 t3 t4 : Time) (timed : Bool) (c : Nat) :
    (World.init (main t1 t2 t3 t4)).InLoggerDemo t1 t2 t3 t4 timed c :=
  ⟨0, 0, 0, false, by omega, by decide, by omega, by omega, by simp,
    fun _ => ⟨fun h => by omega, fun _ _ => rfl⟩, rfl⟩

/-- What the state is when `loggerDemo` has just returned. -/
theorem World.at_return (t1 t2 t3 t4 : Time) (timed : Bool) (s : World)
    (h : s.main.length < 7 ∨ ∃ c, s.InLoggerDemo t1 t2 t3 t4 timed c)
    (hret : s.main = betterLoggerDemo t3 t4) :
    ∃ d p r, d ≤ 2 ∧ p ≤ d ∧ d ≤ p + 1 ∧ (timed = true → d = 2 ∧ p = 2) ∧
      s = demoState t1 t2 t3 t4 6 d p r := by
  rcases h with h | ⟨c, k, d, p, r, hk, hd, hp, hdp, hr, hti, rfl⟩
  · rw [hret] at h; simp [betterLoggerDemo] at h
  · have hlen := congrArg List.length hret
    simp only [demoState, List.length_append, List.length_drop, loggerDemo, betterLoggerDemo,
      List.length_cons, List.length_nil] at hlen
    have hk6 : k = 6 := by omega
    subst hk6
    have h6 : sentCount 6 = 2 := rfl
    refine ⟨d, p, r, by omega, hp, hdp, ?_, rfl⟩
    intro ht
    have hc := (hti ht).2 (by omega) (by omega)
    simp only [loggerWork] at hc
    omega

/-- C6 (as amended): when `loggerDemo` has returned in a run of `main`
(`main` is about to run `betterLoggerDemo`), whatever the schedule, `logCh` is
closed, the program has not panicked, and the lines written, followed by the
rendering of the record `logger` has received and not yet written and of the
records still in the queue, are the start line and then the shutdown line:
nothing else is written, the order is kept and no record is lost or repeated.
If moreover every sleep of the run has lasted two steps of `logger` (a receive
and a write), the two lines are written, `logger` holds no record and `logCh`
is empty. -/
theorem loggerDemo_two_lines_when_sleeps_outlast (t1 t2 t3 t4 : Time) (sched : List Tid)
    (hret : ((World.init (main t1 t2 t3 t4)).exec sched).main = betterLoggerDemo t3 t4) :
    ((World.init (main t1 t2 t3 t4)).exec sched).logCh.closed = true ∧
      ((World.init (main t1 t2 t3 t4)).exec sched).fault = none ∧
      ((World.init (main t1 t2 t3 t4)).exec sched).out ++
          (((World.init (main t1 t2 t3 t4)).exec sched).held.toList ++
            ((World.init (main t1 t2 t3 t4)).exec sched).logCh.buf).map loggerLine =
        [loggerLine ⟨t1, logInfo, "App is starting"⟩,
          loggerLine ⟨t2, logInfo, "App is shutting down"⟩] ∧
      ((World.init (main t1 t2 t3 t4)).exec sched).logCh.sendq = [] ∧
      (sleepsLast 2 0 (World.init (main t1 t2 t3 t4)) sched = true →
        ((World.init (main t1 t2 t3 t4)).exec sched).out =
            [loggerLine ⟨t1, logInfo, "App is starting"⟩,
              loggerLine ⟨t2, logInfo, "App is shutting down"⟩] ∧
          ((World.init (main t1 t2 t3 t4)).exec sched).held = none ∧
          ((World.init (main t1 t2 t3 t4)).exec sched).logCh.buf = []) := by
  have hA := World.exec_inLoggerDemo t1 t2 t3 t4 false sched _ 0
    (Or.inr (inLoggerDemo_init t1 t2 t3 t4 false 0)) (by simp)
  obtain ⟨d, p, r, hd, hp, hdp, _, hs⟩ := World.at_return t1 t2 t3 t4 false _ hA hret
  refine ⟨by rw [hs]; rfl, by rw [hs]; rfl, ?_, by rw [hs]; rfl, ?_⟩
  · rw [hs]
    interval_cases d <;> interval_cases p <;> first | rfl | (exfalso; omega)
  · intro hsl
    have hB := World.exec_inLoggerDemo t1 t2 t3 t4 true sched _ 0
      (Or.inr (inLoggerDemo_init t1 t2 t3 t4 true 0)) (fun _ => hsl)
    obtain ⟨d2, p2, r2, _, _, _, hd2, hs2⟩ := World.at_return t1 t2 t3 t4 true _ hB hret
    obtain ⟨rfl, rfl⟩ := hd2 rfl
    rw [hs2]
    exact ⟨rfl, rfl, rfl⟩

/-- C6 (as amended), at a concrete run: `logger` receives and writes a record
during each sleep. -/
theorem loggerDemo_two_lines_when_sleeps_outlast_witness :
    ((World.init (main Time.zero Time.zero Time.zero Time.zero)).exec
        [.main, .main, .logger, .logger, .main, .main, .logger, .logger, .main, .main]).out =
      ["0001-01-01T00:00:00 - [INFO] App is starting\n",
        "0001-01-01T00:00:00 - [INFO] App is shutting down\n"] ∧
    ((World.init (main Time.zero Time.zero Time.zero Time.zero)).exec
        [.main, .main, .logger, .logger, .main, .main, .logger, .logger, .main, .main]).held =
      none ∧
    ((World.init (main Time.zero Time.zero Time.zero Time.zero)).exec
        [.main, .main, .logger, .logger, .main, .main, .logger, .logger, .main, .main]).logCh.buf =
      [] :=
  (loggerDemo_two_lines_when_sleeps_outlast Time.zero Time.zero Time.zero Time.zero
    [.main, .main, .logger, .logger, .main, .main, .logger, .logger, .main, .main]
    (by decide)).2.2.2.2 (by decide)

/-- C6 (the claim fails on the code): in the run of `main` in which `logger`
receives the first record and has not written it when `loggerDemo` returns
(the standard output does not take the text), `loggerDemo` has returned and
`logCh` is closed, yet no line is written: `logger` holds the first record and
the second is still in the queue. -/
theorem loggerDemo_returns_before_drain :
    ((World.init (main Time.zero Time.zero Time.zero Time.zero)).exec
        [.main, .main, .logger, .main, .main, .main, .main]).main =
      betterLoggerDemo Time.zero Time.zero ∧
    ((World.init (main Time.zero Time.zero Time.zero Time.zero)).exec
        [.main, .main, .logger, .main, .main, .main, .main]).logCh.closed = true ∧
    ((World.init (main Time.zero Time.zero Time.zero Time.zero)).exec
        [.main, .main, .logger, .main, .main, .main, .main]).out = [] ∧
    ((World.init (main Time.zero Time.zero Time.zero Time.zero)).exec
        [.main, .main, .logger, .main, .main, .main, .main]).held =
      some ⟨Time.zero, logInfo, "App is starting"⟩ ∧
    ((World.init (main Time.zero Time.zero Time.zero Time.zero)).exec
        [.main, .main, .logger, .main, .main, .main, .main]).logCh.buf =
      [⟨Time.zero, logInfo, "App is shutting down"⟩] := by
  refine ⟨by decide, by decide, by decide, by decide, by decide⟩

end ChannelsLogger

/-! ## Part 6, theorems: the wait group -/

namespace Runtime

/-- Wrapping around is idempotent under addition: an `int` sum can be wrapped
at each addition or once at the end. -/
theorem wrapInt_wrapInt_add (x y : Int) : wrapInt (wrapInt x + y) = wrapInt (x + y) := by
  unfold wrapInt
  omega

/-- A value within the range of an `int` is not changed by wrapping around. -/
theorem wrapInt_of_range (x : Int) (h1 : -9223372036854775808 ≤ x)
    (h2 : x ≤ 9223372036854775807) : wrapInt x = x := by
  unfold wrapInt
  omega

/-- The value of an `int` computation is within the range of an `int`. -/
theorem wrapInt_range (x : Int) :
    -9223372036854775808 ≤ wrapInt x ∧ wrapInt x ≤ 9223372036854775807 := by
  unfold wrapInt
  omega

theorem sum_map_set {α : Type} (f : α → Nat) (l : List α) (i : Nat) (a b : α)
    (h : l[i]? = some a) : ((l.set i b).map f).sum + f a = (l.map f).sum + f b := by
  induction l generalizing i with
  | nil => simp at h
  | cons x xs ih =>
    cases i with
    | zero =>
      simp only [List.getElem?_cons_zero, Option.some.injEq] at h
      subst h
      simp only [List.set_cons_zero, List.map_cons, List.sum_cons]
      omega
    | succ j =>
      simp only [List.getElem?_cons_succ] at h
      have := ih j h
      simp only [List.set_cons_succ, List.map_cons, List.sum_cons]
      omega

theorem World.pendingDones_setThread (s w : World) (i : Nat) (t t1 : Thread)
    (hw : w.threads = s.threads) (h : s.threads[i]? = some t) :
    (w.setThread i t1).pendingDones + dones t.code = s.pendingDones + dones t1.code := by
  have := sum_map_set (fun t => dones t.code) s.threads i t t1 h
  simpa [World.pendingDones, World.setThread, hw] using this

theorem World.pendingDones_setThread_same (s w : World) (i : Nat) (t t1 : Thread)
    (hw : w.threads = s.threads) (h : s.threads[i]? = some t)
    (hd : dones t1.code = dones t.code) :
    (w.setThread i t1).pendingDones = s.pendingDones := by
  have := World.pendingDones_setThread s w i t t1 hw h
  omega

theorem World.pendingDones_setThread_done (s w : World) (i : Nat) (t t1 : Thread)
    (hw : w.threads = s.threads) (h : s.threads[i]? = some t)
    (hd : dones t.code = dones t1.code + 1) :
    (w.setThread i t1).pendingDones + 1 = s.pendingDones := by
  have := World.pendingDones_setThread s w i t t1 hw h
  omega

theorem dones_afterSend (code : List Op) : dones (afterSend code) = dones code := by
  unfold afterSend
  split <;> simp [dones]

theorem World.pendingDones_release (s : World) (w : Option Nat) :
    (s.release w).pendingDones = s.pendingDones := by
  cases w with
  | none => rfl
  | some g =>
    simp only [World.release]
    cases h : s.threads[g - 1]? with
    | none => rfl
    | some t =>
      have := sum_map_set (fun t => dones t.code) s.threads (g - 1) t
        { t with parked := false, code := afterSend t.code } h
      simp only [dones_afterSend] at this
      simp only [World.pendingDones]
      omega

theorem World.release_fields (s : World) (w : Option Nat) :
    (s.release w).wg = s.wg ∧ (s.release w).main = s.main ∧ (s.release w).fault = s.fault ∧
      (s.release w).mtx = s.mtx ∧ (s.release w).out = s.out ∧
      (s.release w).counterMutex = s.counterMutex ∧
      (s.release w).counterBetterMutex = s.counterBetterMutex ∧
      (s.release w).threads.length = s.threads.length := by
  cases w with
  | none => simp [World.release]
  | some g =>
    simp only [World.release]
    cases h : s.threads[g - 1]? with
    | none => simp
    | some t => simp

theorem World.set_fields (s : World) (v : Var) (n : Nat) :
    (s.set v n).wg = s.wg ∧ (s.set v n).main = s.main ∧ (s.set v n).fault = s.fault ∧
      (s.set v n).mtx = s.mtx ∧ (s.set v n).out = s.out ∧ (s.set v n).threads = s.threads ∧
      (s.set v n).chans = s.chans := by
  cases v <;> simp [World.set]

theorem le_sum_map_of_getElem? {α : Type} (f : α → Nat) (l : List α) (i : Nat) (a : α)
    (h : l[i]? = some a) : f a ≤ (l.map f).sum := by
  induction l generalizing i with
  | nil => simp at h
  | cons x xs ih =>
    cases i with
    | zero =>
      simp only [List.getElem?_cons_zero, Option.some.injEq] at h
      subst h
      simp
    | succ j =>
      simp only [List.getElem?_cons_succ] at h
      have := ih j h
      simp only [List.map_cons, List.sum_cons]
      omega

theorem World.le_pendingDones (s : World) (i : Nat) (t : Thread) (h : s.threads[i]? = some t) :
    dones t.code ≤ s.pendingDones :=
  le_sum_map_of_getElem? (fun t => dones t.code) s.threads i t h

/-- The effect of a step of a goroutine on the wait group: it keeps the
counter and the pending calls, or it is a call `wg.Done()` that lowers both by
one, or it stops the program and changes nothing else; the panic of the wait
group needs a counter at zero with a call of `wg.Done()` pending. -/
theorem World.stepThread_wg (s s1 : World) (i : Nat) (h : s.stepThread i = some s1) :
    s1.main = s.main ∧
      ((s1.wg = s.wg ∧ s1.pendingDones = s.pendingDones ∧
          (s1.fault = s.fault ∨ s1.fault ≠ some .negativeWaitGroup)) ∨
        (s1.wg + 1 = s.wg ∧ s1.pendingDones + 1 = s.pendingDones ∧ s1.fault = s.fault) ∨
        (s.wg = 0 ∧ 1 ≤ s.pendingDones)) := by
  unfold World.stepThread at h
  cases ht : s.threads[i]? with
  | none => simp [ht] at h
  | some t =>
    simp only [ht] at h
    cases hp : t.parked with
    | true => simp [hp] at h
    | false =>
      simp only [hp] at h
      cases hc : t.code with
      | nil => simp [hc] at h
      | cons op rest =>
        simp only [hc] at h
        have hle := World.le_pendingDones s i t ht
        cases op
        case wgDone =>
          simp only [Bool.false_eq_true, if_false] at h
          have h1 : 1 ≤ s.pendingDones := by
            simp only [hc, dones, List.count_cons_self] at hle; omega
          split at h
          · rename_i hz
            exact ⟨by cases h; rfl, Or.inr (Or.inr ⟨hz, h1⟩)⟩
          · rename_i hz
            cases h
            refine ⟨rfl, Or.inr (Or.inl ⟨?_, ?_, rfl⟩)⟩
            · show s.wg - 1 + 1 = s.wg
              omega
            · exact World.pendingDones_setThread_done s _ i t _ rfl ht (by simp [hc, dones])
        case store v =>
          cases v <;> cases h <;>
            exact ⟨rfl, Or.inl ⟨rfl,
              World.pendingDones_setThread_same s _ i t _ rfl ht (by simp [hc, dones]),
              Or.inl rfl⟩⟩
        all_goals (
          simp only [Bool.false_eq_true, if_false, World.doSend] at h
          repeat' split at h
          all_goals first
            | (cases h; done)
            | (cases h
               exact ⟨rfl, Or.inl ⟨rfl,
                 World.pendingDones_setThread_same s _ i t _ rfl ht (by simp [hc, dones]),
                 Or.inl rfl⟩⟩)
            | (cases h
               exact ⟨rfl, Or.inl ⟨rfl, rfl, Or.inr (by simp)⟩⟩)
            | (cases h
               refine ⟨(World.release_fields _ _).2.1, Or.inl ⟨(World.release_fields _ _).1, ?_,
                 Or.inl (World.release_fields _ _).2.2.1⟩⟩
               rw [World.pendingDones_release]
               exact World.pendingDones_setThread_same s _ i t _ rfl ht (by simp [hc, dones])))

theorem World.pendingDones_spawn (s : World) (body : List Op) (main : List Stmt) :
    ({ s with main := main, threads := s.threads ++ [⟨body, body, 0, false⟩] } : World).pendingDones =
      s.pendingDones + dones body := by
  simp [World.pendingDones]

/-- A step of `main` keeps the wait group balanced and raises no panic. -/
theorem World.stepMain_wgBalanced (s s1 : World) (hb : s.WgBalanced)
    (h : s.stepMain = some s1) : s1.WgBalanced ∧ s1.fault = s.fault := by
  obtain ⟨owed, hm, hwg⟩ := hb
  unfold World.stepMain at h
  split at h
  · cases h
  · rename_i str rest hmain
    cases h
    rw [hmain] at hm
    exact ⟨⟨owed, hm, hwg⟩, rfl⟩
  · rename_i n rest hmain
    cases h
    rw [hmain] at hm
    simp only [matchedFrom, Bool.and_eq_true, beq_iff_eq] at hm
    refine ⟨⟨n, hm.2, ?_⟩, rfl⟩
    show s.wg + n = s.pendingDones + n
    omega
  · rename_i rest hmain
    split at h
    · cases h
      rw [hmain] at hm
      simp only [matchedFrom, Bool.and_eq_true, beq_iff_eq] at hm
      exact ⟨⟨0, hm.2, by rw [hm.1] at hwg; exact hwg⟩, rfl⟩
    · cases h
  · rename_i body rest hmain
    cases h
    rw [hmain] at hm
    simp only [matchedFrom] at hm
    split at hm
    · rename_i h0
      simp only [Bool.and_eq_true, beq_iff_eq] at hm
      refine ⟨⟨0, hm.2, ?_⟩, rfl⟩
      rw [World.pendingDones_spawn]
      show s.wg = _
      omega
    · rename_i h0
      simp only [Bool.and_eq_true, beq_iff_eq] at hm
      refine ⟨⟨owed - 1, hm.2, ?_⟩, rfl⟩
      rw [World.pendingDones_spawn]
      show s.wg = _
      omega
  · rename_i rest hmain
    split at h
    · cases h
    · cases h
      rw [hmain] at hm
      exact ⟨⟨owed, hm, hwg⟩, rfl⟩
  · rename_i rest hmain
    split at h
    · cases h
    · cases h
      rw [hmain] at hm
      exact ⟨⟨owed, hm, hwg⟩, rfl⟩
  all_goals (
    rename_i hmain
    cases h
    rw [hmain] at hm
    exact ⟨⟨owed, hm, hwg⟩, rfl⟩)

/-- A step of the program keeps the wait group balanced and never raises the
panic of a negative counter. -/
theorem World.step_wgBalanced (s s1 : World) (p : Pick) (hb : s.WgBalanced)
    (h : s.step p = some s1) :
    s1.WgBalanced ∧ s1.fault ≠ some .negativeWaitGroup := by
  unfold World.step at h
  split at h
  · cases h
  · cases h
  · rename_i st rest hf hmain
    cases p with
    | main =>
      obtain ⟨hb1, hf1⟩ := World.stepMain_wgBalanced s s1 hb h
      exact ⟨hb1, by rw [hf1, hf]; simp⟩
    | thread i =>
      obtain ⟨owed, hm, hwg⟩ := hb
      obtain ⟨hmain1, hcase⟩ := World.stepThread_wg s s1 i h
      rcases hcase with ⟨h1, h2, h3⟩ | ⟨h1, h2, h3⟩ | ⟨h1, h2⟩
      · refine ⟨⟨owed, by rw [hmain1]; exact hm, by omega⟩, ?_⟩
        rcases h3 with h3 | h3
        · rw [h3, hf]; simp
        · exact h3
      · exact ⟨⟨owed, by rw [hmain1]; exact hm, by omega⟩, by rw [h3, hf]; simp⟩
      · omega

theorem World.exec_wgBalanced (sched : List Pick) : ∀ s : World, s.WgBalanced →
    s.fault ≠ some .negativeWaitGroup →
    (s.exec sched).WgBalanced ∧ (s.exec sched).fault ≠ some .negativeWaitGroup := by
  induction sched with
  | nil => intro s hb hf; exact ⟨hb, hf⟩
  | cons p ps ih =>
    intro s hb hf
    simp only [World.exec]
    cases hs : s.step p with
    | none => exact ih s hb hf
    | some s1 =>
      obtain ⟨hb1, hf1⟩ := World.step_wgBalanced s s1 p hb hs
      exact ih s1 hb1 hf1

theorem World.init_wgBalanced (prog : List Stmt) (h : Matched prog = true) :
    (World.init prog).WgBalanced :=
  ⟨0, h, rfl⟩

/-- When the wait group is balanced and `wg.Wait()` returns, the counter is
zero and no started goroutine has a call of `wg.Done()` left. -/
theorem World.wait_returns (s s1 : World) (rest : List Stmt) (hb : s.WgBalanced)
    (hmain : s.main = .wgWait :: rest) (h : s.step .main = some s1) :
    s1.main = rest ∧ s1.wg = 0 ∧ ∀ t ∈ s1.threads, dones t.code = 0 := by
  obtain ⟨owed, hm, hwg⟩ := hb
  unfold World.step at h
  split at h
  · cases h
  · cases h
  · simp only [World.stepMain, hmain] at h
    split at h
    · rename_i hz
      cases h
      refine ⟨rfl, hz, ?_⟩
      intro t ht
      have h0 : s.pendingDones = 0 := by omega
      simp only [World.pendingDones] at h0
      have := List.sum_eq_zero_iff.mp h0 (dones t.code) (List.mem_map.mpr ⟨t, ht, rfl⟩)
      exact this
    · cases h


/-- The demo functions of 03-goroutines-examples and 04-channels-examples
that use the wait group. -/
theorem demos_matched :
    Matched Goroutines.betterMutexExample = true ∧ Matched Goroutines.mutexExample = true ∧
      Matched Goroutines.forWaitGroupExample = true ∧
      Matched Goroutines.waitGroupExample = true ∧
      Matched (Channels.manualForLoopChannelDemo 6) = true ∧
      Matched (Channels.forRangeLoopChannelDemo 5) = true ∧
      Matched (Channels.bufferedChannelDemo 4) = true ∧
      Matched (Channels.sendReceiveOnlyDemo 3) = true ∧
      Matched (Channels.senderAndReceiverDemo 2) = true ∧
      Matched (Channels.potentialDeadlockDemo 1) = true ∧
      Matched (Channels.simpleChannelDemo 0) = true := by
  refine ⟨by decide, by decide, by decide, by decide, by decide, by decide, by decide,
    by decide, by decide, by decide, by decide⟩

theorem mains_matched :
    Matched Goroutines.main = true ∧ Matched Channels.main = true := by
  refine ⟨by decide, by decide⟩

/-- C8: in every demo function of 03-goroutines-examples and
04-channels-examples every `wg.Add(n)` is followed by exactly `n` `go`
statements whose function calls `wg.Done()` exactly once, as its last
statement (and so it is in the two `main` programs, which run the demos one
after the other on the same `wg`).  Hence in every run of either `main`,
whatever the schedule: the program never panics with a negative counter; the
counter is the number of calls of `wg.Done()` the started goroutines have
still to make plus the units added and not started yet; and whenever
`wg.Wait()` returns, the counter is zero and every started goroutine has made
its call of `wg.Done()`. -/
theorem wait_group_balanced (sched : List Runtime.Pick) :
    (Matched Goroutines.betterMutexExample = true ∧ Matched Goroutines.mutexExample = true ∧
      Matched Goroutines.forWaitGroupExample = true ∧
      Matched Goroutines.waitGroupExample = true ∧
      Matched (Channels.manualForLoopChannelDemo 6) = true ∧
      Matched (Channels.forRangeLoopChannelDemo 5) = true ∧
      Matched (Channels.bufferedChannelDemo 4) = true ∧
      Matched (Channels.sendReceiveOnlyDemo 3) = true ∧
      Matched (Channels.senderAndReceiverDemo 2) = true ∧
      Matched (Channels.potentialDeadlockDemo 1) = true ∧
      Matched (Channels.simpleChannelDemo 0) = true) ∧
    (Matched Goroutines.main = true ∧
      ((World.init Goroutines.main).exec sched).fault ≠ some .negativeWaitGroup ∧
      (∃ owed, ((World.init Goroutines.main).exec sched).wg =
        ((World.init Goroutines.main).exec sched).pendingDones + owed) ∧
      ∀ rest s1, ((World.init Goroutines.main).exec sched).main = .wgWait :: rest →
        ((World.init Goroutines.main).exec sched).step .main = some s1 →
        s1.main = rest ∧ s1.wg = 0 ∧ ∀ t ∈ s1.threads, dones t.code = 0) ∧
    (Matched Channels.main = true ∧
      ((World.init Channels.main).exec sched).fault ≠ some .negativeWaitGroup ∧
      (∃ owed, ((World.init Channels.main).exec sched).wg =
        ((World.init Channels.main).exec sched).pendingDones + owed) ∧
      ∀ rest s1, ((World.init Channels.main).exec sched).main = .wgWait :: rest →
        ((World.init Channels.main).exec sched).step .main = some s1 →
        s1.main = rest ∧ s1.wg = 0 ∧ ∀ t ∈ s1.threads, dones t.code = 0) := by
  refine ⟨demos_matched, ?_, ?_⟩
  · obtain ⟨hb, hf⟩ := World.exec_wgBalanced sched (World.init Goroutines.main)
      (World.init_wgBalanced _ mains_matched.1) (by simp [World.init])
    refine ⟨mains_matched.1, hf, ?_, ?_⟩
    · obtain ⟨owed, _, hwg⟩ := hb
      exact ⟨owed, hwg⟩
    · intro rest s1 hmain hstep
      exact World.wait_returns _ s1 rest hb hmain hstep
  · obtain ⟨hb, hf⟩ := World.exec_wgBalanced sched (World.init Channels.main)
      (World.init_wgBalanced _ mains_matched.2) (by simp [World.init])
    refine ⟨mains_matched.2, hf, ?_, ?_⟩
    · obtain ⟨owed, _, hwg⟩ := hb
      exact ⟨owed, hwg⟩
    · intro rest s1 hmain hstep
      exact World.wait_returns _ s1 rest hb hmain hstep

/-- C8, at a concrete run of the `main` of 04-channels-examples: the two
goroutines of `simpleChannelDemo` run to their end, `wg.Wait()` returns with
the counter at zero and `main` goes on with the next demo. -/
theorem wait_group_balanced_witness :
    ((World.init Channels.main).exec
        [.main, .main, .main, .main, .thread 1, .thread 1, .thread 0, .thread 0, .thread 0,
          .thread 1, .thread 1, .main]).main = Channels.main.drop 5 ∧
    ((World.init Channels.main).exec
        [.main, .main, .main, .main, .thread 1, .thread 1, .thread 0, .thread 0, .thread 0,
          .thread 1, .thread 1, .main]).wg = 0 ∧
    ∀ t ∈ ((World.init Channels.main).exec
        [.main, .main, .main, .main, .thread 1, .thread 1, .thread 0, .thread 0, .thread 0,
          .thread 1, .thread 1, .main]).threads, dones t.code = 0 :=
  (wait_group_balanced
      [.main, .main, .main, .main, .thread 1, .thread 1, .thread 0, .thread 0, .thread 0,
        .thread 1, .thread 1]).2.2.2.2.2 (Channels.main.drop 5) _ (by rfl) (by rfl)

end Runtime

/-! ## Part 6, theorems: `betterMutexExample` -/

namespace Goroutines

open Runtime

theorem forN_succ (k : Nat) (body : List Stmt) : forN (k + 1) body = body ++ forN k body := by
  simp [forN, List.replicate_succ]

theorem loopAt_zero (n i : Nat) (h : i < n) : loopAt n i 0 = .wgAdd 2 :: loopAt n i 1 := by
  have e : n - i = (n - i - 1) + 1 := by omega
  simp only [loopAt, if_true]
  rw [e, forN_succ]
  simp [betterMutexBody]

theorem loopAt_end (n : Nat) : loopAt n n 0 = [.wgWait] := by
  simp [loopAt, forN]

theorem loopAt_one (n i : Nat) : loopAt n i 1 = .rLock :: loopAt n i 2 := by
  simp [loopAt, betterMutexBody]

theorem loopAt_two (n i : Nat) : loopAt n i 2 = .go sayHelloBetterMutex :: loopAt n i 3 := by
  simp [loopAt, betterMutexBody]

theorem loopAt_three (n i : Nat) : loopAt n i 3 = .lock :: loopAt n i 4 := by
  simp [loopAt, betterMutexBody]

theorem loopAt_four (n i : Nat) :
    loopAt n i 4 = .go incrementBetterMutex :: loopAt n (i + 1) 0 := by
  have e : n - (i + 1) = n - i - 1 := by omega
  simp [loopAt, betterMutexBody, e]

theorem helloLines_succ (k : Nat) : helloLines (k + 1) = helloLines k ++ [helloAt k] := by
  simp [helloLines, List.range_succ]

/-- A step of a quiet goroutine is its call of `wg.Done()`: it leaves the
lock, the counters, the output and `main` as they are, and the goroutine
quiet. -/
theorem stepThread_quiet (s s1 : World) (i : Nat) (t : Thread) (ht : s.threads[i]? = some t)
    (hq : Quiet t) (h : s.stepThread i = some s1) :
    s1.main = s.main ∧ s1.out = s.out ∧ s1.mtx = s.mtx ∧
      s1.counterBetterMutex = s.counterBetterMutex ∧ s1.counterMutex = s.counterMutex ∧
      (s1.threads = s.threads ∨
        ∃ t1, Quiet t1 ∧ t1.fn = t.fn ∧ s1.threads = s.threads.set i t1) := by
  unfold World.stepThread at h
  simp only [ht] at h
  split at h
  · cases h
  · rcases hq with hq | hq
    · simp only [hq] at h
      split at h
      · cases h
        exact ⟨rfl, rfl, rfl, rfl, rfl, Or.inl rfl⟩
      · cases h
        exact ⟨rfl, rfl, rfl, rfl, rfl, Or.inr ⟨{ t with code := [] }, Or.inr rfl, rfl, rfl⟩⟩
    · simp [hq] at h

theorem quiet_set (ths : List Thread) (i : Nat) (t1 : Thread) (h : ∀ t ∈ ths, Quiet t)
    (h1 : Quiet t1) : ∀ t ∈ ths.set i t1, Quiet t := by
  intro t ht
  rcases List.mem_or_eq_of_mem_set ht with ht | ht
  · exact h t ht
  · exact ht ▸ h1

theorem stepMain_println (s : World) (str : String) (rest : List Stmt)
    (h : s.main = .println str :: rest) :
    s.stepMain = some { s with main := rest, out := s.out ++ [Line.text (str ++ "\n")] } := by
  simp [World.stepMain, h]

theorem stepMain_gomaxprocs (s : World) (k : Nat) (rest : List Stmt)
    (h : s.main = .gomaxprocs k :: rest) : s.stepMain = some { s with main := rest } := by
  simp [World.stepMain, h]

theorem stepMain_wgAdd (s : World) (k : Nat) (rest : List Stmt)
    (h : s.main = .wgAdd k :: rest) :
    s.stepMain = some { s with main := rest, wg := s.wg + k } := by
  simp [World.stepMain, h]

theorem stepMain_wgWait (s : World) (rest : List Stmt) (h : s.main = .wgWait :: rest) :
    s.stepMain = if s.wg = 0 then some { s with main := rest } else none := by
  simp [World.stepMain, h]

theorem stepMain_go (s : World) (body : List Op) (rest : List Stmt)
    (h : s.main = .go body :: rest) :
    s.stepMain =
      some { s with main := rest, threads := s.threads ++ [⟨body, body, 0, false⟩] } := by
  simp [World.stepMain, h]

theorem stepMain_rLock (s : World) (rest : List Stmt) (h : s.main = .rLock :: rest) :
    s.stepMain =
      if s.mtx.writer then none
      else some { s with main := rest, mtx := { s.mtx with readers := s.mtx.readers + 1 } } := by
  simp [World.stepMain, h]

theorem stepMain_lock (s : World) (rest : List Stmt) (h : s.main = .lock :: rest) :
    s.stepMain =
      if s.mtx.writer || s.mtx.readers != 0 then none
      else some { s with main := rest, mtx := { s.mtx with writer := true } } := by
  simp [World.stepMain, h]

/-- The steps from a phase in which no goroutine holds the lock. -/
theorem step_noActive (n : Nat) (s s1 : World) (p : Pick) (ph : BetterPhase)
    (hact : ph.active = none) (hne : ph ≠ .final)
    (hv : ph.Valid n) (hmain : s.main = ph.main n) (hout : s.out = ph.out n)
    (hmtx : s.mtx = ph.mtx) (hc : s.counterBetterMutex = wrapInt ph.counter)
    (hths : ∀ t ∈ s.threads, Quiet t) (h : s.step p = some s1) : BetterInv n s1 := by
  unfold World.step at h
  split at h
  · cases h
  · cases h
  · cases p with
    | thread i =>
      simp only at h
      cases ht : s.threads[i]? with
      | none => simp [World.stepThread, ht] at h
      | some t =>
        have hq := hths t (List.getElem?_mem ht)
        obtain ⟨h1, h2, h3, h4, _, h5⟩ := stepThread_quiet s s1 i t ht hq h
        refine ⟨ph, hv, by rw [h1, hmain], by rw [h2, hout], Or.inr ⟨by rw [h3, hmtx],
          by rw [h4, hc], ?_⟩⟩
        simp only [BetterPhase.ThreadsOk, hact]
        rcases h5 with h5 | ⟨t1, hq1, _, h5⟩
        · rw [h5]; exact hths
        · rw [h5]; exact quiet_set _ _ _ hths hq1
    | main =>
      simp only at h
      cases ph with
      | hello i a => simp [BetterPhase.active] at hact
      | incr i j a => simp [BetterPhase.active] at hact
      | final => exact absurd rfl hne
      | pre p =>
        simp only [BetterPhase.Valid] at hv
        interval_cases p
        · have hm : s.main = .println "Better RWMutex example:" ::
              (betterMutexExampleN n).drop 1 := by
            rw [hmain]; rfl
          rw [stepMain_println s _ _ hm] at h
          cases h
          refine ⟨.pre 1, by simp [BetterPhase.Valid], rfl, ?_, Or.inr ⟨hmtx, hc, ?_⟩⟩
          · simp [hout, BetterPhase.out]
          · simpa [BetterPhase.ThreadsOk, BetterPhase.active] using hths
        · have hm : s.main = .gomaxprocs 100 :: loopAt n 0 0 := by
            rw [hmain]; simp [BetterPhase.main, betterMutexExampleN, loopAt]
          rw [stepMain_gomaxprocs s _ _ hm] at h
          cases h
          refine ⟨.idle 0 0, by simp [BetterPhase.Valid], rfl, ?_, Or.inr ⟨hmtx, hc, ?_⟩⟩
          · simp [hout, BetterPhase.out, helloLines]
          · simpa [BetterPhase.ThreadsOk, BetterPhase.active] using hths
      | idle i j =>
        simp only [BetterPhase.Valid] at hv
        obtain ⟨hi, hj, hij⟩ := hv
        simp only [BetterPhase.main] at hmain
        simp only [BetterPhase.mtx] at hmtx
        simp only [BetterPhase.counter] at hc
        simp only [BetterPhase.out] at hout
        interval_cases j
        · by_cases hin : i < n
          · rw [loopAt_zero n i hin] at hmain
            rw [stepMain_wgAdd s _ _ hmain] at h
            cases h
            refine ⟨.idle i 1, ⟨hi, by omega, fun _ => hin⟩, rfl, ?_, Or.inr ⟨?_, hc, ?_⟩⟩
            · simp [hout, BetterPhase.out]
            · simp [hmtx, BetterPhase.mtx]
            · simpa [BetterPhase.ThreadsOk, BetterPhase.active] using hths
          · have hin' : i = n := by omega
            subst hin'
            rw [loopAt_end] at hmain
            rw [stepMain_wgWait s _ hmain] at h
            split at h
            · cases h
              exact ⟨.final, trivial, rfl, by simp [hout, BetterPhase.out], Or.inl rfl⟩
            · cases h
        · rw [loopAt_one] at hmain
          rw [stepMain_rLock s _ hmain] at h
          simp only [hmtx] at h
          cases h
          refine ⟨.idle i 2, ⟨hi, by omega, fun _ => hij (by omega)⟩, rfl, ?_, Or.inr ⟨?_, hc, ?_⟩⟩
          · simp [hout, BetterPhase.out]
          · simp [hmtx, BetterPhase.mtx]
          · simpa [BetterPhase.ThreadsOk, BetterPhase.active] using hths
        · rw [loopAt_two] at hmain
          rw [stepMain_go s _ _ hmain] at h
          cases h
          refine ⟨.hello i 0, ⟨hij (by omega), by omega⟩, rfl, ?_, Or.inr ⟨?_, hc, ?_⟩⟩
          · simp [hout, BetterPhase.out]
          · simp [hmtx, BetterPhase.mtx]
          · simp only [BetterPhase.ThreadsOk, BetterPhase.active]
            exact ⟨s.threads, _, rfl, hths, rfl, rfl, by simp⟩
        · rw [loopAt_three] at hmain
          rw [stepMain_lock s _ hmain] at h
          simp only [hmtx] at h
          cases h
          refine ⟨.idle i 4, ⟨hi, by omega, fun _ => hij (by omega)⟩, rfl, ?_, Or.inr ⟨?_, hc, ?_⟩⟩
          · simp [hout, BetterPhase.out]
          · simp [hmtx, BetterPhase.mtx]
          · simpa [BetterPhase.ThreadsOk, BetterPhase.active] using hths
        · rw [loopAt_four] at hmain
          rw [stepMain_go s _ _ hmain] at h
          cases h
          have hin : i < n := hij (by omega)
          refine ⟨.incr (i + 1) 0 0, ⟨by omega, by omega, by omega, by omega, by omega⟩, rfl,
            ?_, Or.inr ⟨?_, ?_, ?_⟩⟩
          · simp [hout, BetterPhase.out]
          · simp [hmtx, BetterPhase.mtx]
          · simp [hc, BetterPhase.counter]
          · simp only [BetterPhase.ThreadsOk, BetterPhase.active]
            exact ⟨s.threads, _, rfl, hths, rfl, rfl, by simp⟩

theorem stepThread_printHello (s : World) (i : Nat) (t : Thread) (v : Var) (rest : List Op)
    (ht : s.threads[i]? = some t) (hp : t.parked = false) (hc : t.code = .printHello v :: rest) :
    s.stepThread i =
      some ({ s with out := s.out ++ [helloLine (s.get v)] }.setThread i { t with code := rest }) := by
  simp [World.stepThread, ht, hp, hc]

theorem stepThread_rUnlock (s : World) (i : Nat) (t : Thread) (rest : List Op)
    (ht : s.threads[i]? = some t) (hp : t.parked = false) (hc : t.code = .rUnlock :: rest) :
    s.stepThread i =
      if s.mtx.readers = 0 then some { s with fault := some .rUnlockOfUnlocked }
      else some ({ s with mtx := { s.mtx with readers := s.mtx.readers - 1 } }.setThread i
        { t with code := rest }) := by
  simp [World.stepThread, ht, hp, hc]

theorem stepThread_load (s : World) (i : Nat) (t : Thread) (v : Var) (rest : List Op)
    (ht : s.threads[i]? = some t) (hp : t.parked = false) (hc : t.code = .load v :: rest) :
    s.stepThread i = some (s.setThread i { t with code := rest, loc := s.get v }) := by
  simp [World.stepThread, ht, hp, hc]

theorem stepThread_store (s : World) (i : Nat) (t : Thread) (v : Var) (rest : List Op)
    (ht : s.threads[i]? = some t) (hp : t.parked = false) (hc : t.code = .store v :: rest) :
    s.stepThread i =
      some ((s.set v (wrapInt (t.loc + 1))).setThread i { t with code := rest }) := by
  simp [World.stepThread, ht, hp, hc]

theorem stepThread_unlock (s : World) (i : Nat) (t : Thread) (rest : List Op)
    (ht : s.threads[i]? = some t) (hp : t.parked = false) (hc : t.code = .unlock :: rest) :
    s.stepThread i =
      if s.mtx.writer then
        some ({ s with mtx := { s.mtx with writer := false } }.setThread i { t with code := rest })
      else some { s with fault := some .unlockOfUnlocked } := by
  simp [World.stepThread, ht, hp, hc]

theorem stepThread_lock (s : World) (i : Nat) (t : Thread) (rest : List Op)
    (ht : s.threads[i]? = some t) (hp : t.parked = false) (hc : t.code = .lock :: rest) :
    s.stepThread i =
      if s.mtx.writer || s.mtx.readers != 0 then none
      else some ({ s with mtx := { s.mtx with writer := true } }.setThread i
        { t with code := rest }) := by
  simp [World.stepThread, ht, hp, hc]

theorem stepThread_rLock (s : World) (i : Nat) (t : Thread) (rest : List Op)
    (ht : s.threads[i]? = some t) (hp : t.parked = false) (hc : t.code = .rLock :: rest) :
    s.stepThread i =
      if s.mtx.writer then none
      else some ({ s with mtx := { s.mtx with readers := s.mtx.readers + 1 } }.setThread i
        { t with code := rest }) := by
  simp [World.stepThread, ht, hp, hc]

theorem stepThread_wgDone (s : World) (i : Nat) (t : Thread) (rest : List Op)
    (ht : s.threads[i]? = some t) (hp : t.parked = false) (hc : t.code = .wgDone :: rest) :
    s.stepThread i =
      if s.wg = 0 then some { s with fault := some .negativeWaitGroup }
      else some ({ s with wg := s.wg - 1 }.setThread i { t with code := rest }) := by
  simp [World.stepThread, ht, hp, hc]

theorem set_last {α : Type} (qs : List α) (t t1 : α) :
    (qs ++ [t]).set qs.length t1 = qs ++ [t1] := by
  rw [List.set_append_right _ _ (Nat.le_refl _)]
  simp

theorem getElem?_last {α : Type} (qs : List α) (t : α) : (qs ++ [t])[qs.length]? = some t := by
  simp

/-- The steps from a phase in which a goroutine holds the lock. -/
theorem step_active (n : Nat) (s s1 : World) (p : Pick) (ph : BetterPhase)
    (code : List Op) (loc : Option Nat) (hact : ph.active = some (code, loc))
    (hv : ph.Valid n) (hmain : s.main = ph.main n) (hout : s.out = ph.out n)
    (hmtx : s.mtx = ph.mtx) (hc : s.counterBetterMutex = wrapInt ph.counter)
    (qs : List Thread) (t : Thread) (hths : s.threads = qs ++ [t]) (hqs : ∀ q ∈ qs, Quiet q)
    (hcode : t.code = code) (hpark : t.parked = false) (hloc : ∀ v, loc = some v → t.loc = wrapInt v)
    (h : s.step p = some s1) : BetterInv n s1 := by
  unfold World.step at h
  split at h
  · cases h
  · cases h
  · cases p with
    | thread i =>
      simp only at h
      rcases Nat.lt_trichotomy i qs.length with hi | hi | hi
      · -- a quiet goroutine
        have ht : s.threads[i]? = qs[i]? := by
          rw [hths]; exact List.getElem?_append_left hi
        cases hq : qs[i]? with
        | none => simp [World.stepThread, ht, hq] at h
        | some q =>
          rw [hq] at ht
          have hquiet := hqs q (List.getElem?_mem hq)
          obtain ⟨h1, h2, h3, h4, _, h5⟩ := stepThread_quiet s s1 i q ht hquiet h
          refine ⟨ph, hv, by rw [h1, hmain], by rw [h2, hout], Or.inr ⟨by rw [h3, hmtx],
            by rw [h4, hc], ?_⟩⟩
          simp only [BetterPhase.ThreadsOk, hact]
          rcases h5 with h5 | ⟨t1, hq1, _, h5⟩
          · exact ⟨qs, t, by rw [h5, hths], hqs, hcode, hpark, hloc⟩
          · refine ⟨qs.set i t1, t, ?_, quiet_set _ _ _ hqs hq1, hcode, hpark, hloc⟩
            rw [h5, hths, List.set_append_left _ _ hi]
      · -- the goroutine that holds the lock
        subst hi
        have ht : s.threads[qs.length]? = some t := by rw [hths]; exact getElem?_last qs t
        cases ph with
        | pre p => simp [BetterPhase.active] at hact
        | idle i j => simp [BetterPhase.active] at hact
        | final => simp [BetterPhase.active] at hact
        | hello i a =>
          simp only [BetterPhase.active, Option.some.injEq, Prod.mk.injEq] at hact
          obtain ⟨rfl, rfl⟩ := hact
          obtain ⟨hin, ha⟩ := hv
          simp only [BetterPhase.main] at hmain
          simp only [BetterPhase.mtx] at hmtx
          simp only [BetterPhase.counter] at hc
          simp only [BetterPhase.out] at hout
          interval_cases a
          · have hcode' : t.code = .printHello .counterBetterMutex :: [.rUnlock, .wgDone] := hcode
            rw [stepThread_printHello s _ t _ _ ht hpark hcode'] at h
            cases h
            refine ⟨.hello i 1, ⟨hin, by omega⟩, hmain, ?_, Or.inr ⟨hmtx, hc, ?_⟩⟩
            · show s.out ++ [helloLine s.counterBetterMutex] = _
              rw [hout, hc]
              simp [BetterPhase.out, helloLines_succ, helloAt]
            · simp only [BetterPhase.ThreadsOk, BetterPhase.active]
              refine ⟨qs, ⟨t.fn, [.rUnlock, .wgDone], t.loc, t.parked⟩, ?_, hqs, rfl, hpark,
                by simp⟩
              show s.threads.set qs.length _ = _
              rw [hths, set_last]
          · have hcode' : t.code = .rUnlock :: [.wgDone] := hcode
            rw [stepThread_rUnlock s _ t _ ht hpark hcode'] at h
            simp only [hmtx] at h
            cases h
            refine ⟨.idle i 3, ⟨by omega, by omega, fun _ => hin⟩, hmain, ?_, Or.inr ⟨?_, hc, ?_⟩⟩
            · show s.out = _
              rw [hout]
              simp [BetterPhase.out]
            · simp [World.setThread, BetterPhase.mtx]
            · simp only [BetterPhase.ThreadsOk, BetterPhase.active]
              show ∀ q ∈ s.threads.set qs.length _, Quiet q
              rw [hths, set_last]
              intro q hq
              rcases List.mem_append.mp hq with hq | hq
              · exact hqs q hq
              · simp only [List.mem_singleton] at hq
                subst hq
                exact Or.inl rfl
        | incr i j a =>
          simp only [BetterPhase.active, Option.some.injEq, Prod.mk.injEq] at hact
          obtain ⟨rfl, rfl⟩ := hact
          obtain ⟨hi1, hin, hj, hjn, ha⟩ := hv
          simp only [BetterPhase.main] at hmain
          simp only [BetterPhase.mtx] at hmtx
          simp only [BetterPhase.counter] at hc
          simp only [BetterPhase.out] at hout
          interval_cases a
          · have hcode' : t.code = .load .counterBetterMutex ::
                [.store .counterBetterMutex, .unlock, .wgDone] := hcode
            rw [stepThread_load s _ t _ _ ht hpark hcode'] at h
            cases h
            refine ⟨.incr i j 1, ⟨hi1, hin, hj, hjn, by omega⟩, hmain, hout,
              Or.inr ⟨hmtx, ?_, ?_⟩⟩
            · show s.counterBetterMutex = _
              simp [hc, BetterPhase.counter]
            · simp only [BetterPhase.ThreadsOk, BetterPhase.active]
              refine ⟨qs, ⟨t.fn, [.store .counterBetterMutex, .unlock, .wgDone],
                s.counterBetterMutex, t.parked⟩, ?_, hqs, rfl, hpark, ?_⟩
              · show s.threads.set qs.length _ = _
                rw [hths, set_last]
                rfl
              · intro v hv
                simp only [if_true, Option.some.injEq] at hv
                show s.counterBetterMutex = wrapInt v
                rw [hc, ← hv]
                simp [BetterPhase.counter]
          · have hcode' : t.code = .store .counterBetterMutex :: [.unlock, .wgDone] := hcode
            rw [stepThread_store s _ t _ _ ht hpark hcode'] at h
            cases h
            have hl : t.loc = wrapInt ((i - 1 : Nat) : Int) := hloc (i - 1) (by simp)
            refine ⟨.incr i j 2, ⟨hi1, hin, hj, hjn, by omega⟩, hmain, hout,
              Or.inr ⟨hmtx, ?_, ?_⟩⟩
            · show wrapInt (t.loc + 1) = _
              simp only [BetterPhase.counter, if_true]
              rw [hl, wrapInt_wrapInt_add]
              congr 1
              omega
            · simp only [BetterPhase.ThreadsOk, BetterPhase.active]
              refine ⟨qs, ⟨t.fn, [.unlock, .wgDone], t.loc, t.parked⟩, ?_, hqs, rfl, hpark,
                by simp⟩
              show (s.set .counterBetterMutex (wrapInt (t.loc + 1))).threads.set qs.length _ = _
              show s.threads.set qs.length _ = _
              rw [hths, set_last]
          · have hcode' : t.code = .unlock :: [.wgDone] := hcode
            rw [stepThread_unlock s _ t _ ht hpark hcode'] at h
            simp only [hmtx] at h
            cases h
            refine ⟨.idle i j, ⟨hin, by omega, fun h1 => hjn (by omega)⟩, hmain, ?_,
              Or.inr ⟨?_, ?_, ?_⟩⟩
            · show s.out = _
              rw [hout]
              have : ¬ 3 ≤ j := by omega
              simp [BetterPhase.out, this]
            · have h2 : j ≠ 2 := by omega
              have h4 : j ≠ 4 := by omega
              simp [World.setThread, BetterPhase.mtx, h2, h4]
            · show s.counterBetterMutex = _
              simp [hc, BetterPhase.counter]
            · simp only [BetterPhase.ThreadsOk, BetterPhase.active]
              show ∀ q ∈ s.threads.set qs.length _, Quiet q
              rw [hths, set_last]
              intro q hq
              rcases List.mem_append.mp hq with hq | hq
              · exact hqs q hq
              · simp only [List.mem_singleton] at hq
                subst hq
                exact Or.inl rfl
      · have ht : s.threads[i]? = none := by
          rw [hths]; simp; omega
        simp [World.stepThread, ht] at h
    | main =>
      simp only at h
      cases ph with
      | pre p => simp [BetterPhase.active] at hact
      | idle i j => simp [BetterPhase.active] at hact
      | final => simp [BetterPhase.active] at hact
      | hello i a =>
        simp only [BetterPhase.main] at hmain
        simp only [BetterPhase.mtx] at hmtx
        rw [loopAt_three] at hmain
        rw [stepMain_lock s _ hmain] at h
        simp [hmtx] at h
      | incr i j a =>
        obtain ⟨hi1, hin, hj, hjn, ha⟩ := hv
        simp only [BetterPhase.main] at hmain
        simp only [BetterPhase.mtx] at hmtx
        simp only [BetterPhase.out] at hout
        have hths' : (BetterPhase.incr i j a).ThreadsOk s.threads := by
          simp only [BetterPhase.ThreadsOk, hact]
          exact ⟨qs, t, hths, hqs, hcode, hpark, hloc⟩
        interval_cases j
        · by_cases hlt : i < n
          · rw [loopAt_zero n i hlt] at hmain
            rw [stepMain_wgAdd s _ _ hmain] at h
            cases h
            refine ⟨.incr i 1 a, ⟨hi1, hin, by omega, fun _ => hlt, ha⟩, rfl, hout,
              Or.inr ⟨hmtx, hc, ?_⟩⟩
            simp only [BetterPhase.ThreadsOk, BetterPhase.active] at hths' ⊢
            exact hths'
          · have hin' : i = n := by omega
            subst hin'
            rw [loopAt_end] at hmain
            rw [stepMain_wgWait s _ hmain] at h
            split at h
            · cases h
              exact ⟨.final, trivial, rfl, by simp [hout, BetterPhase.out], Or.inl rfl⟩
            · cases h
        · rw [loopAt_one] at hmain
          rw [stepMain_rLock s _ hmain] at h
          simp [hmtx] at h

theorem step_of_main_nil (s : World) (p : Pick) (h : s.main = []) : s.step p = none := by
  unfold World.step
  split
  · rfl
  · rfl
  · rename_i hm; rw [h] at hm; cases hm

/-- Every step of a run of `betterMutexExampleN n` keeps it in its phases. -/
theorem step_betterInv (n : Nat) (s s1 : World) (p : Pick) (hinv : BetterInv n s)
    (h : s.step p = some s1) : BetterInv n s1 := by
  obtain ⟨ph, hv, hmain, hout, hrest⟩ := hinv
  rcases hrest with rfl | ⟨hmtx, hc, hths⟩
  · simp only [BetterPhase.main] at hmain
    rw [step_of_main_nil s p hmain] at h
    cases h
  · by_cases hfin : ph = .final
    · subst hfin
      simp only [BetterPhase.main] at hmain
      rw [step_of_main_nil s p hmain] at h
      cases h
    · cases hact : ph.active with
      | none =>
        simp only [BetterPhase.ThreadsOk, hact] at hths
        exact step_noActive n s s1 p ph hact hfin hv hmain hout hmtx hc hths h
      | some cl =>
        obtain ⟨code, loc⟩ := cl
        simp only [BetterPhase.ThreadsOk, hact] at hths
        obtain ⟨qs, t, h1, h2, h3, h4, h5⟩ := hths
        exact step_active n s s1 p ph code loc hact hv hmain hout hmtx hc qs t h1 h2 h3 h4 h5 h

theorem exec_betterInv (n : Nat) (sched : List Pick) : ∀ s : World, BetterInv n s →
    BetterInv n (s.exec sched) := by
  induction sched with
  | nil => intro s h; exact h
  | cons p ps ih =>
    intro s h
    simp only [World.exec]
    cases hs : s.step p with
    | none => exact ih s h
    | some s1 => exact ih s1 (step_betterInv n s s1 p h hs)

theorem init_betterInv (n : Nat) : BetterInv n (World.init (betterMutexExampleN n)) :=
  ⟨.pre 0, by simp [BetterPhase.Valid], rfl, rfl, Or.inr ⟨rfl, rfl, by
    simp [BetterPhase.ThreadsOk, BetterPhase.active, World.init]⟩⟩

theorem loopAt_ne_nil (n i j : Nat) : loopAt n i j ≠ [] := by
  unfold loopAt
  split <;> simp

/-- What the phases say of the output: it is empty, or the headline followed
by the first lines `Hello #0`, `Hello #1`, ...; and when `main` has returned
it is the headline followed by all `n` of them. -/
theorem betterInv_out (n : Nat) (s : World) (h : BetterInv n s) :
    (s.out = [] ∨ ∃ m, m ≤ n ∧
        s.out = .text "Better RWMutex example:\n" :: helloLines m) ∧
      (s.main = [] → s.out = .text "Better RWMutex example:\n" :: helloLines n) := by
  obtain ⟨ph, hv, hmain, hout, _⟩ := h
  cases ph with
  | pre p =>
    simp only [BetterPhase.Valid] at hv
    refine ⟨?_, ?_⟩
    · interval_cases p
      · left; simp [hout, BetterPhase.out]
      · right; exact ⟨0, by omega, by simp [hout, BetterPhase.out, helloLines]⟩
    · intro hm
      rw [hmain] at hm
      interval_cases p <;> simp [BetterPhase.main, betterMutexExampleN] at hm
  | idle i j =>
    obtain ⟨hi, hj, hij⟩ := hv
    refine ⟨Or.inr ⟨if 3 ≤ j then i + 1 else i, ?_, hout⟩, ?_⟩
    · split
      · have := hij (by omega); omega
      · exact hi
    · intro hm
      rw [hmain] at hm
      exact absurd hm (loopAt_ne_nil n i j)
  | hello i a =>
    obtain ⟨hi, ha⟩ := hv
    refine ⟨Or.inr ⟨i + a, by omega, hout⟩, ?_⟩
    intro hm
    rw [hmain] at hm
    exact absurd hm (loopAt_ne_nil n i 3)
  | incr i j a =>
    obtain ⟨hi1, hin, hj, hjn, ha⟩ := hv
    refine ⟨Or.inr ⟨i, hin, hout⟩, ?_⟩
    intro hm
    rw [hmain] at hm
    exact absurd hm (loopAt_ne_nil n i j)
  | final =>
    exact ⟨Or.inr ⟨n, Nat.le_refl n, hout⟩, fun _ => hout⟩

end Goroutines

namespace Goroutines

open Runtime

/-! ### `betterMutexExample` runs to its end -/

theorem exec_append (a : List Pick) : ∀ (s : World) (b : List Pick),
    s.exec (a ++ b) = (s.exec a).exec b := by
  induction a with
  | nil => intro s b; rfl
  | cons p ps ih =>
    intro s b
    show ((s.step p).getD s).exec (ps ++ b) = _
    rw [ih]
    rfl

/-- While the program runs, a step of the program is the step of the
goroutine picked. -/
theorem step_while_running (s : World) (hf : s.fault = none) (hm : s.main ≠ []) :
    s.step .main = s.stepMain ∧ ∀ i, s.step (.thread i) = s.stepThread i := by
  cases hmm : s.main with
  | nil => exact absurd hmm hm
  | cons st rest => constructor <;> simp [World.step, hf, hmm]

/-- A step of `main` raises no panic, parks nobody and is one statement less
to run. -/
theorem stepMain_todo (s s1 : World) (h : s.stepMain = some s1) :
    s1.fault = s.fault ∧ todo s1 + 1 = todo s ∧
      ((∀ t ∈ s.threads, t.parked = false) → ∀ t ∈ s1.threads, t.parked = false) := by
  unfold World.stepMain at h
  split at h
  · cases h
  all_goals (
    rename_i hm
    first
      | (cases h
         refine ⟨rfl, ?_, ?_⟩
         · simp only [todo, hm, List.map_cons, List.sum_cons, stmtWeight, List.map_append,
             List.sum_append, List.map_nil, List.sum_nil]
           omega
         · intro hp t ht
           first
             | exact hp t ht
             | (rcases List.mem_append.mp ht with ht | ht
                · exact hp t ht
                · simp only [List.mem_singleton] at ht
                  subst ht
                  rfl))
      | (split at h
         · first
             | (cases h; done)
             | (cases h
                refine ⟨rfl, ?_, fun hp => hp⟩
                simp only [todo, hm, List.map_cons, List.sum_cons, stmtWeight]
                omega)
         · first
             | (cases h; done)
             | (cases h
                refine ⟨rfl, ?_, fun hp => hp⟩
                simp only [todo, hm, List.map_cons, List.sum_cons, stmtWeight]
                omega)))

theorem matchedFrom_forN_better (k : Nat) (rest : List Stmt) :
    matchedFrom 0 (forN k betterMutexBody ++ rest) = matchedFrom 0 rest := by
  induction k with
  | zero => simp [forN]
  | succ k ih =>
    rw [forN_succ, List.append_assoc]
    have e1 : dones sayHelloBetterMutex = 1 := by decide
    have e2 : dones incrementBetterMutex = 1 := by decide
    have e3 : sayHelloBetterMutex.getLast? = some .wgDone := by decide
    have e4 : incrementBetterMutex.getLast? = some .wgDone := by decide
    have hbody : ∀ r, matchedFrom 0 (betterMutexBody ++ r) = matchedFrom 0 r := by
      intro r
      simp [betterMutexBody, matchedFrom, e1, e2, e3, e4]
    rw [hbody, ih]

theorem init_sound (n : Nat) : Sound (World.init (betterMutexExampleN n)) := by
  refine ⟨⟨0, ?_, rfl⟩, rfl, by intro t ht; simp [World.init] at ht⟩
  show matchedFrom 0
    ([.println "Better RWMutex example:", .gomaxprocs 100] ++ forN n betterMutexBody ++
      [.wgWait]) = true
  rw [List.append_assoc]
  show matchedFrom 0 (forN n betterMutexBody ++ [.wgWait]) = true
  rw [matchedFrom_forN_better]
  rfl

/-- The statement a goroutine of `betterMutexExample` is at, while the program
runs: its call of `wg.Done()`, or, for the goroutine that holds the lock, the
print, the release of the read lock that is held, the read or the write of
the counter, or the release of the write lock that is held. -/
theorem betterInv_head (n : Nat) (s : World) (i : Nat) (t : Thread) (op : Op)
    (rest : List Op) (hinv : BetterInv n s) (hm : s.main ≠ [])
    (ht : s.threads[i]? = some t) (hc : t.code = op :: rest) :
    op = .wgDone ∨ op = .printHello .counterBetterMutex ∨
      (op = .rUnlock ∧ s.mtx.readers ≠ 0) ∨ op = .load .counterBetterMutex ∨
      op = .store .counterBetterMutex ∨ (op = .unlock ∧ s.mtx.writer = true) := by
  obtain ⟨ph, hv, hmain, hout, hrest⟩ := hinv
  have hquiet : Quiet t → op = .wgDone := by
    intro hq
    rcases hq with hq | hq
    · rw [hq] at hc; cases hc; rfl
    · rw [hq] at hc; cases hc
  rcases hrest with rfl | ⟨hmtx, _, hths⟩
  · exact absurd hmain hm
  · cases ph with
    | pre p =>
      simp only [BetterPhase.ThreadsOk, BetterPhase.active] at hths
      exact Or.inl (hquiet (hths t (List.getElem?_mem ht)))
    | idle a b =>
      simp only [BetterPhase.ThreadsOk, BetterPhase.active] at hths
      exact Or.inl (hquiet (hths t (List.getElem?_mem ht)))
    | final => exact absurd hmain hm
    | hello a b =>
      simp only [BetterPhase.ThreadsOk, BetterPhase.active] at hths
      obtain ⟨qs, t0, h1, h2, h3, _, _⟩ := hths
      have hmem := List.getElem?_mem ht
      rw [h1] at hmem
      rcases List.mem_append.mp hmem with hq | hq
      · exact Or.inl (hquiet (h2 t hq))
      · simp only [List.mem_singleton] at hq
        subst hq
        rw [hc] at h3
        obtain ⟨_, hb⟩ := hv
        interval_cases b
        · cases h3; exact Or.inr (Or.inl rfl)
        · cases h3
          refine Or.inr (Or.inr (Or.inl ⟨rfl, ?_⟩))
          rw [hmtx]
          exact Nat.one_ne_zero
    | incr a b c =>
      simp only [BetterPhase.ThreadsOk, BetterPhase.active] at hths
      obtain ⟨qs, t0, h1, h2, h3, _, _⟩ := hths
      have hmem := List.getElem?_mem ht
      rw [h1] at hmem
      rcases List.mem_append.mp hmem with hq | hq
      · exact Or.inl (hquiet (h2 t hq))
      · simp only [List.mem_singleton] at hq
        subst hq
        rw [hc] at h3
        obtain ⟨_, _, _, _, hcl⟩ := hv
        interval_cases c
        · cases h3; exact Or.inr (Or.inr (Or.inr (Or.inl rfl)))
        · cases h3; exact Or.inr (Or.inr (Or.inr (Or.inr (Or.inl rfl))))
        · cases h3
          refine Or.inr (Or.inr (Or.inr (Or.inr (Or.inr ⟨rfl, ?_⟩))))
          rw [hmtx]; rfl

/-- A goroutine that goes on to its next statement: no panic, nobody parked,
one statement less to run. -/
theorem sound_setThread (s w : World) (i : Nat) (t t1 : Thread)
    (ht : s.threads[i]? = some t) (hw : w.threads = s.threads) (hwm : w.main = s.main)
    (hwf : w.fault = none) (hp : ∀ x ∈ s.threads, x.parked = false) (hp1 : t1.parked = false)
    (hlen : t1.code.length + 1 = t.code.length) :
    (w.setThread i t1).fault = none ∧ (∀ x ∈ (w.setThread i t1).threads, x.parked = false) ∧
      todo (w.setThread i t1) < todo s := by
  have hthreads : (w.setThread i t1).threads = s.threads.set i t1 := by
    simp [World.setThread, hw]
  refine ⟨hwf, ?_, ?_⟩
  · intro x hx
    rw [hthreads] at hx
    rcases List.mem_or_eq_of_mem_set hx with hx | hx
    · exact hp x hx
    · exact hx ▸ hp1
  · have hsum := sum_map_set (fun t => t.code.length) s.threads i t t1 ht
    have hmain1 : (w.setThread i t1).main = s.main := hwm
    simp only [todo, hthreads, hmain1]
    simp only at hsum
    omega

/-- Every step of a goroutine in a run of `betterMutexExample` raises no
panic, parks nobody and is one statement less to run. -/
theorem stepThread_sound (n : Nat) (s s1 : World) (i : Nat) (hinv : BetterInv n s)
    (hs : Sound s) (hm : s.main ≠ []) (h : s.stepThread i = some s1) :
    s1.fault = none ∧ (∀ x ∈ s1.threads, x.parked = false) ∧ todo s1 < todo s := by
  obtain ⟨hb, hf, hp⟩ := hs
  cases ht : s.threads[i]? with
  | none => simp [World.stepThread, ht] at h
  | some t =>
    have hpark := hp t (List.getElem?_mem ht)
    cases hc : t.code with
    | nil => simp [World.stepThread, ht, hpark, hc] at h
    | cons op rest =>
      have hlen : ({ t with code := rest } : Thread).code.length + 1 = t.code.length := by
        simp [hc]
      rcases betterInv_head n s i t op rest hinv hm ht hc with
        rfl | rfl | ⟨rfl, hr⟩ | rfl | rfl | ⟨rfl, hw⟩
      · rw [stepThread_wgDone s i t _ ht hpark hc] at h
        obtain ⟨owed, _, hwg⟩ := hb
        have hle := World.le_pendingDones s i t ht
        have hd : 1 ≤ dones t.code := by simp [hc, dones]
        have hwg0 : s.wg ≠ 0 := by omega
        simp only [hwg0, if_false] at h
        cases h
        exact sound_setThread s _ i t _ ht rfl rfl hf hp hpark hlen
      · rw [stepThread_printHello s i t _ _ ht hpark hc] at h
        cases h
        exact sound_setThread s _ i t _ ht rfl rfl hf hp hpark hlen
      · rw [stepThread_rUnlock s i t _ ht hpark hc] at h
        simp only [hr, if_false] at h
        cases h
        exact sound_setThread s _ i t _ ht rfl rfl hf hp hpark hlen
      · rw [stepThread_load s i t _ _ ht hpark hc] at h
        cases h
        exact sound_setThread s _ i t _ ht rfl rfl hf hp hpark (by simp [hc])
      · rw [stepThread_store s i t _ _ ht hpark hc] at h
        cases h
        exact sound_setThread s _ i t _ ht rfl rfl hf hp hpark hlen
      · rw [stepThread_unlock s i t _ ht hpark hc] at h
        simp only [hw, if_true] at h
        cases h
        exact sound_setThread s _ i t _ ht rfl rfl hf hp hpark hlen

/-- Every step of a run of `betterMutexExample` keeps the program sound and is
one statement less to run. -/
theorem step_sound (n : Nat) (s s1 : World) (p : Pick) (hinv : BetterInv n s) (hs : Sound s)
    (h : s.step p = some s1) : Sound s1 ∧ todo s1 < todo s := by
  have hb1 := (World.step_wgBalanced s s1 p hs.1 h).1
  have hm : s.main ≠ [] := by
    intro hnil
    rw [step_of_main_nil s p hnil] at h
    cases h
  obtain ⟨e1, e2⟩ := step_while_running s hs.2.1 hm
  cases p with
  | main =>
    rw [e1] at h
    obtain ⟨h1, h2, h3⟩ := stepMain_todo s s1 h
    exact ⟨⟨hb1, by rw [h1]; exact hs.2.1, h3 hs.2.2⟩, by omega⟩
  | thread i =>
    rw [e2 i] at h
    obtain ⟨h1, h2, h3⟩ := stepThread_sound n s s1 i hinv hs hm h
    exact ⟨⟨hb1, h1, h2⟩, h3⟩

theorem exec_sound (n : Nat) (sched : List Pick) : ∀ s : World, BetterInv n s → Sound s →
    BetterInv n (s.exec sched) ∧ Sound (s.exec sched) := by
  induction sched with
  | nil => intro s h hs; exact ⟨h, hs⟩
  | cons p ps ih =>
    intro s h hs
    simp only [World.exec]
    cases hst : s.step p with
    | none => exact ih s h hs
    | some s1 => exact ih s1 (step_betterInv n s s1 p h hst) (step_sound n s s1 p h hs hst).1

/-- No deadlock: while `main` of `betterMutexExample` has not returned, some
goroutine can take a step. -/
theorem betterInv_progress (n : Nat) (s : World) (hinv : BetterInv n s) (hs : Sound s)
    (hm : s.main ≠ []) : ∃ p, (s.step p).isSome = true := by
  obtain ⟨e1, e2⟩ := step_while_running s hs.2.1 hm
  obtain ⟨ph, hv, hmain, hout, hrest⟩ := hinv
  rcases hrest with rfl | ⟨hmtx, _, hths⟩
  · exact absurd hmain hm
  · have hactive : ∀ (qs : List Thread) (t : Thread) (op : Op) (rest : List Op),
        s.threads = qs ++ [t] → t.parked = false → t.code = op :: rest →
        (op = .printHello .counterBetterMutex ∨ op = .rUnlock ∨
          op = .load .counterBetterMutex ∨ op = .store .counterBetterMutex ∨ op = .unlock) →
        ∃ p, (s.step p).isSome = true := by
      intro qs t op rest h1 hpark hc hop
      have ht : s.threads[qs.length]? = some t := by rw [h1]; exact getElem?_last qs t
      refine ⟨.thread qs.length, ?_⟩
      rw [e2]
      rcases hop with rfl | rfl | rfl | rfl | rfl
      · rw [stepThread_printHello s _ t _ _ ht hpark hc]; rfl
      · rw [stepThread_rUnlock s _ t _ ht hpark hc]; split <;> rfl
      · rw [stepThread_load s _ t _ _ ht hpark hc]; rfl
      · rw [stepThread_store s _ t _ _ ht hpark hc]; rfl
      · rw [stepThread_unlock s _ t _ ht hpark hc]; split <;> rfl
    cases ph with
    | final => exact absurd hmain hm
    | pre p =>
      simp only [BetterPhase.Valid] at hv
      refine ⟨.main, ?_⟩
      rw [e1]
      interval_cases p
      · have hm1 : s.main = .println "Better RWMutex example:" ::
            (betterMutexExampleN n).drop 1 := by
          rw [hmain]; rfl
        rw [stepMain_println s _ _ hm1]; rfl
      · have hm1 : s.main = .gomaxprocs 100 :: loopAt n 0 0 := by
          rw [hmain]; simp [BetterPhase.main, betterMutexExampleN, loopAt]
        rw [stepMain_gomaxprocs s _ _ hm1]; rfl
    | idle i j =>
      obtain ⟨hi, hj, hij⟩ := hv
      simp only [BetterPhase.main] at hmain
      simp only [BetterPhase.mtx] at hmtx
      simp only [BetterPhase.ThreadsOk, BetterPhase.active] at hths
      interval_cases j
      · by_cases hin : i < n
        · rw [loopAt_zero n i hin] at hmain
          exact ⟨.main, by rw [e1, stepMain_wgAdd s _ _ hmain]; rfl⟩
        · have hin1 : i = n := by omega
          subst hin1
          rw [loopAt_end] at hmain
          by_cases hz : s.wg = 0
          · exact ⟨.main, by rw [e1, stepMain_wgWait s _ hmain]; simp [hz]⟩
          · obtain ⟨owed, hmatch, hwg⟩ := hs.1
            have howed : owed = 0 := by
              rw [hmain] at hmatch
              simpa [matchedFrom] using hmatch
            have hex : ∃ t ∈ s.threads, dones t.code ≠ 0 := by
              by_contra hno
              have hall : ∀ x ∈ s.threads.map (fun t => dones t.code), x = 0 := by
                intro x hx
                obtain ⟨t, ht, rfl⟩ := List.mem_map.mp hx
                by_contra hne
                exact hno ⟨t, ht, hne⟩
              have := List.sum_eq_zero_iff.mpr hall
              simp only [World.pendingDones] at hwg
              omega
            obtain ⟨t, htm, hd⟩ := hex
            obtain ⟨k, hk⟩ := List.mem_iff_getElem?.mp htm
            have hcode : t.code = [.wgDone] := by
              rcases hths t htm with hq | hq
              · exact hq
              · rw [hq] at hd; exact absurd rfl hd
            refine ⟨.thread k, ?_⟩
            rw [e2, stepThread_wgDone s k t [] hk (hs.2.2 t htm) hcode]
            split <;> rfl
      · rw [loopAt_one] at hmain
        exact ⟨.main, by rw [e1, stepMain_rLock s _ hmain]; simp [hmtx]⟩
      · rw [loopAt_two] at hmain
        exact ⟨.main, by rw [e1, stepMain_go s _ _ hmain]; rfl⟩
      · rw [loopAt_three] at hmain
        exact ⟨.main, by rw [e1, stepMain_lock s _ hmain]; simp [hmtx]⟩
      · rw [loopAt_four] at hmain
        exact ⟨.main, by rw [e1, stepMain_go s _ _ hmain]; rfl⟩
    | hello i a =>
      simp only [BetterPhase.ThreadsOk, BetterPhase.active] at hths
      obtain ⟨qs, t, h1, _, h3, h4, _⟩ := hths
      obtain ⟨_, ha⟩ := hv
      interval_cases a
      · exact hactive qs t _ _ h1 h4 h3 (Or.inl rfl)
      · exact hactive qs t _ _ h1 h4 h3 (Or.inr (Or.inl rfl))
    | incr i j a =>
      simp only [BetterPhase.ThreadsOk, BetterPhase.active] at hths
      obtain ⟨qs, t, h1, _, h3, h4, _⟩ := hths
      obtain ⟨_, _, _, _, ha⟩ := hv
      interval_cases a
      · exact hactive qs t _ _ h1 h4 h3 (Or.inr (Or.inr (Or.inl rfl)))
      · exact hactive qs t _ _ h1 h4 h3 (Or.inr (Or.inr (Or.inr (Or.inl rfl))))
      · exact hactive qs t _ _ h1 h4 h3 (Or.inr (Or.inr (Or.inr (Or.inr rfl))))

/-- From every state of a run of `betterMutexExample` the program can run on
to the return of `main`, without panic. -/
theorem betterInv_completes (n : Nat) (k : Nat) : ∀ s : World, todo s ≤ k → BetterInv n s →
    Sound s → ∃ more, (s.exec more).main = [] ∧ (s.exec more).fault = none := by
  induction k with
  | zero =>
    intro s hk hinv hs
    by_cases hm : s.main = []
    · exact ⟨[], hm, hs.2.1⟩
    · obtain ⟨p, hp⟩ := betterInv_progress n s hinv hs hm
      obtain ⟨s1, hs1⟩ := Option.isSome_iff_exists.mp hp
      have := (step_sound n s s1 p hinv hs hs1).2
      omega
  | succ k ih =>
    intro s hk hinv hs
    by_cases hm : s.main = []
    · exact ⟨[], hm, hs.2.1⟩
    · obtain ⟨p, hp⟩ := betterInv_progress n s hinv hs hm
      obtain ⟨s1, hs1⟩ := Option.isSome_iff_exists.mp hp
      obtain ⟨hsound1, hlt⟩ := step_sound n s s1 p hinv hs hs1
      obtain ⟨more, h1, h2⟩ := ih s1 (by omega) (step_betterInv n s s1 p hinv hs1) hsound1
      refine ⟨p :: more, ?_, ?_⟩
      · simp only [World.exec, hs1, Option.getD_some]; exact h1
      · simp only [World.exec, hs1, Option.getD_some]; exact h2

/-- The ten lines `betterMutexExample` prints after its headline. -/
theorem helloLines_ten :
    helloLines 10 =
      [.text "Hello #0\n", .text "Hello #1\n", .text "Hello #2\n", .text "Hello #3\n",
        .text "Hello #4\n", .text "Hello #5\n", .text "Hello #6\n", .text "Hello #7\n",
        .text "Hello #8\n", .text "Hello #9\n"] := by
  decide

/-- C9: in every run of `betterMutexExample` from the initial state,
whatever the schedule: the program does not panic; as long as `main` has not
returned some goroutine can take a step (there is no deadlock), every step is
one statement less to run, and the run can be continued to the return of
`main`; when `main` has returned from
`wg.Wait()` the output is the headline followed by exactly the ten lines
`Hello #0`, ..., `Hello #9` in ascending order; before that, the output is at
every moment the headline followed by the first of these lines, in order,
none repeated or skipped.  The same holds with any bound `n` for the 10 of the
loop, the `i`-th line showing the value of the `int` counter after `i`
increments. -/
theorem betterMutexExample_prints_in_order :
    (∀ sched : List Pick,
      ((World.init betterMutexExample).exec sched).fault = none ∧
      (((World.init betterMutexExample).exec sched).main ≠ [] →
        ∃ p, (((World.init betterMutexExample).exec sched).step p).isSome = true) ∧
      (∃ more, ((World.init betterMutexExample).exec (sched ++ more)).main = [] ∧
        ((World.init betterMutexExample).exec (sched ++ more)).fault = none ∧
        ((World.init betterMutexExample).exec (sched ++ more)).out =
          [.text "Better RWMutex example:\n", .text "Hello #0\n", .text "Hello #1\n",
            .text "Hello #2\n", .text "Hello #3\n", .text "Hello #4\n", .text "Hello #5\n",
            .text "Hello #6\n", .text "Hello #7\n", .text "Hello #8\n",
            .text "Hello #9\n"]) ∧
      (((World.init betterMutexExample).exec sched).main = [] →
        ((World.init betterMutexExample).exec sched).out =
          [.text "Better RWMutex example:\n", .text "Hello #0\n", .text "Hello #1\n",
            .text "Hello #2\n", .text "Hello #3\n", .text "Hello #4\n", .text "Hello #5\n",
            .text "Hello #6\n", .text "Hello #7\n", .text "Hello #8\n",
            .text "Hello #9\n"])) ∧
    (∀ (n : Nat) (sched : List Pick),
      ((World.init (betterMutexExampleN n)).exec sched).fault = none ∧
      (((World.init (betterMutexExampleN n)).exec sched).main ≠ [] →
        ∃ p, (((World.init (betterMutexExampleN n)).exec sched).step p).isSome = true) ∧
      (∃ more, ((World.init (betterMutexExampleN n)).exec (sched ++ more)).main = [] ∧
        ((World.init (betterMutexExampleN n)).exec (sched ++ more)).fault = none) ∧
      (∀ p s1, ((World.init (betterMutexExampleN n)).exec sched).step p = some s1 →
        todo s1 < todo ((World.init (betterMutexExampleN n)).exec sched)) ∧
      (((World.init (betterMutexExampleN n)).exec sched).out = [] ∨
        ∃ m, m ≤ n ∧ ((World.init (betterMutexExampleN n)).exec sched).out =
          .text "Better RWMutex example:\n" ::
            (List.range m).map (fun i : Nat => helloLine (wrapInt i))) ∧
      (((World.init (betterMutexExampleN n)).exec sched).main = [] →
        ((World.init (betterMutexExampleN n)).exec sched).out =
          .text "Better RWMutex example:\n" ::
            (List.range n).map (fun i : Nat => helloLine (wrapInt i)))) := by
  have hgen : ∀ (n : Nat) (sched : List Pick),
      ((World.init (betterMutexExampleN n)).exec sched).fault = none ∧
      (((World.init (betterMutexExampleN n)).exec sched).main ≠ [] →
        ∃ p, (((World.init (betterMutexExampleN n)).exec sched).step p).isSome = true) ∧
      (∃ more, ((World.init (betterMutexExampleN n)).exec (sched ++ more)).main = [] ∧
        ((World.init (betterMutexExampleN n)).exec (sched ++ more)).fault = none) ∧
      (∀ p s1, ((World.init (betterMutexExampleN n)).exec sched).step p = some s1 →
        todo s1 < todo ((World.init (betterMutexExampleN n)).exec sched)) ∧
      (((World.init (betterMutexExampleN n)).exec sched).out = [] ∨
        ∃ m, m ≤ n ∧ ((World.init (betterMutexExampleN n)).exec sched).out =
          .text "Better RWMutex example:\n" :: helloLines m) ∧
      (((World.init (betterMutexExampleN n)).exec sched).main = [] →
        ((World.init (betterMutexExampleN n)).exec sched).out =
          .text "Better RWMutex example:\n" :: helloLines n) := by
    intro n sched
    obtain ⟨hinv, hs⟩ := exec_sound n sched _ (init_betterInv n) (init_sound n)
    obtain ⟨more, h1, h2⟩ := betterInv_completes n _ _ (Nat.le_refl _) hinv hs
    obtain ⟨h3, h4⟩ := betterInv_out n _ hinv
    refine ⟨hs.2.1, fun hm => betterInv_progress n _ hinv hs hm,
      ⟨more, by rw [exec_append]; exact h1, by rw [exec_append]; exact h2⟩,
      fun p s1 hst => (step_sound n _ s1 p hinv hs hst).2, h3, h4⟩
  refine ⟨?_, ?_⟩
  · intro sched
    obtain ⟨h1, h2, ⟨more, h3, h4⟩, _, _, h6⟩ := hgen 10 sched
    refine ⟨h1, h2, ⟨more, h3, h4, ?_⟩, ?_⟩
    · have := (hgen 10 (sched ++ more)).2.2.2.2.2 h3
      exact this.trans (by rw [helloLines_ten])
    · intro hm
      exact (h6 hm).trans (by rw [helloLines_ten])
  · intro n sched
    exact hgen n sched

/-- C9, at the start of the program: there is a run of `betterMutexExample`
to the return of `main`, and its output is the headline and the ten lines. -/
theorem betterMutexExample_prints_in_order_witness :
    ∃ more, ((World.init betterMutexExample).exec ([] ++ more)).main = [] ∧
      ((World.init betterMutexExample).exec ([] ++ more)).fault = none ∧
      ((World.init betterMutexExample).exec ([] ++ more)).out =
        [.text "Better RWMutex example:\n", .text "Hello #0\n", .text "Hello #1\n",
          .text "Hello #2\n", .text "Hello #3\n", .text "Hello #4\n", .text "Hello #5\n",
          .text "Hello #6\n", .text "Hello #7\n", .text "Hello #8\n", .text "Hello #9\n"] :=
  (betterMutexExample_prints_in_order.1 []).2.2.1

end Goroutines

/-! ## Part 6, theorems: `mutexExample` -/

namespace Goroutines

open Runtime

theorem getElem?_set_cases {α : Type} (l : List α) (i j : Nat) (b x : α)
    (h : (l.set i b)[j]? = some x) : (j = i ∧ x = b) ∨ (j ≠ i ∧ l[j]? = some x) := by
  rw [List.getElem?_set] at h
  split at h
  · rename_i hij
    split at h
    · simp only [Option.some.injEq] at h
      exact Or.inl ⟨hij.symm, h.symm⟩
    · cases h
  · rename_i hij
    exact Or.inr ⟨fun e => hij e.symm, h⟩

theorem getElem?_set_self_of_some {α : Type} (l : List α) (i : Nat) (a b : α)
    (h : l[i]? = some a) : (l.set i b)[i]? = some b := by
  have hlt : i < l.length := by
    by_contra hge
    have := List.getElem?_eq_none (Nat.le_of_not_lt hge)
    rw [this] at h
    cases h
  rw [List.getElem?_set]
  simp [hlt]

/-- The discipline depends on the goroutines, the write flag of the lock and
`counterMutex` only. -/
theorem MutexInv.congr (c0 : Int) (s s1 : World) (h : MutexInv c0 s)
    (h1 : s1.threads = s.threads) (h2 : s1.mtx.writer = s.mtx.writer)
    (h3 : s1.counterMutex = s.counterMutex) : MutexInv c0 s1 := by
  unfold MutexInv at h ⊢
  rw [h1, h2, h3]
  exact h

/-- The discipline is kept when one goroutine takes a step that respects it. -/
theorem MutexInv.update (c0 : Int) (s w : World) (i : Nat) (t t1 : Thread)
    (hinv : MutexInv c0 s) (ht : s.threads[i]? = some t) (hw : w.threads = s.threads)
    (hpool : PoolThread t1)
    (hcase : (w.mtx.writer = s.mtx.writer ∧ (InCS t1 ↔ InCS t)) ∨
      (s.mtx.writer = false ∧ w.mtx.writer = true ∧ InCS t1) ∨
      (InCS t ∧ w.mtx.writer = false ∧ ¬ InCS t1))
    (hcount : (w.counterMutex = s.counterMutex ∧ hasStored t1 = hasStored t) ∨
      (w.counterMutex = wrapInt (s.counterMutex + 1) ∧ hasStored t1 = hasStored t + 1))
    (hloaded : t1.fn = incrementMutex → t1.code.length = 3 → t1.loc = w.counterMutex)
    (hothers : w.counterMutex = s.counterMutex ∨ InCS t) :
    MutexInv c0 (w.setThread i t1) := by
  obtain ⟨hp, ⟨h, hwr, hb, hc⟩, hcnt, hld⟩ := hinv
  have hthreads : (w.setThread i t1).threads = s.threads.set i t1 := by
    simp [World.setThread, hw]
  have hself : (s.threads.set i t1)[i]? = some t1 := getElem?_set_self_of_some _ _ _ _ ht
  refine ⟨?_, ?_, ?_, ?_⟩
  · intro x hx
    rw [hthreads] at hx
    rcases List.mem_or_eq_of_mem_set hx with hx | hx
    · exact hp x hx
    · exact hx ▸ hpool
  · rw [hthreads]
    show ∃ h : Option Nat, w.mtx.writer = h.isSome ∧ _
    rcases hcase with ⟨hw1, hcs⟩ | ⟨hw0, hw1, hcs⟩ | ⟨hcs, hw1, hncs⟩
    · refine ⟨h, by rw [hw1, hwr], ?_, ?_⟩
      · intro j hj
        obtain ⟨x, hx, hxcs⟩ := hb j hj
        by_cases hji : j = i
        · subst hji
          rw [ht] at hx
          cases hx
          exact ⟨t1, hself, hcs.mpr hxcs⟩
        · exact ⟨x, by rw [List.getElem?_set_ne (fun e => hji e.symm)]; exact hx, hxcs⟩
      · intro j x hx hxcs
        rcases getElem?_set_cases _ _ _ _ _ hx with ⟨rfl, rfl⟩ | ⟨_, hx⟩
        · exact hc j t ht (hcs.mp hxcs)
        · exact hc j x hx hxcs
    · have hnone : h = none := by
        cases h with
        | none => rfl
        | some k => rw [hw0] at hwr; cases hwr
      subst hnone
      refine ⟨some i, by rw [hw1]; rfl, ?_, ?_⟩
      · intro j hj
        cases hj
        exact ⟨t1, hself, hcs⟩
      · intro j x hx hxcs
        rcases getElem?_set_cases _ _ _ _ _ hx with ⟨rfl, rfl⟩ | ⟨_, hx⟩
        · rfl
        · cases hc j x hx hxcs
    · have hi := hc i t ht hcs
      subst hi
      refine ⟨none, by rw [hw1]; rfl, ?_, ?_⟩
      · intro j hj; cases hj
      · intro j x hx hxcs
        rcases getElem?_set_cases _ _ _ _ _ hx with ⟨rfl, rfl⟩ | ⟨hne, hx⟩
        · exact absurd hxcs hncs
        · have := hc j x hx hxcs
          simp only [Option.some.injEq] at this
          exact absurd this.symm hne
  · show w.counterMutex =
      wrapInt (c0 + ((List.map hasStored (w.setThread i t1).threads).sum : Nat))
    rw [hthreads]
    have hsum := sum_map_set hasStored s.threads i t t1 ht
    rcases hcount with ⟨h1, h2⟩ | ⟨h1, h2⟩
    · have e : (List.map hasStored (s.threads.set i t1)).sum =
          (List.map hasStored s.threads).sum := by omega
      rw [h1, e, hcnt]
    · have e : (List.map hasStored (s.threads.set i t1)).sum =
          (List.map hasStored s.threads).sum + 1 := by omega
      rw [h1, e, hcnt, wrapInt_wrapInt_add]
      congr 1
      push_cast
      omega
  · intro x hx hfn hlen
    rw [hthreads] at hx
    obtain ⟨j, hj⟩ := List.getElem?_of_mem hx
    rcases getElem?_set_cases _ _ _ _ _ hj with ⟨rfl, rfl⟩ | ⟨hne, hj⟩
    · exact hloaded hfn hlen
    · have hxold := hld x (List.getElem?_mem hj) hfn hlen
      rcases hothers with he | hcs
      · show x.loc = w.counterMutex
        rw [he]; exact hxold
      · have hxcs : InCS x := ⟨hfn, by omega, by omega⟩
        have h1 := hc j x hj hxcs
        have h2 := hc i t ht hcs
        rw [h1] at h2
        simp only [Option.some.injEq] at h2
        exact absurd h2 hne

theorem isWriter_sum_set (s w : World) (i : Nat) (t t1 : Thread)
    (ht : s.threads[i]? = some t) (hw : w.threads = s.threads) (hfn : t1.fn = t.fn) :
    ((w.setThread i t1).threads.map isWriter).sum = (s.threads.map isWriter).sum := by
  have hthreads : (w.setThread i t1).threads = s.threads.set i t1 := by
    simp [World.setThread, hw]
  rw [hthreads]
  have := sum_map_set isWriter s.threads i t t1 ht
  have e : isWriter t1 = isWriter t := by simp [isWriter, hfn]
  omega

theorem sayHelloMutex_ne : sayHelloMutex ≠ incrementMutex := by decide

/-- A step of a goroutine of `sayHelloMutex` keeps the discipline. -/
theorem MutexInv.update_reader (c0 : Int) (s w : World) (i : Nat) (t t1 : Thread)
    (hinv : MutexInv c0 s) (ht : s.threads[i]? = some t) (hw : w.threads = s.threads)
    (hf : t.fn = sayHelloMutex) (hfn : t1.fn = t.fn) (hpool : PoolThread t1)
    (hwr : w.mtx.writer = s.mtx.writer) (hcm : w.counterMutex = s.counterMutex) :
    MutexInv c0 (w.setThread i t1) := by
  have hn : t.fn ≠ incrementMutex := by rw [hf]; exact sayHelloMutex_ne
  have hn1 : t1.fn ≠ incrementMutex := by rw [hfn]; exact hn
  refine MutexInv.update c0 s w i t t1 hinv ht hw hpool
    (Or.inl ⟨hwr, ⟨fun h => absurd h.1 hn1, fun h => absurd h.1 hn⟩⟩) ?_ ?_ (Or.inl hcm)
  · exact Or.inl ⟨hcm, by simp [hasStored, hn, hn1]⟩
  · intro h; exact absurd h hn1

/-- A step of a goroutine of `mutexExample` keeps the lock discipline and the
functions the goroutines run. -/
theorem stepThread_mutexInv (c0 : Int) (s s1 : World) (i : Nat) (hinv : MutexInv c0 s)
    (h : s.stepThread i = some s1) :
    MutexInv c0 s1 ∧ (s1.threads.map isWriter).sum = (s.threads.map isWriter).sum := by
  cases ht : s.threads[i]? with
  | none => simp [World.stepThread, ht] at h
  | some t =>
    obtain ⟨hpark, hfn, k, hcode⟩ := hinv.1 t (List.getElem?_mem ht)
    rcases hfn with hf | hf
    · rw [hf] at hcode
      rcases Nat.lt_or_ge k 5 with hk | hk
      · interval_cases k
        · -- mtx.Lock()
          have hc : t.code = .lock :: [.load .counterMutex, .store .counterMutex, .unlock,
            .wgDone] := hcode
          rw [stepThread_lock s i t _ ht hpark hc] at h
          split at h
          · cases h
          · rename_i hcond
            cases h
            have hw0 : s.mtx.writer = false := by
              cases hwr : s.mtx.writer with
              | false => rfl
              | true => simp [hwr] at hcond
            refine ⟨MutexInv.update c0 s _ i t _ hinv ht rfl ⟨hpark, Or.inl hf, 1, by rw [hf]; rfl⟩
              (Or.inr (Or.inl ⟨hw0, rfl, hf, by simp, by simp⟩)) ?_ ?_ (Or.inl rfl),
              isWriter_sum_set s _ i t _ ht rfl rfl⟩
            · exact Or.inl ⟨rfl, by simp [hasStored, hc]⟩
            · intro _ hl; simp at hl
        · -- the read of counterMutex
          have hc : t.code = .load .counterMutex :: [.store .counterMutex, .unlock, .wgDone] :=
            hcode
          rw [stepThread_load s i t _ _ ht hpark hc] at h
          cases h
          refine ⟨MutexInv.update c0 s s i t _ hinv ht rfl ⟨hpark, Or.inl hf, 2, by rw [hf]; rfl⟩
            (Or.inl ⟨rfl, ⟨fun _ => ⟨hf, by simp [hc], by simp [hc]⟩,
              fun _ => ⟨hf, by simp, by simp⟩⟩⟩) ?_ ?_ (Or.inl rfl),
            isWriter_sum_set s s i t _ ht rfl rfl⟩
          · exact Or.inl ⟨rfl, by simp [hasStored, hc]⟩
          · intro _ _; rfl
        · -- the write of counterMutex
          have hc : t.code = .store .counterMutex :: [.unlock, .wgDone] := hcode
          rw [stepThread_store s i t _ _ ht hpark hc] at h
          cases h
          have hloc : t.loc = s.counterMutex :=
            hinv.2.2.2 t (List.getElem?_mem ht) hf (by simp [hc])
          have hcs : InCS t := ⟨hf, by simp [hc], by simp [hc]⟩
          refine ⟨MutexInv.update c0 s _ i t _ hinv ht rfl ⟨hpark, Or.inl hf, 3, by rw [hf]; rfl⟩
            (Or.inl ⟨rfl, ⟨fun _ => hcs, fun _ => ⟨hf, by simp, by simp⟩⟩⟩) ?_ ?_ (Or.inr hcs),
            isWriter_sum_set s _ i t _ ht rfl rfl⟩
          · refine Or.inr ⟨?_, by simp [hasStored, hc, hf]⟩
            show wrapInt (t.loc + 1) = _
            rw [hloc]
          · intro _ hl; simp at hl
        · -- mtx.Unlock()
          have hc : t.code = .unlock :: [.wgDone] := hcode
          rw [stepThread_unlock s i t _ ht hpark hc] at h
          split at h
          · cases h
            have hcs : InCS t := ⟨hf, by simp [hc], by simp [hc]⟩
            refine ⟨MutexInv.update c0 s _ i t _ hinv ht rfl
              ⟨hpark, Or.inl hf, 4, by rw [hf]; rfl⟩
              (Or.inr (Or.inr ⟨hcs, rfl, fun h => by have := h.2.1; simp at this⟩)) ?_ ?_
              (Or.inl rfl), isWriter_sum_set s _ i t _ ht rfl rfl⟩
            · exact Or.inl ⟨rfl, by simp [hasStored, hc, hf]⟩
            · intro _ hl; simp at hl
          · cases h
            exact ⟨MutexInv.congr c0 s _ hinv rfl rfl rfl, rfl⟩
        · -- wg.Done()
          have hc : t.code = .wgDone :: [] := hcode
          rw [stepThread_wgDone s i t _ ht hpark hc] at h
          split at h
          · cases h
            exact ⟨MutexInv.congr c0 s _ hinv rfl rfl rfl, rfl⟩
          · cases h
            refine ⟨MutexInv.update c0 s _ i t _ hinv ht rfl
              ⟨hpark, Or.inl hf, 5, by rw [hf]; rfl⟩
              (Or.inl ⟨rfl, ⟨fun h => by have := h.2.1; simp at this,
                fun h => by have := h.2.1; simp [hc] at this⟩⟩) ?_ ?_ (Or.inl rfl),
              isWriter_sum_set s _ i t _ ht rfl rfl⟩
            · exact Or.inl ⟨rfl, by simp [hasStored, hc, hf]⟩
            · intro _ hl; simp at hl
      · have hnil : t.code = [] := by
          rw [hcode]; exact List.drop_eq_nil_of_le (by simpa [incrementMutex, inc] using hk)
        simp [World.stepThread, ht, hpark, hnil] at h
    · rw [hf] at hcode
      rcases Nat.lt_or_ge k 4 with hk | hk
      · interval_cases k
        · have hc : t.code = .rLock :: [.printHello .counterMutex, .rUnlock, .wgDone] := hcode
          rw [stepThread_rLock s i t _ ht hpark hc] at h
          split at h
          · cases h
          · cases h
            exact ⟨MutexInv.update_reader c0 s _ i t _ hinv ht rfl hf rfl
              ⟨hpark, Or.inr hf, 1, by rw [hf]; rfl⟩ rfl rfl,
              isWriter_sum_set s _ i t _ ht rfl rfl⟩
        · have hc : t.code = .printHello .counterMutex :: [.rUnlock, .wgDone] := hcode
          rw [stepThread_printHello s i t _ _ ht hpark hc] at h
          cases h
          exact ⟨MutexInv.update_reader c0 s _ i t _ hinv ht rfl hf rfl
            ⟨hpark, Or.inr hf, 2, by rw [hf]; rfl⟩ rfl rfl,
            isWriter_sum_set s _ i t _ ht rfl rfl⟩
        · have hc : t.code = .rUnlock :: [.wgDone] := hcode
          rw [stepThread_rUnlock s i t _ ht hpark hc] at h
          split at h
          · cases h
            exact ⟨MutexInv.congr c0 s _ hinv rfl rfl rfl, rfl⟩
          · cases h
            exact ⟨MutexInv.update_reader c0 s _ i t _ hinv ht rfl hf rfl
              ⟨hpark, Or.inr hf, 3, by rw [hf]; rfl⟩ rfl rfl,
              isWriter_sum_set s _ i t _ ht rfl rfl⟩
        · have hc : t.code = .wgDone :: [] := hcode
          rw [stepThread_wgDone s i t _ ht hpark hc] at h
          split at h
          · cases h
            exact ⟨MutexInv.congr c0 s _ hinv rfl rfl rfl, rfl⟩
          · cases h
            exact ⟨MutexInv.update_reader c0 s _ i t _ hinv ht rfl hf rfl
              ⟨hpark, Or.inr hf, 4, by rw [hf]; rfl⟩ rfl rfl,
              isWriter_sum_set s _ i t _ ht rfl rfl⟩
      · have hnil : t.code = [] := by
          rw [hcode]; exact List.drop_eq_nil_of_le (by simpa [sayHelloMutex] using hk)
        simp [World.stepThread, ht, hpark, hnil] at h

/-- Starting a goroutine of `mutexExample` keeps the lock discipline. -/
theorem MutexInv.spawn (c0 : Int) (s s1 : World) (body : List Op) (hinv : MutexInv c0 s)
    (hbody : body = incrementMutex ∨ body = sayHelloMutex)
    (h1 : s1.threads = s.threads ++ [⟨body, body, 0, false⟩])
    (h2 : s1.mtx.writer = s.mtx.writer) (h3 : s1.counterMutex = s.counterMutex) :
    MutexInv c0 s1 := by
  obtain ⟨hp, ⟨h, hwr, hb, hc⟩, hcnt, hld⟩ := hinv
  have hfresh : ¬ InCS ⟨body, body, 0, false⟩ := by
    rintro ⟨hfn, _, hlen⟩
    simp only at hfn hlen
    rw [hfn] at hlen
    simp [incrementMutex, inc] at hlen
  have hstored : hasStored ⟨body, body, 0, false⟩ = 0 := by
    rcases hbody with rfl | rfl
    · simp [hasStored, incrementMutex, inc]
    · simp [hasStored, sayHelloMutex_ne]
  unfold MutexInv
  rw [h1, h2, h3]
  refine ⟨?_, ⟨h, hwr, ?_, ?_⟩, ?_, ?_⟩
  · intro x hx
    rcases List.mem_append.mp hx with hx | hx
    · exact hp x hx
    · simp only [List.mem_singleton] at hx
      subst hx
      exact ⟨rfl, hbody, 0, rfl⟩
  · intro i hi
    obtain ⟨x, hx, hxcs⟩ := hb i hi
    have hlt : i < s.threads.length := by
      by_contra hge
      rw [List.getElem?_eq_none (Nat.le_of_not_lt hge)] at hx
      cases hx
    exact ⟨x, by rw [List.getElem?_append_left hlt]; exact hx, hxcs⟩
  · intro j x hx hxcs
    rcases Nat.lt_or_ge j s.threads.length with hlt | hge
    · rw [List.getElem?_append_left hlt] at hx
      exact hc j x hx hxcs
    · rw [List.getElem?_append_right hge] at hx
      have hx' : x = ⟨body, body, 0, false⟩ := by
        have := List.getElem?_mem hx
        simpa using this
      rw [hx'] at hxcs
      exact absurd hxcs hfresh
  · simp [hstored, hcnt]
  · intro x hx hfn hlen
    rcases List.mem_append.mp hx with hx | hx
    · exact hld x hx hfn hlen
    · simp only [List.mem_singleton] at hx
      subst hx
      simp only at hfn hlen
      rw [hfn] at hlen
      simp [incrementMutex, inc] at hlen

theorem getLast?_tail_of_ne_nil {α : Type} (a : α) (rest : List α) (h : rest ≠ []) :
    (a :: rest).getLast? = rest.getLast? := by
  cases rest with
  | nil => exact absurd rfl h
  | cons b bs => simp [List.getLast?_cons_cons]

/-- Every step of the program keeps the states of `mutexExample`. -/
theorem step_poolInv (c0 : Int) (m : Nat) (s s1 : World) (p : Pick) (hinv : PoolInv c0 m s)
    (hs : s.step p = some s1) : PoolInv c0 m s1 := by
  obtain ⟨hmi, hpm, hcount, hlast⟩ := hinv
  have hne : s.main ≠ [] := by
    intro hnil
    rw [step_of_main_nil s p hnil] at hs
    cases hs
  obtain ⟨hgl, hbal⟩ : s.main.getLast? = some .wgWait ∧ s.WgBalanced := by
    rcases hlast with ⟨hnil, _⟩ | h
    · exact absurd hnil hne
    · exact h
  have hbal1 := (World.step_wgBalanced s s1 p hbal hs).1
  have hs' := hs
  unfold World.step at hs
  split at hs
  · cases hs
  · cases hs
  · rename_i st rest hf hmain
    cases p with
    | thread i =>
      simp only at hs
      obtain ⟨h1, h2⟩ := stepThread_mutexInv c0 s s1 i hmi hs
      have hm1 := (World.stepThread_wg s s1 i hs).1
      exact ⟨h1, by rw [hm1]; exact hpm, by rw [h2, hm1]; exact hcount,
        Or.inr ⟨by rw [hm1]; exact hgl, hbal1⟩⟩
    | main =>
      simp only at hs
      have hst : poolStmt st = true := hpm st (by rw [hmain]; simp)
      have hrest : ∀ x ∈ rest, poolStmt x = true := fun x hx =>
        hpm x (by rw [hmain]; exact List.mem_cons_of_mem _ hx)
      have hlast1 : ∀ s2 : World, s2.main = rest → s2.WgBalanced →
          (rest = [] → s2.pendingDones = 0) →
          ((s2.main = [] ∧ s2.pendingDones = 0) ∨
            (s2.main.getLast? = some .wgWait ∧ s2.WgBalanced)) := by
        intro s2 hm2 hb2 hz
        by_cases hr : rest = []
        · exact Or.inl ⟨by rw [hm2, hr], hz hr⟩
        · refine Or.inr ⟨?_, hb2⟩
          rw [hm2, ← getLast?_tail_of_ne_nil st rest hr, ← hmain]
          exact hgl
      have hnotwait : st ≠ .wgWait → rest ≠ [] := by
        intro hst' hr
        rw [hmain, hr] at hgl
        simp at hgl
        exact hst' hgl
      cases st with
      | println str =>
        rw [stepMain_println s _ _ hmain] at hs
        cases hs
        refine ⟨MutexInv.congr c0 s _ hmi rfl rfl rfl, hrest, ?_, ?_⟩
        · rw [hmain] at hcount; simpa [writersToStart] using hcount
        · exact hlast1 _ rfl hbal1 (fun hr => absurd hr (hnotwait (by simp)))
      | gomaxprocs k =>
        rw [stepMain_gomaxprocs s _ _ hmain] at hs
        cases hs
        refine ⟨MutexInv.congr c0 s _ hmi rfl rfl rfl, hrest, ?_, ?_⟩
        · rw [hmain] at hcount; simpa [writersToStart] using hcount
        · exact hlast1 _ rfl hbal1 (fun hr => absurd hr (hnotwait (by simp)))
      | wgAdd k =>
        rw [stepMain_wgAdd s _ _ hmain] at hs
        cases hs
        refine ⟨MutexInv.congr c0 s _ hmi rfl rfl rfl, hrest, ?_, ?_⟩
        · rw [hmain] at hcount; simpa [writersToStart] using hcount
        · exact hlast1 _ rfl hbal1 (fun hr => absurd hr (hnotwait (by simp)))
      | wgWait =>
        obtain ⟨hm1, _, hdone⟩ := World.wait_returns s s1 rest hbal hmain hs'
        rw [stepMain_wgWait s _ hmain] at hs
        split at hs
        · cases hs
          refine ⟨MutexInv.congr c0 s _ hmi rfl rfl rfl, hrest, ?_, ?_⟩
          · rw [hmain] at hcount; simpa [writersToStart] using hcount
          · refine hlast1 _ rfl hbal1 (fun _ => ?_)
            simp only [World.pendingDones]
            apply List.sum_eq_zero_iff.mpr
            intro x hx
            obtain ⟨t, ht, rfl⟩ := List.mem_map.mp hx
            exact hdone t ht
        · cases hs
      | go body =>
        rw [stepMain_go s _ _ hmain] at hs
        cases hs
        have hbody : body = incrementMutex ∨ body = sayHelloMutex := by
          simpa [poolStmt] using hst
        refine ⟨MutexInv.spawn c0 s _ body hmi hbody rfl rfl rfl, hrest, ?_, ?_⟩
        · rw [hmain] at hcount
          simp only [writersToStart] at hcount
          simp only [List.map_append, List.sum_append, List.map_cons, List.map_nil,
            List.sum_cons, List.sum_nil, isWriter]
          omega
        · exact hlast1 _ rfl hbal1 (fun hr => absurd hr (hnotwait (by simp)))
      | rLock => simp [poolStmt] at hst
      | lock => simp [poolStmt] at hst
      | makeChan cap => simp [poolStmt] at hst
      | setMsg str => simp [poolStmt] at hst
      | sleep ms => simp [poolStmt] at hst
      | printTimeWaited => simp [poolStmt] at hst
      | printThreads => simp [poolStmt] at hst

theorem World.step_main_suffix (s s1 : World) (p : Pick) (h : s.step p = some s1) :
    s1.main <:+ s.main := by
  unfold World.step at h
  split at h
  · cases h
  · cases h
  · cases p with
    | thread i =>
      rw [(World.stepThread_wg s s1 i h).1]
    | main =>
      simp only [World.stepMain] at h
      split at h
      · cases h
      all_goals (
        rename_i hm
        first
          | (cases h; rw [hm]; exact List.suffix_cons _ _)
          | (split at h
             · first | (cases h; rw [hm]; exact List.suffix_cons _ _) | cases h
             · first | (cases h; rw [hm]; exact List.suffix_cons _ _) | cases h))

theorem World.exec_main_suffix (sched : List Pick) : ∀ s : World,
    (s.exec sched).main <:+ s.main := by
  induction sched with
  | nil => intro s; exact List.suffix_refl _
  | cons p ps ih =>
    intro s
    simp only [World.exec]
    cases hs : s.step p with
    | none => exact ih s
    | some s1 => exact (ih s1).trans (World.step_main_suffix s s1 p hs)

theorem exec_poolInv (c0 : Int) (m : Nat) (sched : List Pick) : ∀ s : World, PoolInv c0 m s →
    PoolInv c0 m (s.exec sched) := by
  induction sched with
  | nil => intro s h; exact h
  | cons p ps ih =>
    intro s h
    simp only [World.exec]
    cases hs : s.step p with
    | none => exact ih s h
    | some s1 => exact ih s1 (step_poolInv c0 m s s1 p h hs)

/-- Goroutines that are all just started, with the write lock free, respect
the discipline. -/
theorem MutexInv.of_fresh (c0 : Int) (s : World)
    (hths : ∀ t ∈ s.threads, t.parked = false ∧ t.code = t.fn ∧
      (t.fn = incrementMutex ∨ t.fn = sayHelloMutex))
    (hw : s.mtx.writer = false) (hc : s.counterMutex = c0) (hr : wrapInt c0 = c0) :
    MutexInv c0 s := by
  have hncs : ∀ t ∈ s.threads, ¬ InCS t := by
    rintro t ht ⟨hfn, _, hlen⟩
    obtain ⟨_, hcode, _⟩ := hths t ht
    rw [hcode, hfn] at hlen
    simp [incrementMutex, inc] at hlen
  refine ⟨?_, ⟨none, by rw [hw]; rfl, ?_, ?_⟩, ?_, ?_⟩
  · intro t ht
    obtain ⟨hp, hcode, hfn⟩ := hths t ht
    exact ⟨hp, hfn, 0, by rw [hcode]; rfl⟩
  · intro i hi; cases hi
  · intro i t ht hcs
    exact absurd hcs (hncs t (List.getElem?_mem ht))
  · have hz : (s.threads.map hasStored).sum = 0 := by
      apply List.sum_eq_zero_iff.mpr
      intro x hx
      obtain ⟨t, ht, rfl⟩ := List.mem_map.mp hx
      obtain ⟨_, hcode, hfn⟩ := hths t ht
      rcases hfn with hfn | hfn
      · simp [hasStored, hcode, hfn, incrementMutex, inc]
      · simp [hasStored, hfn, sayHelloMutex_ne]
    rw [hz, hc]
    simp [hr]
  · intro t ht hfn hlen
    obtain ⟨_, hcode, _⟩ := hths t ht
    rw [hcode, hfn] at hlen
    simp [incrementMutex, inc] at hlen

theorem sum_map_replicate {α : Type} (f : α → Nat) (k : Nat) (a : α) :
    ((List.replicate k a).map f).sum = k * f a := by
  induction k with
  | zero => simp
  | succ k ih => simp [List.replicate_succ, ih, Nat.succ_mul, Nat.add_comm]

theorem writersWorld_poolInv (M R : Nat) (c0 : Int) (hr : wrapInt c0 = c0) :
    PoolInv c0 M (writersWorld M R c0) := by
  refine ⟨MutexInv.of_fresh c0 _ ?_ rfl rfl hr, ?_, ?_, Or.inr ⟨rfl, 0, rfl, ?_⟩⟩
  · intro t ht
    simp only [writersWorld, List.mem_append, List.mem_replicate] at ht
    rcases ht with ⟨_, rfl⟩ | ⟨_, rfl⟩
    · exact ⟨rfl, rfl, Or.inl rfl⟩
    · exact ⟨rfl, rfl, Or.inr rfl⟩
  · intro st hst
    simp only [writersWorld, List.mem_singleton] at hst
    subst hst
    rfl
  · simp only [writersWorld, List.map_append, List.sum_append, sum_map_replicate,
      writersToStart]
    simp [isWriter, sayHelloMutex_ne]
  · simp only [writersWorld, World.pendingDones, List.map_append, List.sum_append,
      sum_map_replicate]
    have e1 : dones incrementMutex = 1 := by decide
    have e2 : dones sayHelloMutex = 1 := by decide
    simp [e1, e2]

theorem mem_forN {k : Nat} {body : List Stmt} {st : Stmt} (h : st ∈ forN k body) :
    st ∈ body := by
  induction k with
  | zero => simp [forN] at h
  | succ k ih =>
    rw [forN_succ] at h
    rcases List.mem_append.mp h with h | h
    · exact h
    · exact ih h

theorem writersToStart_append (a b : List Stmt) :
    writersToStart (a ++ b) = writersToStart a + writersToStart b := by
  induction a with
  | nil => simp [writersToStart]
  | cons st rest ih =>
    cases st <;> simp [writersToStart, ih, Nat.add_assoc]

theorem writersToStart_forN (k : Nat) : writersToStart (forN k mutexBody) = k := by
  induction k with
  | zero => simp [forN, writersToStart]
  | succ k ih =>
    rw [forN_succ, writersToStart_append, ih]
    have : writersToStart mutexBody = 1 := by decide
    omega

theorem matchedFrom_forN (k : Nat) (rest : List Stmt) :
    matchedFrom 0 (forN k mutexBody ++ rest) = matchedFrom 0 rest := by
  induction k with
  | zero => simp [forN]
  | succ k ih =>
    rw [forN_succ, List.append_assoc]
    have e1 : dones sayHelloMutex = 1 := by decide
    have e2 : dones incrementMutex = 1 := by decide
    have e3 : sayHelloMutex.getLast? = some .wgDone := by decide
    have e4 : incrementMutex.getLast? = some .wgDone := by decide
    have hbody : ∀ r, matchedFrom 0 (mutexBody ++ r) = matchedFrom 0 r := by
      intro r
      simp [mutexBody, matchedFrom, e1, e2, e3, e4]
    rw [hbody, ih]

theorem mutexExampleN_poolInv (n : Nat) : PoolInv 0 n (World.init (mutexExampleN n)) := by
  refine ⟨MutexInv.of_fresh 0 _ ?_ rfl rfl (by decide), ?_, ?_, Or.inr ⟨?_, 0, ?_, rfl⟩⟩
  · intro t ht; simp [World.init] at ht
  · intro st hst
    have hst' : st ∈ [Stmt.println "Simple RWMutex example:", Stmt.gomaxprocs 100] ++
        forN n mutexBody ++ [Stmt.wgWait] := hst
    rcases List.mem_append.mp hst' with h | h
    · rcases List.mem_append.mp h with h | h
      · simp only [List.mem_cons, List.mem_singleton, List.not_mem_nil, or_false] at h
        rcases h with rfl | rfl <;> rfl
      · have := mem_forN h
        simp only [mutexBody, List.mem_cons, List.mem_singleton, List.not_mem_nil,
          or_false] at this
        rcases this with rfl | rfl | rfl <;> rfl
    · simp only [List.mem_singleton] at h
      subst h
      rfl
  · simp only [World.init, mutexExampleN, List.map_nil, List.sum_nil, Nat.zero_add,
      writersToStart_append, writersToStart_forN]
    simp [writersToStart]
  · exact List.getLast?_concat _
  · show matchedFrom 0 (forN n mutexBody ++ [.wgWait]) = true
    rw [matchedFrom_forN]
    rfl

theorem hasStored_le_isWriter (t : Thread) : hasStored t ≤ isWriter t := by
  unfold hasStored isWriter
  split
  · rename_i h; simp [h.1]
  · exact Nat.zero_le _

theorem sum_map_le {α : Type} (f g : α → Nat) (l : List α) (h : ∀ a ∈ l, f a ≤ g a) :
    (l.map f).sum ≤ (l.map g).sum := by
  induction l with
  | nil => simp
  | cons x xs ih =>
    simp only [List.map_cons, List.sum_cons]
    have h1 := h x (List.mem_cons_self _ _)
    have h2 := ih (fun a ha => h a (List.mem_cons_of_mem _ ha))
    omega

theorem sum_map_eq {α : Type} (f g : α → Nat) (l : List α) (h : ∀ a ∈ l, f a = g a) :
    (l.map f).sum = (l.map g).sum := by
  induction l with
  | nil => simp
  | cons x xs ih =>
    simp only [List.map_cons, List.sum_cons]
    rw [h x (List.mem_cons_self _ _), ih (fun a ha => h a (List.mem_cons_of_mem _ ha))]

/-- A goroutine of `mutexExample` that has no call of `wg.Done()` left has
finished; if it runs `incrementMutex` it has written `counterMutex`. -/
theorem hasStored_of_done (t : Thread) (hp : PoolThread t) (hd : dones t.code = 0) :
    hasStored t = isWriter t := by
  obtain ⟨_, hfn, k, hcode⟩ := hp
  rcases hfn with hf | hf
  · rw [hf] at hcode
    rcases Nat.lt_or_ge k 5 with hk | hk
    · rw [hcode] at hd
      interval_cases k <;> simp [dones, incrementMutex, inc] at hd
    · have hnil : t.code = [] := by
        rw [hcode]; exact List.drop_eq_nil_of_le (by simpa [incrementMutex, inc] using hk)
      simp [hasStored, isWriter, hf, hnil]
  · simp [hasStored, isWriter, hf, sayHelloMutex_ne]

/-- What the states of `mutexExample` say of `counterMutex`: it is `c0` plus
the number of goroutines that have written it, as an `int`; that number is
`m` when all goroutines have finished and when `main` has returned. -/
theorem poolInv_counter (c0 : Int) (m : Nat) (s : World) (h : PoolInv c0 m s) :
    (∃ k : Nat, k ≤ m ∧ s.counterMutex = wrapInt (c0 + k)) ∧
      ((∀ t ∈ s.threads, t.code = []) → writersToStart s.main = 0 →
        s.counterMutex = wrapInt (c0 + m)) ∧
      (s.main = [] → s.counterMutex = wrapInt (c0 + m)) := by
  obtain ⟨⟨hp, _, hcnt, _⟩, _, hcount, hlast⟩ := h
  have hle := sum_map_le hasStored isWriter s.threads (fun t _ => hasStored_le_isWriter t)
  refine ⟨⟨_, by omega, hcnt⟩, ?_, ?_⟩
  · intro hfin hz
    have := sum_map_eq hasStored isWriter s.threads (fun t ht =>
      hasStored_of_done t (hp t ht) (by rw [hfin t ht]; rfl))
    have e : (s.threads.map hasStored).sum = m := by omega
    rw [hcnt, e]
  · intro hnil
    rcases hlast with ⟨_, hpd⟩ | ⟨hgl, _⟩
    · have hz : ∀ t ∈ s.threads, dones t.code = 0 := by
        intro t ht
        simp only [World.pendingDones] at hpd
        exact List.sum_eq_zero_iff.mp hpd _ (List.mem_map.mpr ⟨t, ht, rfl⟩)
      have := sum_map_eq hasStored isWriter s.threads (fun t ht =>
        hasStored_of_done t (hp t ht) (hz t ht))
      rw [hnil] at hcount
      simp only [writersToStart] at hcount
      have e : (s.threads.map hasStored).sum = m := by omega
      rw [hcnt, e]
    · rw [hnil] at hgl; simp at hgl

/-- In a run with `M` goroutines of `incrementMutex`, `main` is in its call of
`wg.Wait()` or has returned, and it starts no goroutine any more. -/
theorem writersWorld_main (M R : Nat) (c0 : Int) (sched : List Pick) :
    writersToStart ((writersWorld M R c0).exec sched).main = 0 := by
  have hsuf := World.exec_main_suffix sched (writersWorld M R c0)
  have hmain : ((writersWorld M R c0).exec sched).main = [] ∨
      ((writersWorld M R c0).exec sched).main = [.wgWait] := by
    have : ((writersWorld M R c0).exec sched).main <:+ [Stmt.wgWait] := hsuf
    rcases List.suffix_cons_iff.mp this with h | h
    · exact Or.inr h
    · exact Or.inl (List.suffix_nil.mp h)
  rcases hmain with h | h <;> rw [h] <;> rfl

end Goroutines

/-! ## Part 6, theorems: no lost update in `mutexExample` -/

namespace Goroutines

open Runtime

/-- The read side of the lock depends on the goroutines and the lock only. -/
theorem readersInv_congr (s s1 : World) (h : ReadersInv s) (h1 : s1.threads = s.threads)
    (h2 : s1.mtx = s.mtx) : ReadersInv s1 := by
  unfold ReadersInv at h ⊢
  rw [h1, h2]
  exact h

/-- The read side of the lock is kept when one goroutine takes a step that
respects it. -/
theorem readersInv_update (s w : World) (i : Nat) (t t1 : Thread) (hr : ReadersInv s)
    (ht : s.threads[i]? = some t) (hw : w.threads = s.threads)
    (hcount : w.mtx.readers + holdsRead t = s.mtx.readers + holdsRead t1)
    (hwr : w.mtx.writer = true → w.mtx.readers = 0) : ReadersInv (w.setThread i t1) := by
  have hthreads : (w.setThread i t1).threads = s.threads.set i t1 := by
    simp [World.setThread, hw]
  have hmtx : (w.setThread i t1).mtx = w.mtx := rfl
  have hsum := sum_map_set holdsRead s.threads i t t1 ht
  have h1 := hr.1
  unfold ReadersInv
  rw [hthreads, hmtx]
  exact ⟨by omega, hwr⟩

theorem incrementMutex_ne : incrementMutex ≠ sayHelloMutex := by decide

/-- A step of a goroutine of `mutexExample` keeps the read side of the lock. -/
theorem stepThread_readersInv (s s1 : World) (i : Nat) (hp : ∀ t ∈ s.threads, PoolThread t)
    (hr : ReadersInv s) (h : s.stepThread i = some s1) : ReadersInv s1 := by
  cases ht : s.threads[i]? with
  | none => simp [World.stepThread, ht] at h
  | some t =>
    obtain ⟨hpark, hfn, k, hcode⟩ := hp t (List.getElem?_mem ht)
    rcases hfn with hf | hf
    · rw [hf] at hcode
      have hn : t.fn ≠ sayHelloMutex := by rw [hf]; exact incrementMutex_ne
      have h0 : ∀ c l, holdsRead { t with code := c, loc := l } = 0 := by
        intro c l; simp [holdsRead, hn]
      have h0' : holdsRead t = 0 := by simp [holdsRead, hn]
      rcases Nat.lt_or_ge k 5 with hk | hk
      · interval_cases k
        · have hc : t.code = .lock :: [.load .counterMutex, .store .counterMutex, .unlock,
            .wgDone] := hcode
          rw [stepThread_lock s i t _ ht hpark hc] at h
          split at h
          · cases h
          · rename_i hcond
            cases h
            have hr0 : s.mtx.readers = 0 := by
              by_contra hne
              simp [hne] at hcond
            refine readersInv_update s _ i t _ hr ht rfl ?_ (fun _ => hr0)
            have := h0 [.load .counterMutex, .store .counterMutex, .unlock, .wgDone] t.loc
            simp only [h0']
            omega
        · have hc : t.code = .load .counterMutex :: [.store .counterMutex, .unlock, .wgDone] :=
            hcode
          rw [stepThread_load s i t _ _ ht hpark hc] at h
          cases h
          refine readersInv_update s s i t _ hr ht rfl ?_ hr.2
          rw [h0', h0]
        · have hc : t.code = .store .counterMutex :: [.unlock, .wgDone] := hcode
          rw [stepThread_store s i t _ _ ht hpark hc] at h
          cases h
          refine readersInv_update s _ i t _ hr ht rfl ?_ hr.2
          have := h0 [.unlock, .wgDone] t.loc
          simp only [h0']
          show s.mtx.readers + 0 = s.mtx.readers + _
          omega
        · have hc : t.code = .unlock :: [.wgDone] := hcode
          rw [stepThread_unlock s i t _ ht hpark hc] at h
          split at h
          · cases h
            refine readersInv_update s _ i t _ hr ht rfl ?_ (fun hw => by simp at hw)
            have := h0 [.wgDone] t.loc
            simp only [h0']
            omega
          · cases h
            exact readersInv_congr s _ hr rfl rfl
        · have hc : t.code = .wgDone :: [] := hcode
          rw [stepThread_wgDone s i t _ ht hpark hc] at h
          split at h
          · cases h
            exact readersInv_congr s _ hr rfl rfl
          · cases h
            refine readersInv_update s _ i t _ hr ht rfl ?_ hr.2
            have := h0 [] t.loc
            simp only [h0']
            omega
      · have hnil : t.code = [] := by
          rw [hcode]; exact List.drop_eq_nil_of_le (by simpa [incrementMutex, inc] using hk)
        simp [World.stepThread, ht, hpark, hnil] at h
    · rw [hf] at hcode
      rcases Nat.lt_or_ge k 4 with hk | hk
      · interval_cases k
        · have hc : t.code = .rLock :: [.printHello .counterMutex, .rUnlock, .wgDone] := hcode
          rw [stepThread_rLock s i t _ ht hpark hc] at h
          split at h
          · cases h
          · rename_i hcond
            cases h
            refine readersInv_update s _ i t _ hr ht rfl ?_ (fun hw => absurd hw hcond)
            simp [holdsRead, hf, hc]
        · have hc : t.code = .printHello .counterMutex :: [.rUnlock, .wgDone] := hcode
          rw [stepThread_printHello s i t _ _ ht hpark hc] at h
          cases h
          refine readersInv_update s _ i t _ hr ht rfl ?_ hr.2
          simp [holdsRead, hf, hc]
        · have hc : t.code = .rUnlock :: [.wgDone] := hcode
          rw [stepThread_rUnlock s i t _ ht hpark hc] at h
          split at h
          · cases h
            exact readersInv_congr s _ hr rfl rfl
          · rename_i hne
            cases h
            refine readersInv_update s _ i t _ hr ht rfl ?_ ?_
            · have e1 : holdsRead t = 1 := by simp [holdsRead, hf, hc]
              have e2 : holdsRead { t with code := [.wgDone] } = 0 := by simp [holdsRead]
              rw [e1, e2]
              show s.mtx.readers - 1 + 1 = s.mtx.readers + 0
              omega
            · intro hw
              have := hr.2 hw
              exact absurd this hne
        · have hc : t.code = .wgDone :: [] := hcode
          rw [stepThread_wgDone s i t _ ht hpark hc] at h
          split at h
          · cases h
            exact readersInv_congr s _ hr rfl rfl
          · cases h
            refine readersInv_update s _ i t _ hr ht rfl ?_ hr.2
            simp [holdsRead, hf, hc]
      · have hnil : t.code = [] := by
          rw [hcode]; exact List.drop_eq_nil_of_le (by simpa [sayHelloMutex] using hk)
        simp [World.stepThread, ht, hpark, hnil] at h

/-- Every step of a run of `mutexExample` keeps the read side of the lock. -/
theorem step_readersInv (c0 : Int) (m : Nat) (s s1 : World) (p : Pick) (hinv : PoolInv c0 m s)
    (hr : ReadersInv s) (hs : s.step p = some s1) : ReadersInv s1 := by
  obtain ⟨hmi, hpm, _, _⟩ := hinv
  unfold World.step at hs
  split at hs
  · cases hs
  · cases hs
  · rename_i st rest hf hmain
    cases p with
    | thread i => exact stepThread_readersInv s s1 i hmi.1 hr hs
    | main =>
      simp only at hs
      have hst : poolStmt st = true := hpm st (by rw [hmain]; simp)
      cases st with
      | println str =>
        rw [stepMain_println s _ _ hmain] at hs
        cases hs
        exact readersInv_congr s _ hr rfl rfl
      | gomaxprocs k =>
        rw [stepMain_gomaxprocs s _ _ hmain] at hs
        cases hs
        exact readersInv_congr s _ hr rfl rfl
      | wgAdd k =>
        rw [stepMain_wgAdd s _ _ hmain] at hs
        cases hs
        exact readersInv_congr s _ hr rfl rfl
      | wgWait =>
        rw [stepMain_wgWait s _ hmain] at hs
        split at hs
        · cases hs
          exact readersInv_congr s _ hr rfl rfl
        · cases hs
      | go body =>
        rw [stepMain_go s _ _ hmain] at hs
        cases hs
        have hbody : body = incrementMutex ∨ body = sayHelloMutex := by
          simpa [poolStmt] using hst
        have hfresh : holdsRead ⟨body, body, 0, false⟩ = 0 := by
          rcases hbody with rfl | rfl
          · simp [holdsRead, incrementMutex_ne]
          · simp [holdsRead, sayHelloMutex]
        unfold ReadersInv
        simp only [List.map_append, List.sum_append, List.map_cons, List.map_nil,
          List.sum_cons, List.sum_nil, hfresh, Nat.add_zero]
        exact hr
      | rLock => simp [poolStmt] at hst
      | lock => simp [poolStmt] at hst
      | makeChan cap => simp [poolStmt] at hst
      | setMsg str => simp [poolStmt] at hst
      | sleep ms => simp [poolStmt] at hst
      | printTimeWaited => simp [poolStmt] at hst
      | printThreads => simp [poolStmt] at hst

/-- Every run of `mutexExample` keeps the read side of the lock. -/
theorem exec_readersInv (c0 : Int) (m : Nat) (sched : List Pick) : ∀ s : World, PoolInv c0 m s →
    ReadersInv s → ReadersInv (s.exec sched) := by
  induction sched with
  | nil => intro s _ h; exact h
  | cons p ps ih =>
    intro s hp hr
    simp only [World.exec]
    cases hs : s.step p with
    | none => exact ih s hp hr
    | some s1 =>
      exact ih s1 (step_poolInv c0 m s s1 p hp hs) (step_readersInv c0 m s s1 p hp hr hs)


/-! ### `mutexExample` runs to its end -/

/-- The statement a goroutine of `mutexExample` is at: a statement of
`incrementMutex` or of `sayHelloMutex`, the write lock being held at
`mtx.Unlock()` and a read lock at `mtx.RUnlock()`. -/
theorem pool_head (c0 : Int) (m : Nat) (s : World) (i : Nat) (t : Thread) (op : Op)
    (rest : List Op) (hinv : PoolInv c0 m s) (hr : ReadersInv s)
    (ht : s.threads[i]? = some t) (hc : t.code = op :: rest) :
    t.parked = false ∧
      (op = .lock ∨ op = .rLock ∨ op = .wgDone ∨ op = .load .counterMutex ∨
        op = .store .counterMutex ∨ op = .printHello .counterMutex ∨
        (op = .unlock ∧ s.mtx.writer = true) ∨ (op = .rUnlock ∧ s.mtx.readers ≠ 0)) := by
  obtain ⟨⟨hp, ⟨h, hwr, hb, hcs⟩, _, _⟩, _, _, _⟩ := hinv
  obtain ⟨hpark, hfn, k, hcode⟩ := hp t (List.getElem?_mem ht)
  refine ⟨hpark, ?_⟩
  rcases hfn with hf | hf
  · rw [hf, hc] at hcode
    rcases Nat.lt_or_ge k 5 with hk | hk
    · interval_cases k
      · cases hcode; exact Or.inl rfl
      · cases hcode; exact Or.inr (Or.inr (Or.inr (Or.inl rfl)))
      · cases hcode; exact Or.inr (Or.inr (Or.inr (Or.inr (Or.inl rfl))))
      · cases hcode
        have hh := hcs i t ht ⟨hf, by simp [hc], by simp [hc]⟩
        have hw : s.mtx.writer = true := by rw [hwr, hh]; rfl
        exact Or.inr (Or.inr (Or.inr (Or.inr (Or.inr (Or.inr (Or.inl ⟨rfl, hw⟩))))))
      · cases hcode; exact Or.inr (Or.inr (Or.inl rfl))
    · rw [List.drop_eq_nil_of_le (by simpa [incrementMutex, inc] using hk)] at hcode
      cases hcode
  · rw [hf, hc] at hcode
    rcases Nat.lt_or_ge k 4 with hk | hk
    · interval_cases k
      · cases hcode; exact Or.inr (Or.inl rfl)
      · cases hcode; exact Or.inr (Or.inr (Or.inr (Or.inr (Or.inr (Or.inl rfl)))))
      · cases hcode
        have h1 : holdsRead t = 1 := by simp [holdsRead, hf, hc]
        have h2 := le_sum_map_of_getElem? holdsRead s.threads i t ht
        have h3 : s.mtx.readers ≠ 0 := by rw [hr.1]; omega
        exact Or.inr (Or.inr (Or.inr (Or.inr (Or.inr (Or.inr (Or.inr ⟨rfl, h3⟩))))))
      · cases hcode; exact Or.inr (Or.inr (Or.inl rfl))
    · rw [List.drop_eq_nil_of_le (by simpa [sayHelloMutex] using hk)] at hcode
      cases hcode

/-- Every step of a goroutine in a run of `mutexExample` raises no panic,
parks nobody and is one statement less to run. -/
theorem pool_stepThread_sound (c0 : Int) (m : Nat) (s s1 : World) (i : Nat)
    (hinv : PoolInv c0 m s) (hr : ReadersInv s) (hs : Sound s)
    (h : s.stepThread i = some s1) :
    s1.fault = none ∧ (∀ x ∈ s1.threads, x.parked = false) ∧ todo s1 < todo s := by
  obtain ⟨hb, hf, hp⟩ := hs
  cases ht : s.threads[i]? with
  | none => simp [World.stepThread, ht] at h
  | some t =>
    cases hc : t.code with
    | nil =>
      have hpark := hp t (List.getElem?_mem ht)
      simp [World.stepThread, ht, hpark, hc] at h
    | cons op rest =>
      have hlen : ({ t with code := rest } : Thread).code.length + 1 = t.code.length := by
        simp [hc]
      obtain ⟨hpark, hop⟩ := pool_head c0 m s i t op rest hinv hr ht hc
      rcases hop with rfl | rfl | rfl | rfl | rfl | rfl | ⟨rfl, hw⟩ | ⟨rfl, hrd⟩
      · rw [stepThread_lock s i t _ ht hpark hc] at h
        split at h
        · cases h
        · cases h
          exact sound_setThread s _ i t _ ht rfl rfl hf hp hpark hlen
      · rw [stepThread_rLock s i t _ ht hpark hc] at h
        split at h
        · cases h
        · cases h
          exact sound_setThread s _ i t _ ht rfl rfl hf hp hpark hlen
      · rw [stepThread_wgDone s i t _ ht hpark hc] at h
        obtain ⟨owed, _, hwg⟩ := hb
        have hle := World.le_pendingDones s i t ht
        have hd : 1 ≤ dones t.code := by simp [hc, dones]
        have hwg0 : s.wg ≠ 0 := by omega
        simp only [hwg0, if_false] at h
        cases h
        exact sound_setThread s _ i t _ ht rfl rfl hf hp hpark hlen
      · rw [stepThread_load s i t _ _ ht hpark hc] at h
        cases h
        exact sound_setThread s _ i t _ ht rfl rfl hf hp hpark (by simp [hc])
      · rw [stepThread_store s i t _ _ ht hpark hc] at h
        cases h
        exact sound_setThread s _ i t _ ht rfl rfl hf hp hpark hlen
      · rw [stepThread_printHello s i t _ _ ht hpark hc] at h
        cases h
        exact sound_setThread s _ i t _ ht rfl rfl hf hp hpark hlen
      · rw [stepThread_unlock s i t _ ht hpark hc] at h
        simp only [hw, if_true] at h
        cases h
        exact sound_setThread s _ i t _ ht rfl rfl hf hp hpark hlen
      · rw [stepThread_rUnlock s i t _ ht hpark hc] at h
        simp only [hrd, if_false] at h
        cases h
        exact sound_setThread s _ i t _ ht rfl rfl hf hp hpark hlen

/-- Every step of a run of `mutexExample` keeps the program sound and is one
statement less to run. -/
theorem pool_step_sound (c0 : Int) (m : Nat) (s s1 : World) (p : Pick)
    (hinv : PoolInv c0 m s) (hr : ReadersInv s) (hs : Sound s) (h : s.step p = some s1) :
    Sound s1 ∧ todo s1 < todo s := by
  have hb1 := (World.step_wgBalanced s s1 p hs.1 h).1
  have hm : s.main ≠ [] := by
    intro hnil
    rw [step_of_main_nil s p hnil] at h
    cases h
  obtain ⟨e1, e2⟩ := step_while_running s hs.2.1 hm
  cases p with
  | main =>
    rw [e1] at h
    obtain ⟨h1, h2, h3⟩ := stepMain_todo s s1 h
    exact ⟨⟨hb1, by rw [h1]; exact hs.2.1, h3 hs.2.2⟩, by omega⟩
  | thread i =>
    rw [e2 i] at h
    obtain ⟨h1, h2, h3⟩ := pool_stepThread_sound c0 m s s1 i hinv hr hs h
    exact ⟨⟨hb1, h1, h2⟩, h3⟩

theorem pool_exec_sound (c0 : Int) (m : Nat) (sched : List Pick) : ∀ s : World,
    PoolInv c0 m s → ReadersInv s → Sound s →
    PoolInv c0 m (s.exec sched) ∧ ReadersInv (s.exec sched) ∧ Sound (s.exec sched) := by
  induction sched with
  | nil => intro s h hr hs; exact ⟨h, hr, hs⟩
  | cons p ps ih =>
    intro s h hr hs
    simp only [World.exec]
    cases hst : s.step p with
    | none => exact ih s h hr hs
    | some s1 =>
      exact ih s1 (step_poolInv c0 m s s1 p h hst) (step_readersInv c0 m s s1 p h hr hst)
        (pool_step_sound c0 m s s1 p h hr hs hst).1

/-- A goroutine that is not parked can take its step, unless it waits for the
lock. -/
theorem stepThread_enabled (s : World) (i : Nat) (t : Thread) (op : Op) (rest : List Op)
    (ht : s.threads[i]? = some t) (hpark : t.parked = false) (hc : t.code = op :: rest)
    (hop : (op = .lock ∧ s.mtx.writer = false ∧ s.mtx.readers = 0) ∨
      (op = .rLock ∧ s.mtx.writer = false) ∨ op = .wgDone ∨ op = .load .counterMutex ∨
      op = .store .counterMutex ∨ op = .printHello .counterMutex ∨ op = .unlock ∨
      op = .rUnlock) : (s.stepThread i).isSome = true := by
  rcases hop with ⟨rfl, hw, hrd⟩ | ⟨rfl, hw⟩ | rfl | rfl | rfl | rfl | rfl | rfl
  · rw [stepThread_lock s i t _ ht hpark hc]; simp [hw, hrd]
  · rw [stepThread_rLock s i t _ ht hpark hc]; simp [hw]
  · rw [stepThread_wgDone s i t _ ht hpark hc]; split <;> rfl
  · rw [stepThread_load s i t _ _ ht hpark hc]; rfl
  · rw [stepThread_store s i t _ _ ht hpark hc]; rfl
  · rw [stepThread_printHello s i t _ _ ht hpark hc]; rfl
  · rw [stepThread_unlock s i t _ ht hpark hc]; split <;> rfl
  · rw [stepThread_rUnlock s i t _ ht hpark hc]; split <;> rfl

theorem exists_mem_ne_zero_of_sum_ne_zero {α : Type} (f : α → Nat) (l : List α)
    (h : (l.map f).sum ≠ 0) : ∃ a ∈ l, f a ≠ 0 := by
  by_contra hno
  have hall : ∀ x ∈ l.map f, x = 0 := by
    intro x hx
    obtain ⟨a, ha, rfl⟩ := List.mem_map.mp hx
    by_contra hne
    exact hno ⟨a, ha, hne⟩
  exact h (List.sum_eq_zero_iff.mpr hall)

/-- No deadlock: while `main` of `mutexExample` has not returned, some
goroutine can take a step. -/
theorem pool_progress (c0 : Int) (m : Nat) (s : World) (hinv : PoolInv c0 m s)
    (hr : ReadersInv s) (hs : Sound s) (hm : s.main ≠ []) :
    ∃ p, (s.step p).isSome = true := by
  obtain ⟨e1, e2⟩ := step_while_running s hs.2.1 hm
  have hinv' := hinv
  obtain ⟨⟨hp, ⟨h, hwr, hb, hcs⟩, _, _⟩, hpm, _, _⟩ := hinv
  cases hmain : s.main with
  | nil => exact absurd hmain hm
  | cons st rest =>
    have hst : poolStmt st = true := hpm st (by rw [hmain]; simp)
    cases st with
    | println str => exact ⟨.main, by rw [e1, stepMain_println s _ _ hmain]; rfl⟩
    | gomaxprocs k => exact ⟨.main, by rw [e1, stepMain_gomaxprocs s _ _ hmain]; rfl⟩
    | wgAdd k => exact ⟨.main, by rw [e1, stepMain_wgAdd s _ _ hmain]; rfl⟩
    | go body => exact ⟨.main, by rw [e1, stepMain_go s _ _ hmain]; rfl⟩
    | rLock => simp [poolStmt] at hst
    | lock => simp [poolStmt] at hst
    | makeChan cap => simp [poolStmt] at hst
    | setMsg str => simp [poolStmt] at hst
    | sleep ms => simp [poolStmt] at hst
    | printTimeWaited => simp [poolStmt] at hst
    | printThreads => simp [poolStmt] at hst
    | wgWait =>
      by_cases hz : s.wg = 0
      · exact ⟨.main, by rw [e1, stepMain_wgWait s _ hmain]; simp [hz]⟩
      · obtain ⟨owed, hmatch, hwg⟩ := hs.1
        have howed : owed = 0 := by
          rw [hmain] at hmatch
          simp only [matchedFrom, Bool.and_eq_true, beq_iff_eq] at hmatch
          exact hmatch.1
        have hpd : (s.threads.map (fun t => dones t.code)).sum ≠ 0 := by
          simp only [World.pendingDones] at hwg
          omega
        have henabled : ∀ (j : Nat) (t : Thread) (op : Op) (rs : List Op),
            s.threads[j]? = some t → t.code = op :: rs →
            ((op = .lock ∧ s.mtx.writer = false ∧ s.mtx.readers = 0) ∨
              (op = .rLock ∧ s.mtx.writer = false) ∨ op = .wgDone ∨
              op = .load .counterMutex ∨ op = .store .counterMutex ∨
              op = .printHello .counterMutex ∨ op = .unlock ∨ op = .rUnlock) →
            ∃ p, (s.step p).isSome = true := by
          intro j t op rs htj hcj hop
          refine ⟨.thread j, ?_⟩
          rw [e2]
          exact stepThread_enabled s j t op rs htj (hp t (List.getElem?_mem htj)).1 hcj hop
        cases hw : s.mtx.writer with
        | true =>
          -- the goroutine that holds the write lock goes on
          have hsome : h.isSome = true := by rw [← hwr, hw]
          obtain ⟨j, hj⟩ := Option.isSome_iff_exists.mp hsome
          obtain ⟨t, htj, hfn, hl2, hl4⟩ := hb j hj
          obtain ⟨_, _, k, hk⟩ := hp t (List.getElem?_mem htj)
          rw [hfn] at hk
          rcases Nat.lt_or_ge k 5 with h5 | h5
          · interval_cases k
            · rw [hk] at hl4; simp [incrementMutex, inc] at hl4
            · exact henabled j t (.load .counterMutex) [.store .counterMutex, .unlock, .wgDone]
                htj hk (Or.inr (Or.inr (Or.inr (Or.inl rfl))))
            · exact henabled j t (.store .counterMutex) [.unlock, .wgDone] htj hk
                (Or.inr (Or.inr (Or.inr (Or.inr (Or.inl rfl)))))
            · exact henabled j t .unlock [.wgDone] htj hk
                (Or.inr (Or.inr (Or.inr (Or.inr (Or.inr (Or.inr (Or.inl rfl)))))))
            · exact henabled j t .wgDone [] htj hk (Or.inr (Or.inr (Or.inl rfl)))
          · rw [List.drop_eq_nil_of_le (by simpa [incrementMutex, inc] using h5)] at hk
            rw [hk] at hl2
            simp at hl2
        | false =>
          by_cases hrd : s.mtx.readers = 0
          · -- the lock is free: a goroutine that has not finished goes on
            obtain ⟨t, htm, hd⟩ := exists_mem_ne_zero_of_sum_ne_zero _ _ hpd
            obtain ⟨j, htj⟩ := List.mem_iff_getElem?.mp htm
            cases hcj : t.code with
            | nil => rw [hcj] at hd; exact absurd rfl hd
            | cons op rs =>
              obtain ⟨_, hop⟩ := pool_head c0 m s j t op rs hinv' hr htj hcj
              rcases hop with rfl | rfl | rfl | rfl | rfl | rfl | ⟨rfl, hw1⟩ | ⟨rfl, hr1⟩
              · exact henabled j t _ rs htj hcj (Or.inl ⟨rfl, hw, hrd⟩)
              · exact henabled j t _ rs htj hcj (Or.inr (Or.inl ⟨rfl, hw⟩))
              · exact henabled j t _ rs htj hcj (Or.inr (Or.inr (Or.inl rfl)))
              · exact henabled j t _ rs htj hcj (Or.inr (Or.inr (Or.inr (Or.inl rfl))))
              · exact henabled j t _ rs htj hcj
                  (Or.inr (Or.inr (Or.inr (Or.inr (Or.inl rfl)))))
              · exact henabled j t _ rs htj hcj
                  (Or.inr (Or.inr (Or.inr (Or.inr (Or.inr (Or.inl rfl))))))
              · rw [hw] at hw1; cases hw1
              · exact absurd hrd hr1
          · -- a goroutine that holds a read lock goes on
            have hsum : (s.threads.map holdsRead).sum ≠ 0 := by rw [← hr.1]; exact hrd
            obtain ⟨t, htm, hd⟩ := exists_mem_ne_zero_of_sum_ne_zero _ _ hsum
            obtain ⟨j, htj⟩ := List.mem_iff_getElem?.mp htm
            have hfn : t.fn = sayHelloMutex := by
              by_contra hne; simp [holdsRead, hne] at hd
            have hlen : 2 ≤ t.code.length ∧ t.code.length ≤ 3 := by
              by_contra hne; simp [holdsRead, hne] at hd
            obtain ⟨_, _, k, hk⟩ := hp t (List.getElem?_mem htj)
            rw [hfn] at hk
            rcases Nat.lt_or_ge k 4 with h4 | h4
            · interval_cases k
              · rw [hk] at hlen; simp [sayHelloMutex] at hlen
              · exact henabled j t (.printHello .counterMutex) [.rUnlock, .wgDone] htj hk
                  (Or.inr (Or.inr (Or.inr (Or.inr (Or.inr (Or.inl rfl))))))
              · exact henabled j t .rUnlock [.wgDone] htj hk
                  (Or.inr (Or.inr (Or.inr (Or.inr (Or.inr (Or.inr (Or.inr rfl)))))))
              · exact henabled j t .wgDone [] htj hk (Or.inr (Or.inr (Or.inl rfl)))
            · rw [List.drop_eq_nil_of_le (by simpa [sayHelloMutex] using h4)] at hk
              rw [hk] at hlen
              simp at hlen

/-- From every state of a run of `mutexExample` the program can run on to the
return of `main`, without panic. -/
theorem pool_completes (c0 : Int) (m : Nat) (k : Nat) : ∀ s : World, todo s ≤ k →
    PoolInv c0 m s → ReadersInv s → Sound s →
    ∃ more, (s.exec more).main = [] ∧ (s.exec more).fault = none := by
  induction k with
  | zero =>
    intro s hk hinv hr hs
    by_cases hm : s.main = []
    · exact ⟨[], hm, hs.2.1⟩
    · obtain ⟨p, hp⟩ := pool_progress c0 m s hinv hr hs hm
      obtain ⟨s1, hs1⟩ := Option.isSome_iff_exists.mp hp
      have := (pool_step_sound c0 m s s1 p hinv hr hs hs1).2
      omega
  | succ k ih =>
    intro s hk hinv hr hs
    by_cases hm : s.main = []
    · exact ⟨[], hm, hs.2.1⟩
    · obtain ⟨p, hp⟩ := pool_progress c0 m s hinv hr hs hm
      obtain ⟨s1, hs1⟩ := Option.isSome_iff_exists.mp hp
      obtain ⟨hsound1, hlt⟩ := pool_step_sound c0 m s s1 p hinv hr hs hs1
      obtain ⟨more, h1, h2⟩ := ih s1 (by omega) (step_poolInv c0 m s s1 p hinv hs1)
        (step_readersInv c0 m s s1 p hinv hr hs1) hsound1
      refine ⟨p :: more, ?_, ?_⟩
      · simp only [World.exec, hs1, Option.getD_some]; exact h1
      · simp only [World.exec, hs1, Option.getD_some]; exact h2

theorem poolInv_wgBalanced (c0 : Int) (m : Nat) (s : World) (h : PoolInv c0 m s)
    (hm : s.main ≠ []) : s.WgBalanced := by
  rcases h.2.2.2 with ⟨h1, _⟩ | ⟨_, h2⟩
  · exact absurd h1 hm
  · exact h2

theorem holdsRead_fresh (body : List Op) (hbody : body = incrementMutex ∨ body = sayHelloMutex) :
    holdsRead ⟨body, body, 0, false⟩ = 0 := by
  rcases hbody with rfl | rfl
  · simp [holdsRead, incrementMutex_ne]
  · simp [holdsRead, sayHelloMutex]

theorem writersWorld_sound (M R : Nat) (c0 : Int) (hr : wrapInt c0 = c0) :
    ReadersInv (writersWorld M R c0) ∧ Sound (writersWorld M R c0) := by
  refine ⟨⟨?_, fun _ => rfl⟩,
    poolInv_wgBalanced c0 M _ (writersWorld_poolInv M R c0 hr) (by simp [writersWorld]), rfl, ?_⟩
  · show 0 = _
    symm
    apply List.sum_eq_zero_iff.mpr
    intro x hx
    obtain ⟨t, ht, rfl⟩ := List.mem_map.mp hx
    simp only [writersWorld, List.mem_append, List.mem_replicate] at ht
    rcases ht with ⟨_, rfl⟩ | ⟨_, rfl⟩
    · exact holdsRead_fresh _ (Or.inl rfl)
    · exact holdsRead_fresh _ (Or.inr rfl)
  · intro t ht
    simp only [writersWorld, List.mem_append, List.mem_replicate] at ht
    rcases ht with ⟨_, rfl⟩ | ⟨_, rfl⟩ <;> rfl

theorem mutexExampleN_sound (n : Nat) :
    ReadersInv (World.init (mutexExampleN n)) ∧ Sound (World.init (mutexExampleN n)) :=
  ⟨⟨rfl, fun _ => rfl⟩,
    poolInv_wgBalanced 0 n _ (mutexExampleN_poolInv n) (by simp [World.init, mutexExampleN]),
    rfl, by intro t ht; simp [World.init] at ht⟩

/-- Every run from a state of `mutexExample` raises no panic, has no deadlock,
and can be continued to the return of `main`. -/
theorem pool_runs_to_end (c0 : Int) (m : Nat) (s0 : World) (sched : List Pick)
    (hinv : PoolInv c0 m s0) (hr : ReadersInv s0) (hs : Sound s0) :
    (s0.exec sched).fault = none ∧
      ((s0.exec sched).main ≠ [] → ∃ p, ((s0.exec sched).step p).isSome = true) ∧
      ∃ more, (s0.exec (sched ++ more)).main = [] ∧ (s0.exec (sched ++ more)).fault = none := by
  obtain ⟨h1, h2, h3⟩ := pool_exec_sound c0 m sched s0 hinv hr hs
  obtain ⟨more, h4, h5⟩ := pool_completes c0 m _ _ (Nat.le_refl _) h1 h2 h3
  exact ⟨h3.2.1, fun hm => pool_progress c0 m _ h1 h2 h3 hm,
    more, by rw [exec_append]; exact h4, by rw [exec_append]; exact h5⟩

/-- C7 (as amended): for every `M`, with `M` goroutines that run
`incrementMutex` (and any number `R` of goroutines that run `sayHelloMutex`)
started on a counter at `c0`, in every schedule the counter is at every
moment `c0` plus the number of goroutines that have written it, and that
number is `M` once all goroutines have finished and also whenever `wg.Wait()`
has returned: no update is lost.  The counter is an `int`: the sum wraps
around at `2^63`; when `c0 + M` does not exceed the largest `int`, the counter
stays between `c0` and `c0 + M` and ends exactly `M` above `c0`.  In
`mutexExample`, with any bound `n` for the 10 of its loop that is an `int`,
`counterMutex` is `n` when `wg.Wait()` has returned; in particular it is 10 in
`mutexExample` itself.  And these runs do return: no run panics, while `main`
has not returned some goroutine can take a step, and every run can be
continued to the return of `wg.Wait()`. -/
theorem incrementMutex_no_lost_update :
    (∀ (M R : Nat) (c0 : Int) (sched : List Pick),
      -9223372036854775808 ≤ c0 → c0 ≤ 9223372036854775807 →
      (∃ k : Nat, k ≤ M ∧ ((writersWorld M R c0).exec sched).counterMutex = wrapInt (c0 + k)) ∧
      ((∀ t ∈ ((writersWorld M R c0).exec sched).threads, t.code = []) →
        ((writersWorld M R c0).exec sched).counterMutex = wrapInt (c0 + M)) ∧
      (((writersWorld M R c0).exec sched).main = [] →
        ((writersWorld M R c0).exec sched).counterMutex = wrapInt (c0 + M))) ∧
    (∀ (M R : Nat) (c0 : Int) (sched : List Pick),
      -9223372036854775808 ≤ c0 → c0 + M ≤ 9223372036854775807 →
      c0 ≤ ((writersWorld M R c0).exec sched).counterMutex ∧
      ((writersWorld M R c0).exec sched).counterMutex ≤ c0 + M ∧
      ((∀ t ∈ ((writersWorld M R c0).exec sched).threads, t.code = []) →
        ((writersWorld M R c0).exec sched).counterMutex = c0 + M) ∧
      (((writersWorld M R c0).exec sched).main = [] →
        ((writersWorld M R c0).exec sched).counterMutex = c0 + M)) ∧
    (∀ (n : Nat) (sched : List Pick), (n : Int) ≤ 9223372036854775807 →
      0 ≤ ((World.init (mutexExampleN n)).exec sched).counterMutex ∧
      ((World.init (mutexExampleN n)).exec sched).counterMutex ≤ n ∧
      (((World.init (mutexExampleN n)).exec sched).main = [] →
        ((World.init (mutexExampleN n)).exec sched).counterMutex = n)) ∧
    (∀ sched : List Pick, ((World.init mutexExample).exec sched).main = [] →
      ((World.init mutexExample).exec sched).counterMutex = 10) ∧
    (∀ (M R : Nat) (c0 : Int) (sched : List Pick),
      -9223372036854775808 ≤ c0 → c0 ≤ 9223372036854775807 →
      ((writersWorld M R c0).exec sched).fault = none ∧
      (((writersWorld M R c0).exec sched).main ≠ [] →
        ∃ p, (((writersWorld M R c0).exec sched).step p).isSome = true) ∧
      ∃ more, ((writersWorld M R c0).exec (sched ++ more)).main = [] ∧
        ((writersWorld M R c0).exec (sched ++ more)).fault = none ∧
        ((writersWorld M R c0).exec (sched ++ more)).counterMutex = wrapInt (c0 + M)) ∧
    (∀ sched : List Pick,
      ((World.init mutexExample).exec sched).fault = none ∧
      (((World.init mutexExample).exec sched).main ≠ [] →
        ∃ p, (((World.init mutexExample).exec sched).step p).isSome = true) ∧
      ∃ more, ((World.init mutexExample).exec (sched ++ more)).main = [] ∧
        ((World.init mutexExample).exec (sched ++ more)).fault = none ∧
        ((World.init mutexExample).exec (sched ++ more)).counterMutex = 10) := by
  have hA : ∀ (M R : Nat) (c0 : Int) (sched : List Pick),
      -9223372036854775808 ≤ c0 → c0 ≤ 9223372036854775807 →
      (∃ k : Nat, k ≤ M ∧ ((writersWorld M R c0).exec sched).counterMutex = wrapInt (c0 + k)) ∧
      ((∀ t ∈ ((writersWorld M R c0).exec sched).threads, t.code = []) →
        ((writersWorld M R c0).exec sched).counterMutex = wrapInt (c0 + M)) ∧
      (((writersWorld M R c0).exec sched).main = [] →
        ((writersWorld M R c0).exec sched).counterMutex = wrapInt (c0 + M)) := by
    intro M R c0 sched h1 h2
    have hinv := exec_poolInv c0 M sched _
      (writersWorld_poolInv M R c0 (wrapInt_of_range c0 h1 h2))
    obtain ⟨h3, h4, h5⟩ := poolInv_counter c0 M _ hinv
    exact ⟨h3, fun hfin => h4 hfin (writersWorld_main M R c0 sched), h5⟩
  have hC : ∀ (n : Nat) (sched : List Pick), (n : Int) ≤ 9223372036854775807 →
      0 ≤ ((World.init (mutexExampleN n)).exec sched).counterMutex ∧
      ((World.init (mutexExampleN n)).exec sched).counterMutex ≤ n ∧
      (((World.init (mutexExampleN n)).exec sched).main = [] →
        ((World.init (mutexExampleN n)).exec sched).counterMutex = n) := by
    intro n sched hn
    have hinv := exec_poolInv 0 n sched _ (mutexExampleN_poolInv n)
    obtain ⟨⟨k, hk, h3⟩, _, h5⟩ := poolInv_counter 0 n _ hinv
    have e1 : wrapInt (0 + (k : Int)) = k := by
      rw [wrapInt_of_range _ (by omega) (by omega)]; omega
    have e2 : wrapInt (0 + (n : Int)) = n := by
      rw [wrapInt_of_range _ (by omega) (by omega)]; omega
    refine ⟨by rw [h3, e1]; omega, by rw [h3, e1]; omega, fun hm => ?_⟩
    rw [h5 hm, e2]
  refine ⟨hA, ?_, hC, ?_, ?_, ?_⟩
  · intro M R c0 sched h1 h2
    obtain ⟨⟨k, hk, h3⟩, h4, h5⟩ := hA M R c0 sched h1 (by omega)
    have e1 : wrapInt (c0 + (k : Int)) = c0 + k := wrapInt_of_range _ (by omega) (by omega)
    have e2 : wrapInt (c0 + (M : Int)) = c0 + M := wrapInt_of_range _ (by omega) (by omega)
    refine ⟨by rw [h3, e1]; omega, by rw [h3, e1]; omega, fun hfin => ?_, fun hm => ?_⟩
    · rw [h4 hfin, e2]
    · rw [h5 hm, e2]
  · intro sched hm
    exact (hC 10 sched (by decide)).2.2 hm
  · intro M R c0 sched h1 h2
    have hr := wrapInt_of_range c0 h1 h2
    obtain ⟨h3, h4, more, h5, h6⟩ := pool_runs_to_end c0 M _ sched
      (writersWorld_poolInv M R c0 hr) (writersWorld_sound M R c0 hr).1
      (writersWorld_sound M R c0 hr).2
    exact ⟨h3, h4, more, h5, h6, (hA M R c0 (sched ++ more) h1 h2).2.2 h5⟩
  · intro sched
    obtain ⟨h3, h4, more, h5, h6⟩ := pool_runs_to_end 0 10 _ sched
      (mutexExampleN_poolInv 10) (mutexExampleN_sound 10).1 (mutexExampleN_sound 10).2
    exact ⟨h3, h4, more, h5, h6, (hC 10 (sched ++ more) (by decide)).2.2 h5⟩

/-- C7 (as amended), at a concrete run: two goroutines of `incrementMutex` and
one of `sayHelloMutex` on a counter at 5, the second writer being picked once
while the first holds the lock; when `wg.Wait()` has returned the counter
is 7. -/
theorem incrementMutex_no_lost_update_witness :
    ((writersWorld 2 1 5).exec
        [.thread 2, .thread 2, .thread 2, .thread 0, .thread 0, .thread 1, .thread 0,
          .thread 0, .thread 1, .thread 1, .thread 1, .thread 1, .thread 0, .thread 1,
          .thread 2, .main]).counterMutex = 7 :=
  ((incrementMutex_no_lost_update.2.1 2 1 5
    [.thread 2, .thread 2, .thread 2, .thread 0, .thread 0, .thread 1, .thread 0,
      .thread 0, .thread 1, .thread 1, .thread 1, .thread 1, .thread 0, .thread 1,
      .thread 2, .main] (by decide) (by decide)).2.2.2 (by rfl)).trans (by decide)

/-- C7 (the claim fails on the code): the counter is an `int`, and `counterMutex++`
wraps around.  One goroutine of `incrementMutex` started on a counter at the
largest `int`, `9223372036854775807`, runs to its end and `wg.Wait()` returns:
the counter is then `-9223372036854775808`, not one above its initial value. -/
theorem incrementMutex_wraps_around :
    ((writersWorld 1 0 9223372036854775807).exec
        [.thread 0, .thread 0, .thread 0, .thread 0, .thread 0, .main]).main = [] ∧
    ((writersWorld 1 0 9223372036854775807).exec
        [.thread 0, .thread 0, .thread 0, .thread 0, .thread 0, .main]).fault = none ∧
    ((writersWorld 1 0 9223372036854775807).exec
        [.thread 0, .thread 0, .thread 0, .thread 0, .thread 0, .main]).counterMutex =
      -9223372036854775808 ∧
    ((writersWorld 1 0 9223372036854775807).exec
        [.thread 0, .thread 0, .thread 0, .thread 0, .thread 0, .main]).counterMutex ≠
      9223372036854775807 + 1 := by
  refine ⟨by decide, by decide, by decide, by decide⟩

end Goroutines

/-! ## Part 7, theorems: sessions of `BufferedWriterCloser` -/

/-- The loop of `Close`, when no call of `fmt.Println` fails, ends within
`Len + 1` iterations, without error, with an empty buffer; the chunks it
prints are not empty, have at most 8 bytes, and together they are what the
buffer held. -/
theorem closeLoop_spec (fuel : Nat) : ∀ (b : Buffer) (out : Console) (errs : List Bool),
    b.Len < fuel → (∀ e ∈ errs, e = false) →
    ∃ chunks errs1, closeLoop fuel b out errs = some ⟨0, false, ⟨⟨[]⟩⟩, out ++ chunks, errs1⟩ ∧
      chunks.flatten = b.unread ∧ ∀ c ∈ chunks, 0 < c.length ∧ c.length ≤ 8 := by
  induction fuel with
  | zero => intro b out errs h; omega
  | succ k ih =>
    intro b out errs hlen herrs
    obtain ⟨u⟩ := b
    by_cases h0 : 0 < (Buffer.mk u).Len
    · have hlen1 : (Buffer.mk (u.drop 8)).Len < k := by
        simp only [Buffer.Len, List.length_drop] at *; omega
      obtain ⟨chunks, errs1, hr, hcat, hch⟩ :=
        ih ⟨u.drop 8⟩ (out ++ [u.take 8]) errs.tail hlen1 (tail_all_false errs herrs)
      refine ⟨u.take 8 :: chunks, errs1, ?_, ?_, ?_⟩
      · simp only [closeLoop, gt_iff_lt, h0, if_true, Buffer.Next, Println_ok _ _ _ herrs]
        rw [hr]; simp
      · simp only [List.flatten_cons, hcat]
        exact List.take_append_drop 8 u
      · intro c hc
        rcases List.mem_cons.mp hc with rfl | hc
        · simp only [Buffer.Len] at h0
          simp only [List.length_take]
          omega
        · exact hch c hc
    · have hu : u = [] := by
        simp only [Buffer.Len, Nat.not_lt, Nat.le_zero_eq, List.length_eq_zero] at h0
        exact h0
      subst hu
      exact ⟨[], errs, by simp [closeLoop, Buffer.Len], rfl, by simp⟩

/-- A sequence of writes when no call of `fmt.Println` fails: every call
returns the length of its data and a nil error; the chunks printed are 8 bytes
each and, followed by what is left in the buffer, they are what the buffer
held followed by all the data. -/
theorem writeAll_spec (datas : List (List Byte)) :
    ∀ (bwc : BufferedWriterCloser) (out : Console) (errs : List Bool),
    (∀ e ∈ errs, e = false) →
    ∃ b chunks errs1, writeAll bwc out errs datas =
        some (b, out ++ chunks, errs1, datas.map (fun d => (d.length, false))) ∧
      (∀ e ∈ errs1, e = false) ∧ (∀ c ∈ chunks, c.length = 8) ∧
      chunks.flatten ++ b.buffer.unread = bwc.buffer.unread ++ datas.flatten := by
  induction datas with
  | nil => intro bwc out errs h; exact ⟨bwc, [], errs, by simp [writeAll], h, by simp, by simp⟩
  | cons d ds ih =>
    intro bwc out errs herrs
    obtain ⟨r, hr, herr, hn, hle, hre, chunks, hout, hch, hcat⟩ := Write_spec bwc d out errs herrs
    obtain ⟨b, chunks2, errs2, hw, he2, hch2, hcat2⟩ := ih r.bwc r.out r.errs hre
    refine ⟨b, chunks ++ chunks2, errs2, ?_, he2, ?_, ?_⟩
    · simp only [writeAll, hr]
      rw [hw]
      simp [herr, hn, hout]
    · intro c hc
      rcases List.mem_append.mp hc with hc | hc
      · exact hch c hc
      · exact hch2 c hc
    · rw [List.flatten_append, List.append_assoc, hcat2, ← List.append_assoc, hcat]
      simp

/-- C14 (as amended): for every sequence of calls of `Write` on a fresh writer
followed by `Close`, provided no call of `fmt.Println` fails: every call of
`Write` returns the length of its data with a nil error; every chunk printed
by the writes is exactly 8 bytes; `Close` returns a nil error and leaves the
buffer empty; and the chunks printed by the writes and by `Close`,
concatenated in the order they are printed, are the data written,
concatenated in the order of the writes. -/
theorem bufferedWriterCloser_loses_nothing (datas : List (List Byte)) (errs : List Bool)
    (herrs : ∀ e ∈ errs, e = false) :
    ∃ (bwc1 : BufferedWriterCloser) (out1 : Console) (errs1 : List Bool) (r : CallResult),
      writeAll NewBufferedWriterCloser [] errs datas =
          some (bwc1, out1, errs1, datas.map (fun d => (d.length, false))) ∧
        (∀ c ∈ out1, c.length = 8) ∧
        bwc1.Close out1 errs1 = some r ∧ r.err = false ∧ r.bwc.buffer.Len = 0 ∧
        r.bwc.buffer.unread = [] ∧ (∃ last, r.out = out1 ++ last) ∧
        r.out.flatten = datas.flatten := by
  obtain ⟨b, chunks, errs1, hw, he1, hch, hcat⟩ :=
    writeAll_spec datas NewBufferedWriterCloser [] errs herrs
  obtain ⟨last, errs2, hclose, hlast, _⟩ :=
    closeLoop_spec (b.buffer.Len + 1) b.buffer ([] ++ chunks) errs1 (Nat.lt_succ_self _) he1
  refine ⟨b, [] ++ chunks, errs1, _, hw, by simpa using hch, hclose, rfl, rfl, rfl,
    ⟨last, rfl⟩, ?_⟩
  simp only [List.nil_append, List.flatten_append, hlast, hcat]
  simp [NewBufferedWriterCloser, NewBuffer]

/-- C14 (as amended), at the first four writes of `interfaceCompositionDemo`
with no failing call: eleven chunks of 8 bytes are printed by the writes and
`Close` prints the last two bytes. -/
theorem bufferedWriterCloser_loses_nothing_witness :
    (∀ e ∈ [false, false], e = false) ∧
      writeAll NewBufferedWriterCloser [] [false, false] demoWrites =
        some (⟨⟨bytesOf "n!"⟩⟩,
          [bytesOf "Hello, t", bytesOf "his is a", bytesOf " test.Th", bytesOf "is will ",
            bytesOf "come rig", bytesOf "ht after", bytesOf ".As well", bytesOf " as this",
            bytesOf ".There i", bytesOf "s no int", bytesOf "erruptio"], [],
          [(22, false), (27, false), (16, false), (25, false)]) ∧
      BufferedWriterCloser.Close ⟨⟨bytesOf "n!"⟩⟩
          [bytesOf "Hello, t", bytesOf "his is a", bytesOf " test.Th", bytesOf "is will ",
            bytesOf "come rig", bytesOf "ht after", bytesOf ".As well", bytesOf " as this",
            bytesOf ".There i", bytesOf "s no int", bytesOf "erruptio"] [] =
        some ⟨0, false, ⟨⟨[]⟩⟩,
          [bytesOf "Hello, t", bytesOf "his is a", bytesOf " test.Th", bytesOf "is will ",
            bytesOf "come rig", bytesOf "ht after", bytesOf ".As well", bytesOf " as this",
            bytesOf ".There i", bytesOf "s no int", bytesOf "erruptio", bytesOf "n!"], []⟩ ∧
      ∃ (bwc1 : BufferedWriterCloser) (out1 : Console) (errs1 : List Bool) (r : CallResult),
        writeAll NewBufferedWriterCloser [] [false, false] demoWrites =
            some (bwc1, out1, errs1, demoWrites.map (fun d => (d.length, false))) ∧
          (∀ c ∈ out1, c.length = 8) ∧
          bwc1.Close out1 errs1 = some r ∧ r.err = false ∧ r.bwc.buffer.Len = 0 ∧
          r.bwc.buffer.unread = [] ∧ (∃ last, r.out = out1 ++ last) ∧
          r.out.flatten = demoWrites.flatten :=
  ⟨by decide, by rfl, by decide,
    bufferedWriterCloser_loses_nothing demoWrites [false, false] (by decide)⟩

/-- C14 (the claim fails on the code): when a call of `fmt.Println` fails,
`Write` returns 0 and the error (lines 149 to 152), not the length of its
data and nil.  On a fresh writer, with the first call of `fmt.Println`
failing, `Write` of the 22 bytes of `Hello, this is a test.` returns 0 with a
non-nil error; the chunk `Hello, t` has been read out of the buffer and is not
printed, so it is lost: `Close` then prints `his is a` and ` test.`, which is
not the data written.  And `Close` itself, when its call of `fmt.Println`
fails, returns the error with the chunk taken out of the buffer and not
printed. -/
theorem Write_returns_error_of_Println :
    NewBufferedWriterCloser.Write (bytesOf "Hello, this is a test.") [] [true] =
        some ⟨0, true, ⟨⟨bytesOf "his is a test."⟩⟩, [], []⟩ ∧
      (bytesOf "Hello, this is a test.").length = 22 ∧
      BufferedWriterCloser.Close ⟨⟨bytesOf "his is a test."⟩⟩ [] [] =
        some ⟨0, false, ⟨⟨[]⟩⟩, [bytesOf "his is a", bytesOf " test."], []⟩ ∧
      [bytesOf "his is a", bytesOf " test."].flatten ≠ bytesOf "Hello, this is a test." ∧
      BufferedWriterCloser.Close ⟨⟨bytesOf "n!"⟩⟩ [] [true] =
        some ⟨0, true, ⟨⟨[]⟩⟩, [], []⟩ := by
  refine ⟨by decide, by decide, by decide, by decide, by decide⟩

/-! ## Part 8, theorems: the two drain loops -/

namespace Channels

open Runtime

/-- The two loops do the same on every queue, whatever its state. -/
theorem manualForLoop_eq_forRangeLoop (fuel : Nat) : ∀ (ch : Chan Int) (out : List Line)
    (n : Nat) (oks : List Bool),
    (manualForLoop fuel ch out n oks).map Prod.fst = forRangeLoop fuel ch out n := by
  induction fuel with
  | zero => intro ch out n oks; rfl
  | succ k ih =>
    intro ch out n oks
    simp only [manualForLoop, forRangeLoop, recvOk]
    cases h : ch.recv with
    | value v c w => simpa using ih c _ _ _
    | closedEmpty => simp
    | blocks => simp

/-- On a closed queue that holds `items`, the loop with the ok flag prints the
items in order and leaves at the receive after the last one. -/
theorem manualForLoop_closed (items : List Int) : ∀ (cap : Nat) (out : List Line) (n : Nat)
    (oks : List Bool),
    manualForLoop (items.length + 1) ⟨cap, items, [], true⟩ out n oks =
      some (⟨out ++ items.map (localLine ""), ⟨cap, [], [], true⟩, n + items.length + 1, true⟩,
        oks ++ List.replicate items.length true ++ [false]) := by
  induction items with
  | nil => intro cap out n oks; simp [manualForLoop, recvOk, Chan.recv]
  | cons x xs ih =>
    intro cap out n oks
    have h := ih cap (out ++ [localLine "" x]) (n + 1) (oks ++ [true])
    have e : manualForLoop ((x :: xs).length + 1) ⟨cap, x :: xs, [], true⟩ out n oks =
        manualForLoop (xs.length + 1) ⟨cap, xs, [], true⟩ (out ++ [localLine "" x]) (n + 1)
          (oks ++ [true]) := rfl
    rw [e, h]
    simp [List.replicate_succ, Nat.add_assoc, Nat.add_comm 1]

/-- On a closed queue that holds `items`, the for-range loop prints the items
in order and leaves at the receive after the last one. -/
theorem forRangeLoop_closed (items : List Int) (cap : Nat) (out : List Line) (n : Nat) :
    forRangeLoop (items.length + 1) ⟨cap, items, [], true⟩ out n =
      some ⟨out ++ items.map (localLine ""), ⟨cap, [], [], true⟩, n + items.length + 1, true⟩ := by
  rw [← manualForLoop_eq_forRangeLoop _ _ _ _ [], manualForLoop_closed]
  rfl

/-- C13: the loop with the ok flag of `manualForLoopChannelDemo` and the
for-range loop of `forRangeLoopChannelDemo` do the same on every queue: from
any state of the queue they print the same lines, leave the queue in the same
state after the same number of receives, and both have left the loop or both
wait.  On a queue that holds `items` and is closed, each prints exactly the
items in the order they were buffered, the flag being true for each, and
leaves at the receive after the last item (`items.length + 1` receives), the
flag being false there.  In the machine, each of the two demos, run under a
schedule to the return of `main`, prints its headline and then 42, 27, 14. -/
theorem drain_loops_equivalent :
    (∀ (fuel : Nat) (ch : Chan Int) (out : List Line) (n : Nat),
      (manualForLoop fuel ch out n []).map Prod.fst = forRangeLoop fuel ch out n) ∧
    (∀ (items : List Int) (cap : Nat),
      manualForLoop (items.length + 1) ⟨cap, items, [], true⟩ [] 0 [] =
        some (⟨items.map (localLine ""), ⟨cap, [], [], true⟩, items.length + 1, true⟩,
          List.replicate items.length true ++ [false])) ∧
    (∀ (items : List Int) (cap : Nat),
      forRangeLoop (items.length + 1) ⟨cap, items, [], true⟩ [] 0 =
        some ⟨items.map (localLine ""), ⟨cap, [], [], true⟩, items.length + 1, true⟩) ∧
    ((World.init (manualForLoopChannelDemo 0)).exec
        [.main, .main, .main, .main, .main, .thread 1, .thread 1, .thread 1, .thread 1,
          .thread 0, .thread 0, .thread 0, .thread 0, .thread 0, .thread 1, .main]).out =
      [.text "Manual for loop over channel demo:\n", .text "42\n", .text "27\n",
        .text "14\n"] ∧
    ((World.init (forRangeLoopChannelDemo 0)).exec
        [.main, .main, .main, .main, .main, .thread 1, .thread 0, .thread 0, .thread 1,
          .thread 1, .thread 0, .thread 1, .thread 0, .thread 0, .thread 0, .thread 1,
          .main]).out =
      [.text "For-range loop over channel demo:\n", .text "42\n", .text "27\n",
        .text "14\n"] := by
  refine ⟨fun fuel ch out n => manualForLoop_eq_forRangeLoop fuel ch out n [], ?_, ?_,
    by decide, by decide⟩
  · intro items cap
    have := manualForLoop_closed items cap [] 0 []
    simpa using this
  · intro items cap
    have := forRangeLoop_closed items cap [] 0
    simpa using this

end Channels

/-! ## Part 9, theorems: `main` of 05-channels-logger after `loggerDemo` -/

namespace ChannelsLogger

/-- A receive from a channel with no parked sender releases nobody and leaves
the closed flag as it is. -/
theorem Chan.recv_value_noSender {α : Type} (c c1 : Chan α) (v : α) (w : Option Nat)
    (hsq : c.sendq = []) (h : c.recv = .value v c1 w) :
    w = none ∧ c1.closed = c.closed ∧ c1.sendq = [] := by
  obtain ⟨cap, buf, sendq, closed⟩ := c
  simp only at hsq
  subst hsq
  cases buf with
  | nil =>
    simp only [Chan.recv] at h
    split at h <;> cases h
  | cons b rest =>
    simp only [Chan.recv] at h
    cases h
    exact ⟨rfl, rfl, rfl⟩

/-- When `loggerDemo` has returned, the program is in the states of
`betterLoggerDemo`. -/
theorem demoState_inBetterLoggerDemo (t1 t2 t3 t4 : Time) (d p : Nat) (r : Bool) :
    (demoState t1 t2 t3 t4 6 d p r).InBetterLoggerDemo t3 t4 :=
  ⟨rfl, rfl, rfl, rfl, rfl, 0, by omega, rfl⟩

/-- Every step from the return of `loggerDemo` on keeps `logCh` closed and
`main` before its first send of `betterLoggerDemo`. -/
theorem World.step_inBetterLoggerDemo (t3 t4 : Time) (s s1 : World) (t : Tid)
    (h : s.InBetterLoggerDemo t3 t4) (hs : s.step t = some s1) :
    s1.InBetterLoggerDemo t3 t4 := by
  obtain ⟨hcl, hsq, hpk, hbl, hdn, j, hj, hmain⟩ := h
  unfold World.step at hs
  split at hs
  · cases hs
  · cases hs
  · cases t with
    | main =>
      simp only [World.stepMain, hpk] at hs
      interval_cases j
      · rw [hmain] at hs
        simp only [betterLoggerDemo, List.drop_zero, Bool.false_eq_true, if_false] at hs
        cases hs
        exact ⟨hcl, hsq, rfl, hbl, hdn, 1, by omega, rfl⟩
      · rw [hmain] at hs
        simp only [betterLoggerDemo, List.drop_succ_cons, List.drop_zero, Bool.false_eq_true,
          if_false] at hs
        cases hs
        exact ⟨hcl, hsq, rfl, hbl, hdn, 2, by omega, rfl⟩
      · rw [hmain] at hs
        simp only [betterLoggerDemo, List.drop_succ_cons, List.drop_zero, Bool.false_eq_true,
          if_false, World.chan, Chan.send, hcl, if_true] at hs
        cases hs
        exact ⟨hcl, hsq, rfl, hbl, hdn, 2, by omega, rfl⟩
    | logger =>
      simp only [World.stepLogger] at hs
      split at hs
      · split at hs
        · cases hs
          exact ⟨hcl, hsq, hpk, hbl, hdn, j, hj, hmain⟩
        · cases hrecv : s.logCh.recv with
          | value v c w =>
            simp only [hrecv] at hs
            cases hs
            obtain ⟨rfl, hc1, hc2⟩ := Chan.recv_value_noSender s.logCh c v w hsq hrecv
            exact ⟨by rw [← hcl]; exact hc1, hc2, hpk, hbl, hdn, j, hj, hmain⟩
          | closedEmpty =>
            simp only [hrecv] at hs
            cases hs
            exact ⟨hcl, hsq, hpk, hbl, hdn, j, hj, hmain⟩
          | blocks => simp [hrecv] at hs
      · cases hs
    | betterLogger pick =>
      simp only [World.stepBetterLogger] at hs
      split at hs
      · cases pick <;>
          simp [betterLoggerIter, hbl, hdn, makeChan, Chan.recv] at hs
      · cases hs

/-- Every run of `main` is in the states of `loggerDemo` or, once `loggerDemo`
has returned, in those of `betterLoggerDemo` before its first send. -/
theorem World.exec_inBetterLoggerDemo (t1 t2 t3 t4 : Time) (sched : List Tid) :
    ∀ s : World, (s.InLoggerDemo t1 t2 t3 t4 false 0 ∨ s.InBetterLoggerDemo t3 t4) →
      ((s.exec sched).InLoggerDemo t1 t2 t3 t4 false 0 ∨
        (s.exec sched).InBetterLoggerDemo t3 t4) := by
  induction sched with
  | nil => intro s h; exact h
  | cons t ts ih =>
    intro s h
    simp only [World.exec]
    apply ih
    have hB : s.InBetterLoggerDemo t3 t4 →
        ((s.step t).getD s).InBetterLoggerDemo t3 t4 := by
      intro hb
      cases hs : s.step t with
      | none => exact hb
      | some s1 => exact World.step_inBetterLoggerDemo t3 t4 s s1 t hb hs
    rcases h with ⟨k, d, p, r, hk, hd, hp, hdp, hr, hti, rfl⟩ | h
    · by_cases hk6 : k < 6
      · left
        cases t with
        | main =>
          rw [demoState_step_main t1 t2 t3 t4 k d p r hk6 hd hp hr]
          refine ⟨k + 1, d, p, r, by omega, le_trans hd (sentCount_mono k), hp, hdp, ?_,
            by simp, rfl⟩
          intro hrt; have := (hr hrt).1; omega
        | logger =>
          rw [demoState_step_logger t1 t2 t3 t4 k d p r hk hd hp hdp]
          split_ifs with h1 h2 h3 h4
          · exact ⟨k, d, p, r, hk, hd, hp, hdp, hr, hti, rfl⟩
          · exact ⟨k, d, p + 1, false, hk, hd, by omega, by omega, by simp, by simp, rfl⟩
          · exact ⟨k, d + 1, p, false, hk, h3, by omega, by omega, by simp, by simp, rfl⟩
          · omega
          · exact ⟨k, d, p, r, hk, hd, hp, hdp, hr, hti, rfl⟩
        | betterLogger q =>
          rw [demoState_step_betterLogger t1 t2 t3 t4 k d p r q hk]
          exact ⟨k, d, p, r, hk, hd, hp, hdp, hr, hti, rfl⟩
      · have hk6' : k = 6 := by omega
        subst hk6'
        exact Or.inr (hB (demoState_inBetterLoggerDemo t1 t2 t3 t4 d p r))
    · exact Or.inr (hB h)

/-- C12 (evaluation of the code where the claim fails): in the run of `main`
in which only `main` is scheduled, the six statements of `loggerDemo` leave
`logCh` closed, and the third statement of `betterLoggerDemo` then sends on
`logCh`: the program stops with the panic `send on closed channel`.  And in
every run of `main`, whatever the times and the schedule, `main` never gets
past that send; whenever `main` stands at it, `logCh` is closed and has no
parked sender, and the step of `main`, unless the program has panicked
already, is the panic of a send on the closed `logCh`. -/
theorem main_sends_on_logCh_after_close :
    ((World.init (main Time.zero Time.zero Time.zero Time.zero)).exec
        [.main, .main, .main, .main, .main, .main]).logCh.closed = true ∧
    ((World.init (main Time.zero Time.zero Time.zero Time.zero)).exec
        [.main, .main, .main, .main, .main, .main, .main, .main]).main =
      [.send .logCh ⟨Time.zero, logInfo, "App is starting"⟩, .sleep 2000,
        .send .logCh ⟨Time.zero, logInfo, "App is shutting down"⟩, .sleep 100, .sendDone] ∧
    ((World.init (main Time.zero Time.zero Time.zero Time.zero)).exec
        [.main, .main, .main, .main, .main, .main, .main, .main]).fault = none ∧
    ((World.init (main Time.zero Time.zero Time.zero Time.zero)).exec
        [.main, .main, .main, .main, .main, .main, .main, .main, .main]).fault =
      some .sendOnClosedChannel ∧
    ∀ (t1 t2 t3 t4 : Time) (sched : List Tid),
      (betterLoggerDemo t3 t4).drop 2 <:+ ((World.init (main t1 t2 t3 t4)).exec sched).main ∧
      (((World.init (main t1 t2 t3 t4)).exec sched).main = (betterLoggerDemo t3 t4).drop 2 →
        ((World.init (main t1 t2 t3 t4)).exec sched).logCh.closed = true ∧
        ((World.init (main t1 t2 t3 t4)).exec sched).logCh.sendq = [] ∧
        (((World.init (main t1 t2 t3 t4)).exec sched).fault = none →
          ((World.init (main t1 t2 t3 t4)).exec sched).step .main =
            some { (World.init (main t1 t2 t3 t4)).exec sched with
              fault := some .sendOnClosedChannel })) := by
  refine ⟨by decide, by decide, by decide, by decide, ?_⟩
  intro t1 t2 t3 t4 sched
  have hinv := World.exec_inBetterLoggerDemo t1 t2 t3 t4 sched _
    (Or.inl (inLoggerDemo_init t1 t2 t3 t4 false 0))
  generalize (World.init (main t1 t2 t3 t4)).exec sched = s at hinv
  rcases hinv with ⟨k, d, p, r, hk, hd, hp, hdp, hr, hti, rfl⟩ |
    ⟨hcl, hsq, hpk, hbl, hdn, j, hj, hmain⟩
  · constructor
    · refine List.IsSuffix.trans (List.drop_suffix 2 _) ?_
      exact List.suffix_append _ _
    · intro hm
      have hlen := congrArg List.length hm
      simp only [demoState, List.length_append, List.length_drop, loggerDemo, betterLoggerDemo,
        List.length_cons, List.length_nil] at hlen
      omega
  · constructor
    · rw [hmain]
      interval_cases j
      · exact List.drop_suffix 2 _
      · exact ⟨[.goBetterLogger], rfl⟩
      · exact List.suffix_refl _
    · intro hm
      refine ⟨hcl, hsq, ?_⟩
      intro hf
      simp only [World.step, hf, hm, betterLoggerDemo, List.drop_succ_cons, List.drop_zero,
        World.stepMain, hpk, Bool.false_eq_true, if_false, World.chan, Chan.send, hcl, if_true]

end ChannelsLogger
/-! ## Part 10, theorems: the lock discipline of the counters -/

namespace Goroutines

open Runtime

/-- In the states of `mutexExample` a goroutine reads `counterMutex` to print
it with the lock held in shared mode, and reads and writes it in
`counterMutex++` with the lock held in exclusive mode. -/
theorem poolInv_lockHeld (c0 m : Nat) (s : World) (i : Nat) (t : Thread) (op : Op)
    (rest : List Op) (hinv : PoolInv c0 m s) (hr : ReadersInv s)
    (ht : s.threads[i]? = some t) (hc : t.code = op :: rest) : lockHeld s.mtx op = true := by
  obtain ⟨⟨hp, ⟨h, hwr, hb, hcs⟩, _, _⟩, _, _, _⟩ := hinv
  obtain ⟨hpark, hfn, k, hcode⟩ := hp t (List.getElem?_mem ht)
  have hexcl : InCS t → s.mtx.writer = true ∧ s.mtx.readers = 0 := by
    intro hin
    have hh := hcs i t ht hin
    have hw : s.mtx.writer = true := by rw [hwr, hh]; rfl
    exact ⟨hw, hr.2 hw⟩
  rcases hfn with hf | hf
  · rw [hf, hc] at hcode
    rcases Nat.lt_or_ge k 5 with hk | hk
    · interval_cases k
      · cases hcode; rfl
      · cases hcode
        obtain ⟨h1, h2⟩ := hexcl ⟨hf, by simp [hc], by simp [hc]⟩
        simp [lockHeld, h1, h2]
      · cases hcode
        obtain ⟨h1, h2⟩ := hexcl ⟨hf, by simp [hc], by simp [hc]⟩
        simp [lockHeld, h1, h2]
      · cases hcode; rfl
      · cases hcode; rfl
    · rw [List.drop_eq_nil_of_le (by simpa [incrementMutex, inc] using hk)] at hcode
      cases hcode
  · rw [hf, hc] at hcode
    rcases Nat.lt_or_ge k 4 with hk | hk
    · interval_cases k
      · cases hcode; rfl
      · cases hcode
        have h1 : holdsRead t = 1 := by simp [holdsRead, hf, hc]
        have h2 := le_sum_map_of_getElem? holdsRead s.threads i t ht
        have h3 : 1 ≤ s.mtx.readers := by rw [hr.1]; omega
        have h4 : s.mtx.writer = false := by
          cases hw : s.mtx.writer with
          | false => rfl
          | true => have := hr.2 hw; omega
        simp [lockHeld, h3, h4]
      · cases hcode; rfl
      · cases hcode; rfl
    · rw [List.drop_eq_nil_of_le (by simpa [sayHelloMutex] using hk)] at hcode
      cases hcode

/-- In the states of `betterMutexExample`, while the program runs, a
goroutine reads `counterBetterMutex` to print it with the lock held in shared
mode, and reads and writes it in `counterBetterMutex++` with the lock held in
exclusive mode. -/
theorem betterInv_lockHeld (n : Nat) (s : World) (i : Nat) (t : Thread) (op : Op)
    (rest : List Op) (hinv : BetterInv n s) (hm : s.main ≠ [])
    (ht : s.threads[i]? = some t) (hc : t.code = op :: rest) : lockHeld s.mtx op = true := by
  obtain ⟨ph, hv, hmain, hout, hrest⟩ := hinv
  have hquiet : Quiet t → lockHeld s.mtx op = true := by
    intro hq
    rcases hq with hq | hq
    · rw [hq] at hc; cases hc; rfl
    · rw [hq] at hc; cases hc
  rcases hrest with rfl | ⟨hmtx, _, hths⟩
  · exact absurd hmain hm
  · cases ph with
    | pre p =>
      simp only [BetterPhase.ThreadsOk, BetterPhase.active] at hths
      exact hquiet (hths t (List.getElem?_mem ht))
    | idle a b =>
      simp only [BetterPhase.ThreadsOk, BetterPhase.active] at hths
      exact hquiet (hths t (List.getElem?_mem ht))
    | final => exact absurd hmain hm
    | hello a b =>
      simp only [BetterPhase.ThreadsOk, BetterPhase.active] at hths
      obtain ⟨qs, t0, h1, h2, h3, _, _⟩ := hths
      have hmem := List.getElem?_mem ht
      rw [h1] at hmem
      rcases List.mem_append.mp hmem with hq | hq
      · exact hquiet (h2 t hq)
      · simp only [List.mem_singleton] at hq
        subst hq
        rw [hc] at h3
        obtain ⟨_, hb⟩ := hv
        rw [hmtx]
        interval_cases b
        · cases h3; rfl
        · cases h3; rfl
    | incr a b c =>
      simp only [BetterPhase.ThreadsOk, BetterPhase.active] at hths
      obtain ⟨qs, t0, h1, h2, h3, _, _⟩ := hths
      have hmem := List.getElem?_mem ht
      rw [h1] at hmem
      rcases List.mem_append.mp hmem with hq | hq
      · exact hquiet (h2 t hq)
      · simp only [List.mem_singleton] at hq
        subst hq
        rw [hc] at h3
        obtain ⟨_, _, _, _, hcl⟩ := hv
        rw [hmtx]
        interval_cases c
        · cases h3; rfl
        · cases h3; rfl
        · cases h3; rfl

/-- C11 (as amended): in every run of `mutexExample` and in every run of
`betterMutexExample` from the initial state, whatever the schedule and with
any bound `n` for the 10 of the loop, whenever a goroutine runs a statement,
`mtx` is held in the mode the statement needs: in shared mode (no writer, at
least one reader) when it reads the counter to print it, in exclusive mode (a
writer, no reader) when it reads or writes the counter in `counterMutex++` or
`counterBetterMutex++`.  In `mutexExample` moreover the readers of `mtx` are
at every moment the goroutines of `sayHelloMutex` between their `mtx.RLock()`
and their `mtx.RUnlock()`, and there is none while a writer holds the lock. -/
theorem counter_accessed_under_lock (n : Nat) (prog : List Stmt) (sched : List Pick) (i : Nat)
    (t : Thread) (op : Op) (rest : List Op)
    (hprog : prog = mutexExampleN n ∨ prog = betterMutexExampleN n)
    (ht : ((World.init prog).exec sched).threads[i]? = some t) (hc : t.code = op :: rest)
    (hstep : (((World.init prog).exec sched).step (.thread i)).isSome = true) :
    lockHeld ((World.init prog).exec sched).mtx op = true ∧
      (prog = mutexExampleN n → ReadersInv ((World.init prog).exec sched)) := by
  have hr0 : ReadersInv (World.init (mutexExampleN n)) := ⟨rfl, fun _ => rfl⟩
  have hR := exec_readersInv 0 n sched _ (mutexExampleN_poolInv n) hr0
  refine ⟨?_, fun hp => by rw [hp]; exact hR⟩
  rcases hprog with rfl | rfl
  · exact poolInv_lockHeld 0 n _ i t op rest (exec_poolInv 0 n sched _ (mutexExampleN_poolInv n))
      hR ht hc
  · refine betterInv_lockHeld n _ i t op rest (exec_betterInv n sched _ (init_betterInv n)) ?_
      ht hc
    intro hnil
    rw [step_of_main_nil _ _ hnil] at hstep
    cases hstep

/-- C11 (as amended), at concrete runs with one iteration of the loop: the
goroutine of `sayHelloMutex` that has taken the read lock prints with `mtx`
held in shared mode, and the goroutine of `incrementBetterMutex`, started by
`main` with the write lock taken, reads the counter with `mtx` held in
exclusive mode. -/
theorem counter_accessed_under_lock_witness :
    (lockHeld ((World.init (mutexExampleN 1)).exec
        [.main, .main, .main, .main, .main, .thread 0]).mtx (.printHello .counterMutex) = true ∧
      ((World.init (mutexExampleN 1)).exec
        [.main, .main, .main, .main, .main, .thread 0]).mtx = ⟨false, 1⟩) ∧
    (lockHeld ((World.init (betterMutexExampleN 1)).exec
        [.main, .main, .main, .main, .main, .thread 0, .thread 0, .main, .main]).mtx
        (.load .counterBetterMutex) = true ∧
      ((World.init (betterMutexExampleN 1)).exec
        [.main, .main, .main, .main, .main, .thread 0, .thread 0, .main, .main]).mtx =
        ⟨true, 0⟩) :=
  ⟨⟨(counter_accessed_under_lock 1 (mutexExampleN 1)
      [.main, .main, .main, .main, .main, .thread 0] 0
      ⟨sayHelloMutex, [.printHello .counterMutex, .rUnlock, .wgDone], 0, false⟩
      (.printHello .counterMutex) [.rUnlock, .wgDone] (Or.inl rfl) (by decide) rfl
      (by decide)).1, by decide⟩,
    ⟨(counter_accessed_under_lock 1 (betterMutexExampleN 1)
      [.main, .main, .main, .main, .main, .thread 0, .thread 0, .main, .main] 1
      ⟨incrementBetterMutex, incrementBetterMutex, 0, false⟩
      (.load .counterBetterMutex) [.store .counterBetterMutex, .unlock, .wgDone] (Or.inr rfl)
      (by decide) rfl (by decide)).1, by decide⟩⟩

/-- C11 (the claim fails on the code): in `forWaitGroupExample` the
goroutines `sayHello` and `increment` touch `counter` with `mtx` not held at
all.  After the first iteration of the loop both are started and `mtx` is
free; `sayHello` can run its read of `counter`, `increment` its read and then
its write, and `mtx` is free before each of these statements and after the
last: `counter` has gone from 0 to 1 with the lock never taken. -/
theorem forWaitGroupExample_touches_counter_unlocked :
    ((World.init forWaitGroupExample).exec [.main, .main, .main, .main]).threads =
      [⟨sayHello, [.printHello .counter, .wgDone], 0, false⟩,
        ⟨increment, [.load .counter, .store .counter, .wgDone], 0, false⟩] ∧
    ((World.init forWaitGroupExample).exec [.main, .main, .main, .main]).mtx = ⟨false, 0⟩ ∧
    lockHeld ((World.init forWaitGroupExample).exec [.main, .main, .main, .main]).mtx
      (.printHello .counter) = false ∧
    (((World.init forWaitGroupExample).exec [.main, .main, .main, .main]).step
      (.thread 0)).isSome = true ∧
    lockHeld ((World.init forWaitGroupExample).exec [.main, .main, .main, .main]).mtx
      (.load .counter) = false ∧
    (((World.init forWaitGroupExample).exec [.main, .main, .main, .main]).step
      (.thread 1)).isSome = true ∧
    lockHeld ((World.init forWaitGroupExample).exec
      [.main, .main, .main, .main, .thread 1]).mtx (.store .counter) = false ∧
    (((World.init forWaitGroupExample).exec [.main, .main, .main, .main, .thread 1]).step
      (.thread 1)).isSome = true ∧
    ((World.init forWaitGroupExample).exec
      [.main, .main, .main, .main, .thread 1, .thread 1]).counter = 1 ∧
    ((World.init forWaitGroupExample).exec
      [.main, .main, .main, .main, .thread 1, .thread 1]).mtx = ⟨false, 0⟩ := by
  refine ⟨by decide, by decide, by decide, by decide, by decide, by decide, by decide,
    by decide, by decide, by decide⟩

end Goroutines
end GoNotes
